import Mathlib

/-!
# Idisi: the formatted counter animations of `scripts/main2.js`

A shallow embedding of the four counter animations of the page script
(`HeroSection.animateCounter`, `EnhancedHeroAnimations.animateCounter`,
`ServicesSection.animateMetric`, `CaseMetricsAnimation.animateMetric`) together with
the string helpers they rely on.

Modelling conventions.

* An element's `textContent` is a list of characters (`Text`).
* A JavaScript number is `Option ℚ`: `none` is `NaN`, `some q` a finite value.  Doubles are
  idealised as exact rationals, so rounding error and overflow to `Infinity` are outside the
  model.  Timestamps (`performance.now()`, the argument of a frame callback) are finite and
  are plain rationals.  The section on double precision is the exception: it evaluates the
  value formula of `CaseMetricsAnimation.animateMetric` with every operation rounded to the
  nearest double, and shows where the two arithmetics part.
* The part of the page a counter touches is a `Dom`: the element's `textContent` and the
  number of callbacks handed to `requestAnimationFrame` that have not run yet.
-/

namespace Idisi

/-- The text content of an element. -/
abbrev Text := List Char

/-- The state a counter animation acts on: the text of its element and the number of
pending `requestAnimationFrame` callbacks of this animation. -/
structure Dom where
  textContent : Text
  frameRequests : ℕ
  deriving DecidableEq, Repr

/-! ## String and number helpers of the host language -/

/-- `s.includes(c)` for a search string of one character. -/
def includes (s : Text) (c : Char) : Bool := s.contains c

/-- `s.replace(/[^\d.]/g, '')`: every character that is neither an ASCII digit nor `.` is
deleted. -/
def stripNonNumeric (s : Text) : Text := s.filter (fun c => c.isDigit || c == '.')

/-- Value of one ASCII digit. -/
def digitValue (c : Char) : ℕ := c.toNat - '0'.toNat

/-- Value of a run of ASCII digits read in base ten (`0` for the empty run). -/
def digitsValue (ds : Text) : ℕ := ds.foldl (fun acc c => 10 * acc + digitValue c) 0

/-- The three pieces `parseFloat` reads off a text made of digits and dots: the digits before
the first dot, and the digits between the first dot and the next one.  `none` when the longest
prefix that is a decimal literal is empty (the text is empty or starts with a dot that no digit
follows). -/
def decimalLiteral (s : Text) : Option (Text × Text) :=
  let intPart := s.takeWhile Char.isDigit
  match s.dropWhile Char.isDigit with
  | '.' :: rest =>
    let fracPart := rest.takeWhile Char.isDigit
    if intPart.isEmpty && fracPart.isEmpty then none else some (intPart, fracPart)
  | _ => if intPart.isEmpty then none else some (intPart, [])

/-- `parseFloat(s)` on the texts that `stripNonNumeric` produces (digits and dots only, so
there is no white space, sign, exponent or `Infinity` to read): the value of the longest prefix
that is a decimal literal, `NaN` when that prefix is empty. -/
def parseFloat (s : Text) : Option ℚ :=
  (decimalLiteral s).map fun p => (digitsValue p.1 : ℚ) + (digitsValue p.2 : ℚ) / 10 ^ p.2.length

/-- `Math.floor`. -/
def mathFloor (x : Option ℚ) : Option ℤ := x.map Int.floor

/-- Conversion of an integral number to a string, as done by a template literal, by `+` with
a string and by the `textContent` setter: decimal digits, a leading `-` for negative values and
`NaN` for `NaN`.  (The host switches to exponent form from `10^21` on, far beyond the range in
which doubles are exact; that range is outside the model.) -/
def numberToString : Option ℤ → Text
  | none => "NaN".toList
  | some (Int.ofNat n) => Nat.toDigits 10 n
  | some (Int.negSucc n) => '-' :: Nat.toDigits 10 (n + 1)

/-- `Math.min(elapsed / duration, 1)` with `elapsed = currentTime - startTime`, the first two
lines of each of the four `animate` closures.  The quotient is the rational one, which is the
quotient of the source for every `duration` other than `0`. -/
def progress (duration startTime currentTime : ℚ) : ℚ :=
  let elapsed := currentTime - startTime
  min (elapsed / duration) 1

/-- `1 - Math.pow(1 - progress, 4)`, the easing of each of the four `animate` closures, in
exact arithmetic (the host rounds the difference, the power and the second difference, see
`CaseMetricsAnimation.doubleCurrentValue`). -/
def easeOutQuart (progress : ℚ) : ℚ := 1 - (1 - progress) ^ 4

/-- The host's frame loop for one animation: the frame timestamps are delivered in order, each
to the pending callback, for as long as a callback is pending. -/
def runFrames (animate : ℚ → Dom → Dom) : List ℚ → Dom → Dom
  | [], d => d
  | t :: ts, d =>
    match d.frameRequests with
    | 0 => d
    | k + 1 => runFrames animate ts (animate t { d with frameRequests := k })

/-! ## `HeroSection` -/

namespace HeroSection

/-- `current` of `animateCounter`: `start + (end - start) * easeOutQuart`, in exact
arithmetic. -/
def current (start : ℚ) (endv : Option ℚ) (duration startTime currentTime : ℚ) : Option ℚ :=
  endv.map fun e => start + (e - start) * easeOutQuart (progress duration startTime currentTime)

/-- The formatting chain of `animateCounter`, applied to the floored value. -/
def format (originalText : Text) (n : Option ℤ) : Text :=
  let isPercentage := includes originalText '%'
  let isPlus := includes originalText '+'
  let isCurrency := includes originalText '$'
  let isK := includes originalText 'K'
  if isCurrency && isK then "$".toList ++ numberToString n ++ "K".toList
  else if isPercentage then numberToString n ++ "%".toList
  else if isPlus then numberToString n ++ "+".toList
  else numberToString n

/-- The value of `displayValue` when it is assigned to `element.textContent`. -/
def displayValue (start : ℚ) (endv : Option ℚ) (duration : ℚ) (originalText : Text)
    (startTime currentTime : ℚ) : Text :=
  format originalText (mathFloor (current start endv duration startTime currentTime))

/-- The closure `animate` of `animateCounter`, run at frame time `currentTime`. -/
def animate (start : ℚ) (endv : Option ℚ) (duration : ℚ) (originalText : Text)
    (startTime currentTime : ℚ) (d : Dom) : Dom :=
  let d := { d with textContent := displayValue start endv duration originalText startTime currentTime }
  if progress duration startTime currentTime < 1 then
    { d with frameRequests := d.frameRequests + 1 }
  else
    { d with textContent := originalText }

/-- `animateCounter(element, start, end, duration, originalText)` called at time `now`: the
closure is built with `startTime = now` and handed to `requestAnimationFrame`. -/
def animateCounter (_now : ℚ) (d : Dom) : Dom :=
  { d with frameRequests := d.frameRequests + 1 }

/-- The body of `animateCounters` in `animateOnScroll` for one `.hero-metric-value` element:
the frame closure it installs. -/
def animateOnScroll_animate (target : Text) (startTime currentTime : ℚ) (d : Dom) : Dom :=
  let endValue := parseFloat (stripNonNumeric target)
  animate 0 endValue 2000 target startTime currentTime d

/-- One full run on an element showing `text`: `animateOnScroll` calls `animateCounter` at time
`now`, then the frames `ts` are delivered. -/
def run (now : ℚ) (ts : List ℚ) (text : Text) : Dom :=
  runFrames (animateOnScroll_animate text now) ts (animateCounter now ⟨text, 0⟩)

end HeroSection

/-! ## `EnhancedHeroAnimations` -/

namespace EnhancedHeroAnimations

/-- `current` of `animateCounter`: `start + (end - start) * easeOutQuart`, in exact
arithmetic. -/
def current (start : ℚ) (endv : Option ℚ) (duration startTime currentTime : ℚ) : Option ℚ :=
  endv.map fun e => start + (e - start) * easeOutQuart (progress duration startTime currentTime)

/-- The four-way branch of `animateCounter` that assigns `element.textContent`. -/
def format (originalText : Text) (n : Option ℤ) : Text :=
  if includes originalText '$' && includes originalText 'K' then
    "$".toList ++ numberToString n ++ "K".toList
  else if includes originalText '%' then numberToString n ++ "%".toList
  else if includes originalText '+' then numberToString n ++ "+".toList
  else numberToString n

/-- The text assigned to `element.textContent` by the four-way branch. -/
def displayValue (start : ℚ) (endv : Option ℚ) (duration : ℚ) (originalText : Text)
    (startTime currentTime : ℚ) : Text :=
  format originalText (mathFloor (current start endv duration startTime currentTime))

/-- The closure `animate` of `animateCounter`, run at frame time `currentTime`. -/
def animate (start : ℚ) (endv : Option ℚ) (duration : ℚ) (originalText : Text)
    (startTime currentTime : ℚ) (d : Dom) : Dom :=
  let d := { d with textContent := displayValue start endv duration originalText startTime currentTime }
  if progress duration startTime currentTime < 1 then
    { d with frameRequests := d.frameRequests + 1 }
  else
    { d with textContent := originalText }

/-- `animateCounter(element, start, end, duration, originalText)` called at time `now`. -/
def animateCounter (_now : ℚ) (d : Dom) : Dom :=
  { d with frameRequests := d.frameRequests + 1 }

/-- The observer callback of `initCounterAnimations` for one intersecting `.highlight-number`
element: the frame closure it installs. -/
def initCounterAnimations_animate (finalValue : Text) (startTime currentTime : ℚ) (d : Dom) : Dom :=
  let numericValue := parseFloat (stripNonNumeric finalValue)
  animate 0 numericValue 2000 finalValue startTime currentTime d

/-- One full run on an element showing `text`: `initCounterAnimations` calls `animateCounter`
at time `now`, then the frames `ts` are delivered. -/
def run (now : ℚ) (ts : List ℚ) (text : Text) : Dom :=
  runFrames (initCounterAnimations_animate text now) ts (animateCounter now ⟨text, 0⟩)

end EnhancedHeroAnimations

/-! ## `ServicesSection` -/

namespace ServicesSection

/-- The constant `duration` of `animateMetric`. -/
def duration : ℚ := 2000

/-- `currentValue` of `animateMetric`: `numericValue * easeOutQuart`, in exact arithmetic. -/
def currentValue (finalValue : Text) (startTime currentTime : ℚ) : Option ℚ :=
  let numericValue := parseFloat (stripNonNumeric finalValue)
  numericValue.map fun v => v * easeOutQuart (progress duration startTime currentTime)

/-- The formatting chain of `animateMetric`. -/
def format (finalValue : Text) (n : Option ℤ) : Text :=
  let isPercentage := includes finalValue '%'
  let isPlus := includes finalValue '+'
  if isPercentage then numberToString n ++ "%".toList
  else if isPlus then numberToString n ++ "+".toList
  else numberToString n

/-- The value of `displayValue` when it is assigned to `element.textContent`. -/
def displayValue (finalValue : Text) (startTime currentTime : ℚ) : Text :=
  format finalValue (mathFloor (currentValue finalValue startTime currentTime))

/-- The closure `animate` of `animateMetric`, run at frame time `currentTime`. -/
def animate (finalValue : Text) (startTime currentTime : ℚ) (d : Dom) : Dom :=
  let d := { d with textContent := displayValue finalValue startTime currentTime }
  if progress duration startTime currentTime < 1 then
    { d with frameRequests := d.frameRequests + 1 }
  else
    { d with textContent := finalValue }

/-- `animateMetric(element)` called at time `now`: `finalValue` is read from the element, the
closure is built with `startTime = now` and handed to `requestAnimationFrame`. -/
def animateMetric (_now : ℚ) (d : Dom) : Dom :=
  { d with frameRequests := d.frameRequests + 1 }

/-- One full run on an element showing `text`: `animateMetric` at time `now`, then the frames
`ts` are delivered. -/
def run (now : ℚ) (ts : List ℚ) (text : Text) : Dom :=
  runFrames (animate text now) ts (animateMetric now ⟨text, 0⟩)

end ServicesSection

/-! ## `CaseMetricsAnimation` -/

namespace CaseMetricsAnimation

/-- The constant `duration` of `animateMetric`. -/
def duration : ℚ := 2000

/-- `currentValue` of `animateMetric`: `numericValue * easeOutQuart`, in exact arithmetic. -/
def currentValue (numericValue : ℚ) (startTime currentTime : ℚ) : ℚ :=
  numericValue * easeOutQuart (progress duration startTime currentTime)

/-- The formatting chain of `animateMetric`. -/
def format (finalValue : Text) (n : Option ℤ) : Text :=
  let isPercentage := includes finalValue '%'
  let isCurrency := includes finalValue '$' || includes finalValue '₦' || includes finalValue 'K'
  let isPlus := includes finalValue '+'
  if isCurrency && includes finalValue 'K' then "$".toList ++ numberToString n ++ "K".toList
  else if isCurrency && includes finalValue '₦' then
    "₦".toList ++ numberToString n ++ "M".toList ++ (if isPlus then "+".toList else [])
  else if isPercentage then numberToString n ++ "%".toList
  else if isPlus then numberToString n ++ "+".toList
  else if includes finalValue '/' then numberToString n ++ "/7".toList
  else numberToString n

/-- The value of `displayValue` when it is assigned to `element.textContent`. -/
def displayValue (finalValue : Text) (numericValue : ℚ) (startTime currentTime : ℚ) : Text :=
  format finalValue (mathFloor (some (currentValue numericValue startTime currentTime)))

/-- The closure `animate` of `animateMetric`, run at frame time `currentTime`. -/
def animate (finalValue : Text) (numericValue : ℚ) (startTime currentTime : ℚ) (d : Dom) : Dom :=
  let d := { d with textContent := displayValue finalValue numericValue startTime currentTime }
  if progress duration startTime currentTime < 1 then
    { d with frameRequests := d.frameRequests + 1 }
  else
    { d with textContent := finalValue }

/-- `animateMetric(element)` called at time `now`: `finalValue` is read from the element; when
the parsed value is `NaN` the function returns at once, otherwise the closure is built with
`startTime = now` and handed to `requestAnimationFrame`. -/
def animateMetric (_now : ℚ) (d : Dom) : Dom :=
  match parseFloat (stripNonNumeric d.textContent) with
  | none => d
  | some _ => { d with frameRequests := d.frameRequests + 1 }

/-- The frame callback installed by `animateMetric` on an element whose text was `finalValue`
(the closure exists only when the text parses; a frame delivered otherwise finds nothing to
run). -/
def frame (finalValue : Text) (startTime currentTime : ℚ) (d : Dom) : Dom :=
  match parseFloat (stripNonNumeric finalValue) with
  | none => d
  | some numericValue => animate finalValue numericValue startTime currentTime d

/-- One full run on an element showing `text`: `animateMetric` at time `now`, then the frames
`ts` are delivered. -/
def run (now : ℚ) (ts : List ℚ) (text : Text) : Dom :=
  runFrames (frame text now) ts (animateMetric now ⟨text, 0⟩)

end CaseMetricsAnimation

/-! ## Frame formats and the priority of the specification -/

/-- A frame format: the literal written before the number and the literal written after
it. -/
structure Template where
  before : Text
  after : Text
  deriving DecidableEq, Repr

/-- The text a format yields for a floored value. -/
def Template.render (f : Template) (n : Option ℤ) : Text :=
  f.before ++ numberToString n ++ f.after

/-- A priority list of format rules: each rule is a test on the original text together with
the format it selects for that text. -/
abbrev Rules := List ((Text → Bool) × (Text → Template))

/-- The format of the first rule, in list order, whose test the text passes; the bare number
when the text passes none. -/
def firstMatch (rules : Rules) (text : Text) : Template :=
  match rules.find? (fun r => r.1 text) with
  | some r => r.2 text
  | none => ⟨[], []⟩

/-- The `M` format: `₦` before the number, `M` after it, and `+` after that when the text
contains `+`. -/
def templateM (text : Text) : Template :=
  ⟨"₦".toList, "M".toList ++ (if includes text '+' then "+".toList else [])⟩

/-- The currency test of `CaseMetricsAnimation.animateMetric` (`isCurrency`). -/
def isCurrency (text : Text) : Bool :=
  includes text '$' || includes text '₦' || includes text 'K'

/-- The priority in the words of the specification: (currency and `K`) > (currency and `M`,
with optional trailing `+`) > percentage > plus > fraction > none. -/
def specRules : Rules :=
  [ (fun t => isCurrency t && includes t 'K', fun _ => ⟨"$".toList, "K".toList⟩),
    (fun t => isCurrency t && includes t 'M', templateM),
    (fun t => includes t '%', fun _ => ⟨[], "%".toList⟩),
    (fun t => includes t '+', fun _ => ⟨[], "+".toList⟩),
    (fun t => includes t '/', fun _ => ⟨[], "/7".toList⟩) ]

/-- The priority that `CaseMetricsAnimation.animateMetric` implements: it differs from
`specRules` in the test of the second rule, which looks for `₦` and not for `M`. -/
def codeRules : Rules :=
  [ (fun t => isCurrency t && includes t 'K', fun _ => ⟨"$".toList, "K".toList⟩),
    (fun t => isCurrency t && includes t '₦', templateM),
    (fun t => includes t '%', fun _ => ⟨[], "%".toList⟩),
    (fun t => includes t '+', fun _ => ⟨[], "+".toList⟩),
    (fun t => includes t '/', fun _ => ⟨[], "/7".toList⟩) ]

/-- A character that belongs to a numeral: a digit or the decimal point. -/
def isNumeralChar (c : Char) : Bool := c.isDigit || c == '.'

/-- In the words of the specification: the literal characters of the original text that
precede its numeral. -/
def specLead (text : Text) : Text := text.takeWhile (fun c => !isNumeralChar c)

/-- In the words of the specification: the literal characters of the original text that follow
its numeral. -/
def specTrail (text : Text) : Text :=
  (text.dropWhile (fun c => !isNumeralChar c)).dropWhile isNumeralChar

/-- The literal pairs that `CaseMetricsAnimation.animateMetric` can write around the number. -/
def caseMetricsTemplates : List Template :=
  [ ⟨"$".toList, "K".toList⟩, ⟨"₦".toList, "M".toList⟩, ⟨"₦".toList, "M+".toList⟩,
    ⟨[], "%".toList⟩, ⟨[], "+".toList⟩, ⟨[], "/7".toList⟩, ⟨[], []⟩ ]

/-- The literal pairs that `HeroSection.animateCounter` can write around the number. -/
def heroTemplates : List Template :=
  [ ⟨"$".toList, "K".toList⟩, ⟨[], "%".toList⟩, ⟨[], "+".toList⟩, ⟨[], []⟩ ]

/-! ## Decimal numerals in the words of the specification -/

/-- In the words of the specification: the text as a whole is a decimal numeral, that is
digits, digits with a decimal point somewhere among or after them, or a decimal point followed
by digits. -/
def isDecimalNumeral (r : Text) : Bool :=
  let intPart := r.takeWhile Char.isDigit
  match r.dropWhile Char.isDigit with
  | [] => !intPart.isEmpty
  | '.' :: fracPart => fracPart.all Char.isDigit && !(intPart.isEmpty && fracPart.isEmpty)
  | _ => false

/-! ## The observers that start the metric counters -/

/-- One entry of an intersection notification: the observed element (elements are told apart
by a number) and whether it intersects. -/
structure IntersectionEntry where
  target : ℕ
  isIntersecting : Bool
  deriving DecidableEq, Repr

/-- The state behind `observeMetrics`: the set of elements already animated (`this.animated`,
`this.animatedMetrics`), in insertion order, and the log of the calls to `animateMetric`. -/
structure MetricsObserver where
  animated : List ℕ
  started : List ℕ
  deriving DecidableEq, Repr

/-- `Set.prototype.has`. -/
def setHas (s : List ℕ) (x : ℕ) : Bool := s.contains x

/-- `Set.prototype.add`: an element already present is not added again. -/
def setAdd (s : List ℕ) (x : ℕ) : List ℕ := if s.contains x then s else s ++ [x]

namespace ServicesSection

/-- The body of `entries.forEach` in the observer callback of `observeMetrics`. -/
def observeMetrics_entry (o : MetricsObserver) (entry : IntersectionEntry) : MetricsObserver :=
  if entry.isIntersecting && !setHas o.animated entry.target then
    { animated := setAdd o.animated entry.target, started := o.started ++ [entry.target] }
  else o

/-- The observer callback of `observeMetrics` on one notification. -/
def observeMetrics_callback (o : MetricsObserver) (entries : List IntersectionEntry) :
    MetricsObserver :=
  entries.foldl observeMetrics_entry o

/-- The constructor's empty set followed by a sequence of notifications. -/
def observeMetrics (notifications : List (List IntersectionEntry)) : MetricsObserver :=
  notifications.foldl observeMetrics_callback ⟨[], []⟩

end ServicesSection

namespace CaseMetricsAnimation

/-- The body of `entries.forEach` in the observer callback of `observeMetrics`. -/
def observeMetrics_entry (o : MetricsObserver) (entry : IntersectionEntry) : MetricsObserver :=
  if entry.isIntersecting && !setHas o.animated entry.target then
    { animated := setAdd o.animated entry.target, started := o.started ++ [entry.target] }
  else o

/-- The observer callback of `observeMetrics` on one notification. -/
def observeMetrics_callback (o : MetricsObserver) (entries : List IntersectionEntry) :
    MetricsObserver :=
  entries.foldl observeMetrics_entry o

/-- The constructor's empty set followed by a sequence of notifications. -/
def observeMetrics (notifications : List (List IntersectionEntry)) : MetricsObserver :=
  notifications.foldl observeMetrics_callback ⟨[], []⟩

end CaseMetricsAnimation

/-! ## `Utils.throttle` and `Utils.debounce`

The wrapped function `func` is an effect of the host: each invocation is recorded, with the
time of the invocation and what it was applied to, in the log `invoked` (latest last).  The
timers a wrapper sets with `setTimeout` are kept with the wrapper; a delay below 0 counts as 0,
as in the host. -/

namespace Utils

/-- The state of one wrapper returned by `Utils.throttle(func, limit)`: the variable
`inThrottle` (`undefined` reads as `false`), the times at which the pending cooldown timers are
due, and the log of `func.apply(context, args)`, where a value of `α` stands for `context`
together with `args`. -/
structure Throttle (α : Type) where
  inThrottle : Bool
  timers : List ℚ
  invoked : List (ℚ × α)

/-- `Utils.throttle(func, limit)`: a fresh wrapper. -/
def throttle (α : Type) : Throttle α := ⟨false, [], []⟩

/-- A call of the wrapper at time `now`. -/
def Throttle.call {α : Type} (limit now : ℚ) (a : α) (s : Throttle α) : Throttle α :=
  if !s.inThrottle then
    { inThrottle := true
      timers := s.timers ++ [now + max limit 0]
      invoked := s.invoked ++ [(now, a)] }
  else s

/-- The callback `() => inThrottle = false` of the oldest pending timer runs. -/
def Throttle.timerFired {α : Type} (s : Throttle α) : Throttle α :=
  match s.timers with
  | [] => s
  | _ :: rest => { s with inThrottle := false, timers := rest }

/-- What can happen to a wrapper: it is called, or a timer of the host fires. -/
inductive Event (α : Type) where
  | call (now : ℚ) (a : α)
  | timer (now : ℚ)

/-- The time of an event. -/
def Event.time {α : Type} : Event α → ℚ
  | .call now _ => now
  | .timer now => now

/-- The calls among a list of events, in order. -/
def callsOf {α : Type} (evs : List (Event α)) : List (ℚ × α) :=
  evs.filterMap fun e =>
    match e with
    | .call now a => some (now, a)
    | .timer _ => none

/-- One event on a throttle wrapper. -/
def Throttle.step {α : Type} (limit : ℚ) (s : Throttle α) : Event α → Throttle α
  | .call now a => s.call limit now a
  | .timer _ => s.timerFired

/-- A sequence of events on a throttle wrapper. -/
def Throttle.run {α : Type} (limit : ℚ) (s : Throttle α) (evs : List (Event α)) : Throttle α :=
  evs.foldl (Throttle.step limit) s

/-- The timing assumption on a sequence of events that starts at time `clock`: time does not
run backwards, and a timer does not fire before it is due. -/
def Throttle.wellTimed {α : Type} (limit : ℚ) : ℚ → Throttle α → List (Event α) → Bool
  | _, _, [] => true
  | clock, s, e :: es =>
    decide (clock ≤ e.time) &&
    (match e, s.timers with
      | .timer now, due :: _ => decide (due ≤ now)
      | _, _ => true) &&
    Throttle.wellTimed limit e.time (s.step limit e) es

/-- The state of one wrapper returned by `Utils.debounce(func, wait, immediate)`: the variable
`timeout` (`none` for `undefined` and `null`, otherwise the handle of a timer; handles are
positive numbers and hence truthy), the pending timers set by the wrapper (handle, time due,
and the `args` captured by the closure `later`), the next handle of the host, and the log of
`func(...args)`. -/
structure Debounce (α : Type) where
  timeout : Option ℕ
  timers : List (ℕ × ℚ × α)
  nextHandle : ℕ
  invoked : List (ℚ × α)

/-- `Utils.debounce(func, wait, immediate)`: a fresh wrapper. -/
def debounce (α : Type) : Debounce α := ⟨none, [], 1, []⟩

/-- A call `executedFunction(...args)` of the wrapper at time `now`. -/
def Debounce.call {α : Type} (wait : ℚ) (immediate : Bool) (now : ℚ) (a : α)
    (s : Debounce α) : Debounce α :=
  let callNow := immediate && s.timeout.isNone
  let cleared := s.timers.filter fun t => some t.1 != s.timeout
  let handle := s.nextHandle
  let s' : Debounce α :=
    { timeout := some handle
      timers := cleared ++ [(handle, now + max wait 0, a)]
      nextHandle := handle + 1
      invoked := s.invoked }
  if callNow then { s' with invoked := s'.invoked ++ [(now, a)] } else s'

/-- The closure `later`, with the `args` it captured, run at time `now`. -/
def Debounce.later {α : Type} (immediate : Bool) (now : ℚ) (a : α) (s : Debounce α) :
    Debounce α :=
  let s' := { s with timeout := none }
  if !immediate then { s' with invoked := s'.invoked ++ [(now, a)] } else s'

/-- The oldest pending timer of the wrapper fires at time `now`. -/
def Debounce.timerFired {α : Type} (immediate : Bool) (now : ℚ) (s : Debounce α) :
    Debounce α :=
  match s.timers with
  | [] => s
  | (_, _, a) :: rest => Debounce.later immediate now a { s with timers := rest }

/-- One event on a debounce wrapper. -/
def Debounce.step {α : Type} (wait : ℚ) (immediate : Bool) (s : Debounce α) :
    Event α → Debounce α
  | .call now a => s.call wait immediate now a
  | .timer now => s.timerFired immediate now

/-- A sequence of events on a debounce wrapper. -/
def Debounce.run {α : Type} (wait : ℚ) (immediate : Bool) (s : Debounce α)
    (evs : List (Event α)) : Debounce α :=
  evs.foldl (Debounce.step wait immediate) s

end Utils

/-! ## Invariants used in the proofs -/

/-- The invariant of the metric observers: the log of started animations is the animated set,
and the set has no element twice. -/
def MetricsObserver.Inv (o : MetricsObserver) : Prop :=
  o.started = o.animated ∧ o.animated.Nodup

/-- The invariant of a throttle wrapper: the cooldown flag is set exactly while one timer is
pending, and no second timer is ever pending. -/
def Utils.Throttle.Inv {α : Type} (s : Utils.Throttle α) : Prop :=
  (s.inThrottle = false ∧ s.timers = []) ∨ (s.inThrottle = true ∧ ∃ due, s.timers = [due])

/-- The timed invariant of a throttle wrapper at time `clock`: the logged invocations are
pairwise at least the cooldown apart; an idle wrapper has no timer and its invocations are at
least one cooldown old; a wrapper in cooldown has one timer, due one cooldown after a time that
no invocation exceeds. -/
def Utils.Throttle.TimedInv {α : Type} (limit clock : ℚ) (s : Utils.Throttle α) : Prop :=
  s.invoked.Pairwise (fun p q => p.1 + max limit 0 ≤ q.1) ∧
  ((s.inThrottle = false ∧ s.timers = [] ∧ ∀ p ∈ s.invoked, p.1 + max limit 0 ≤ clock) ∨
    (s.inThrottle = true ∧ ∃ tl, s.timers = [tl + max limit 0] ∧ ∀ p ∈ s.invoked, p.1 ≤ tl))

/-- The invariant of a debounce wrapper: at most one timer is pending, and `timeout` holds its
handle. -/
def Utils.Debounce.Inv {α : Type} (s : Utils.Debounce α) : Prop :=
  s.timers = [] ∨ ∃ h due a, s.timers = [(h, due, a)] ∧ s.timeout = some h

/-! ## `CaseStudies` -/

/-- A `.case-details` panel or a `.case-expand-btn` button: the value of its `data-case`
attribute (attribute values are told apart by a number) and whether its class list contains
`expanded`.  An element is identified by its position in its collection. -/
structure CaseElement where
  dataCase : ℕ
  expanded : Bool
  deriving DecidableEq, Repr

/-- The collections held by a `CaseStudies` object: `this.caseDetails` and
`this.expandButtons`. -/
structure CaseStudies where
  caseDetails : List CaseElement
  expandButtons : List CaseElement
  deriving DecidableEq, Repr

namespace CaseStudies

/-- The panel that `document.querySelector` finds for the selector
`.case-details[data-case="caseId"]`: the first one in document order, if any. -/
def querySelector (caseId : ℕ) (s : CaseStudies) : Option ℕ :=
  s.caseDetails.findIdx? fun d => d.dataCase == caseId

/-- `toggleCase(caseId, button)`, where `button` is the position of the clicked button.  The
result is `none` when no panel answers the selector, in which case `details` is `null` and
reading `details.classList` throws. -/
def toggleCase (caseId button : ℕ) (s : CaseStudies) : Option CaseStudies :=
  match s.querySelector caseId with
  | none => none
  | some details =>
    let isExpanded :=
      match s.caseDetails[details]? with
      | some d => d.expanded
      | none => false
    let caseDetails := s.caseDetails.mapIdx fun i detail =>
      if i ≠ details then { detail with expanded := false } else detail
    let expandButtons := s.expandButtons.mapIdx fun i btn =>
      if i ≠ button then { btn with expanded := false } else btn
    if isExpanded then
      some
        { caseDetails := caseDetails.mapIdx fun i d =>
            if i = details then { d with expanded := false } else d
          expandButtons := expandButtons.mapIdx fun i b =>
            if i = button then { b with expanded := false } else b }
    else
      some
        { caseDetails := caseDetails.mapIdx fun i d =>
            if i = details then { d with expanded := true } else d
          expandButtons := expandButtons.mapIdx fun i b =>
            if i = button then { b with expanded := true } else b }

end CaseStudies

/-! ## The static method `throttle` of class `Utils`

The class body defines `static throttle(func, limit)`; the assignment `Utils.throttle = ...`
further down the script replaces it before any call site runs.  `Utils.Throttle.call` and
`Utils.Throttle.timerFired` above embed the assigned function, the definitions below the
static method. -/

namespace Utils

/-- `Utils.throttle(func, limit)` of the class body: a fresh wrapper. -/
def staticThrottle (α : Type) : Throttle α := ⟨false, [], []⟩

/-- A call of the wrapper of the static method at time `now`, with receiver `context` and
arguments `args`. -/
def Throttle.staticCall {γ β : Type} (limit now : ℚ) (context : γ) (args : β)
    (s : Throttle (γ × β)) : Throttle (γ × β) :=
  if !s.inThrottle then
    { inThrottle := true
      timers := s.timers ++ [now + max limit 0]
      invoked := s.invoked ++ [(now, (context, args))] }
  else s

/-- The timer callback `() => inThrottle = false` of the static method runs. -/
def Throttle.staticTimerFired {α : Type} (s : Throttle α) : Throttle α :=
  match s.timers with
  | [] => s
  | _ :: rest => { s with inThrottle := false, timers := rest }

/-- One event on a wrapper of the static method. -/
def Throttle.staticStep {γ β : Type} (limit : ℚ) (s : Throttle (γ × β)) :
    Event (γ × β) → Throttle (γ × β)
  | .call now a => s.staticCall limit now a.1 a.2
  | .timer _ => s.staticTimerFired

/-- A sequence of events on a wrapper of the static method. -/
def Throttle.staticRun {γ β : Type} (limit : ℚ) (s : Throttle (γ × β))
    (evs : List (Event (γ × β))) : Throttle (γ × β) :=
  evs.foldl (Throttle.staticStep limit) s

end Utils

/-! ## The interval counter of `main.js` -/

namespace Main

/-- The state of one counter of `animateCounters`: the variable `current`, the text of the
`.stat-number` element, and whether the interval `timer` is still set. -/
structure IntervalCounter where
  current : ℚ
  textContent : Text
  timer : Bool
  deriving DecidableEq

/-- The observer callback of `animateCounters` for an intersecting counter showing `text`:
`current` starts at 0 and the interval is set. -/
def animateCounters (text : Text) : IntervalCounter := ⟨0, text, true⟩

/-- The constant `step = target / (duration / 16)` with `duration = 2000`, for the integer
`target` read by `parseInt`. -/
def step (target : ℤ) : ℚ := (target : ℚ) / (2000 / 16)

/-- One run of the interval callback; a cleared interval does not run it. -/
def tick (target : ℤ) (c : IntervalCounter) : IntervalCounter :=
  if c.timer then
    let current := c.current + step target
    if (target : ℚ) ≤ current then
      { current := current, textContent := numberToString (some target), timer := false }
    else
      { current := current, textContent := numberToString (some ⌊current⌋), timer := true }
  else c

/-- The state after `k` ticks of the interval. -/
def ticks (target : ℤ) : ℕ → IntervalCounter → IntervalCounter
  | 0, c => c
  | k + 1, c => tick target (ticks target k c)

end Main

/-! ## `TestimonialsSlider` -/

/-- The part of a `TestimonialsSlider` that decides the slide index: the lengths of
`this.slides` and `this.dots`, whether the two buttons exist, and `this.currentSlide`.  The
classes and `disabled` flags written by `goToSlide` and `updateButtons` are not kept; what is
kept is whether the element written to exists. -/
structure TestimonialsSlider where
  slides : ℕ
  dots : ℕ
  prevBtn : Bool
  nextBtn : Bool
  currentSlide : ℤ
  deriving DecidableEq, Repr

namespace TestimonialsSlider

/-- The result of a method: the state it leaves, and whether it ran to its end (`false` when
a `TypeError` was thrown on the way). -/
structure Outcome where
  state : TestimonialsSlider
  completed : Bool
  deriving DecidableEq, Repr

/-- Whether `collection[i]` is an element of a collection of the given length. -/
def hasIndex (length : ℕ) (i : ℤ) : Bool := decide (0 ≤ i) && decide (i < (length : ℤ))

/-- `updateButtons()`: writes `disabled` on both buttons, and throws when one is missing. -/
def updateButtons (s : TestimonialsSlider) : Outcome :=
  if s.prevBtn && s.nextBtn then ⟨s, true⟩ else ⟨s, false⟩

/-- `goToSlide(index)`. -/
def goToSlide (index : ℤ) (s : TestimonialsSlider) : Outcome :=
  if !hasIndex s.slides s.currentSlide then ⟨s, false⟩
  else if !hasIndex s.dots s.currentSlide then ⟨s, false⟩
  else
    let s' := { s with currentSlide := index }
    if !hasIndex s'.slides s'.currentSlide then ⟨s', false⟩
    else if !hasIndex s'.dots s'.currentSlide then ⟨s', false⟩
    else updateButtons s'

/-- `nextSlide()`; `%` is the remainder of the host, which truncates (the constructor calls
`init` only when there is at least one slide, so the divisor is not 0). -/
def nextSlide (s : TestimonialsSlider) : Outcome :=
  let nextIndex := Int.tmod (s.currentSlide + 1) s.slides
  goToSlide nextIndex s

/-- `previousSlide()`. -/
def previousSlide (s : TestimonialsSlider) : Outcome :=
  let prevIndex := Int.tmod (s.currentSlide - 1 + s.slides) s.slides
  goToSlide prevIndex s

end TestimonialsSlider

/-! ## `TypingAnimation` -/

/-- The fields of a `TypingAnimation` that `type()` reads and writes, and the text of its
element. -/
structure TypingAnimation where
  texts : List Text
  textIndex : ℕ
  charIndex : ℤ
  isDeleting : Bool
  textContent : Text
  deriving DecidableEq, Repr

namespace TypingAnimation

/-- `s.substring(0, k)`: an end below 0 counts as 0, an end beyond the length as the
length. -/
def substring0 (s : Text) (k : ℤ) : Text := s.take k.toNat

/-- The constructor, for an element showing `text`. -/
def new (texts : List Text) (text : Text) : TypingAnimation := ⟨texts, 0, 0, false, text⟩

/-- One call of `type()`.  The result is `none` when `this.texts[this.textIndex]` is
`undefined`, in which case `currentText.substring` throws. -/
def type (s : TypingAnimation) : Option TypingAnimation :=
  match s.texts[s.textIndex]? with
  | none => none
  | some currentText =>
    let s₁ : TypingAnimation :=
      if s.isDeleting then
        { s with
          textContent := substring0 currentText (s.charIndex - 1)
          charIndex := s.charIndex - 1 }
      else
        { s with
          textContent := substring0 currentText (s.charIndex + 1)
          charIndex := s.charIndex + 1 }
    if !s₁.isDeleting && s₁.charIndex == (currentText.length : ℤ) then
      some { s₁ with isDeleting := true }
    else if s₁.isDeleting && s₁.charIndex == 0 then
      some { s₁ with isDeleting := false, textIndex := (s₁.textIndex + 1) % s₁.texts.length }
    else some s₁

/-- The state after `k` calls of `type()`, each scheduled by the one before. -/
def typeN : ℕ → TypingAnimation → Option TypingAnimation
  | 0, s => some s
  | k + 1, s => (typeN k s).bind type

/-- The invariant of the typing loop over the list `texts`: the text index is in range; while
typing the cursor is below the length of the current text, while deleting it is between 1 and
the length. -/
def Inv (texts : List Text) (s : TypingAnimation) : Prop :=
  s.texts = texts ∧ ∃ cur, texts[s.textIndex]? = some cur ∧
    (s.isDeleting = false → 0 ≤ s.charIndex ∧ s.charIndex < (cur.length : ℤ)) ∧
    (s.isDeleting = true → 1 ≤ s.charIndex ∧ s.charIndex ≤ (cur.length : ℤ))

end TypingAnimation

/-! ## `Utils.validateEmail` and `Utils.formatPhoneNumber` -/

/-- The class `\s` of a regular expression of the host: white space and line terminators. -/
def isWhiteSpace (c : Char) : Bool :=
  c.toNat == 0x09 || c.toNat == 0x0A || c.toNat == 0x0B || c.toNat == 0x0C ||
  c.toNat == 0x0D || c.toNat == 0x20 || c.toNat == 0xA0 || c.toNat == 0x1680 ||
  (0x2000 ≤ c.toNat && c.toNat ≤ 0x200A) || c.toNat == 0x2028 || c.toNat == 0x2029 ||
  c.toNat == 0x202F || c.toNat == 0x205F || c.toNat == 0x3000 || c.toNat == 0xFEFF

/-- The kinds of character that the regular expression of `validateEmail` tells apart. -/
inductive EmailClass where
  | atSign
  | dot
  | space
  | other
  deriving DecidableEq, Repr

/-- The kind of a character: `@`, `.`, a character of `\s`, or any other. -/
def emailClass (c : Char) : EmailClass :=
  if c = '@' then .atSign
  else if c = '.' then .dot
  else if isWhiteSpace c then .space
  else .other

/-- The class `[^\s@]`, over kinds of character. -/
def notSpaceAt : RegularExpression EmailClass :=
  RegularExpression.char .dot + RegularExpression.char .other

/-- The repetition `r+`. -/
def oneOrMore (r : RegularExpression EmailClass) : RegularExpression EmailClass := r * r.star

/-- The regular expression `/^[^\s@]+@[^\s@]+\.[^\s@]+$/`, over kinds of character; the
anchors make it a match of the whole string. -/
def emailRegExp : RegularExpression EmailClass :=
  oneOrMore notSpaceAt * RegularExpression.char .atSign * oneOrMore notSpaceAt
    * RegularExpression.char .dot * oneOrMore notSpaceAt

/-- `Utils.validateEmail(email)`: `re.test(email)`. -/
def Utils.validateEmail (email : Text) : Bool :=
  emailRegExp.rmatch (email.map emailClass)

/-- The replacement `+$1 $2 $3 $4` for a match whose groups are the first three, the next
three, the next three and the last four of its thirteen digits. -/
def phoneReplacement (m : Text) : Text :=
  "+".toList ++ m.take 3 ++ " ".toList ++ (m.drop 3).take 3 ++ " ".toList
    ++ (m.drop 6).take 3 ++ " ".toList ++ (m.drop 9).take 4

/-- Whether `/(\d{3})(\d{3})(\d{3})(\d{4})/` matches at the start of a text: its first
thirteen characters exist and are digits. -/
def phoneMatchesAt (s : Text) : Bool := decide (13 ≤ s.length) && (s.take 13).all Char.isDigit

/-- `Utils.formatPhoneNumber(phone)`: `replace` with a regular expression without the `g`
flag rewrites the leftmost match only; the start positions are tried from left to right. -/
def Utils.formatPhoneNumber : Text → Text
  | [] => []
  | c :: cs =>
    if phoneMatchesAt (c :: cs) then phoneReplacement ((c :: cs).take 13) ++ (c :: cs).drop 13
    else c :: Utils.formatPhoneNumber cs

/-! ## The value formula in double precision

The host computes in IEEE 754 binary64: each arithmetic operation returns the double nearest
to its exact result.  The definitions of this section evaluate the arithmetic of
`CaseMetricsAnimation.animateMetric` in that way; they mark out where the exact arithmetic of
the sections above and the arithmetic of the host part. -/

/-- The integer nearest to a rational, a tie going to the even neighbour. -/
def roundHalfEven (x : ℚ) : ℤ :=
  let lower := ⌊x⌋
  if x - lower < 1 / 2 then lower
  else if 1 / 2 < x - lower then lower + 1
  else if lower % 2 = 0 then lower
  else lower + 1

/-- The double nearest to a rational, a tie going to the even significand (the rounding of
every arithmetic operation of the host).  A double with `2 ^ e ≤ |q| < 2 ^ (e + 1)` is a whole
multiple of `2 ^ (e - 52)`, and of `2 ^ (-1074)` below the least normal exponent `-1022`.
Results beyond the largest double, which the host rounds to `Infinity`, are outside the
model. -/
def roundToDouble (q : ℚ) : ℚ :=
  if q = 0 then 0
  else
    let exponent := max (Int.log 2 |q|) (-1022)
    let ulp := (2 : ℚ) ^ (exponent - 52)
    roundHalfEven (q / ulp) * ulp

/-- `Math.pow(x, n)` for a whole exponent `n`, as the double nearest to the exact power.  The
language leaves the precision of `Math.pow` to the implementation, which is why the
definitions below take the function as a parameter. -/
def powNearest (x : ℚ) (n : ℕ) : ℚ := roundToDouble (x ^ n)

namespace CaseMetricsAnimation

/-- `progress` of the closure `animate` as the host computes it, for timestamps that are
doubles: the difference and the quotient are rounded, `Math.min` is exact. -/
def doubleProgress (startTime currentTime : ℚ) : ℚ :=
  let elapsed := roundToDouble (currentTime - startTime)
  min (roundToDouble (elapsed / duration)) 1

/-- `currentValue` of the closure `animate` as the host computes it, for a `numericValue` that
is a double: `1 - progress`, the power (the function `mathPow` of the host), `1 - power` and the
product are each rounded. -/
def doubleCurrentValue (mathPow : ℚ → ℕ → ℚ) (numericValue : ℚ) (startTime currentTime : ℚ) :
    ℚ :=
  let progress := doubleProgress startTime currentTime
  let easeOutQuart := roundToDouble (1 - mathPow (roundToDouble (1 - progress)) 4)
  roundToDouble (numericValue * easeOutQuart)

/-- The value of `displayValue` when it is assigned to `element.textContent`, as the host
computes it. -/
def doubleDisplayValue (mathPow : ℚ → ℕ → ℚ) (finalValue : Text) (numericValue : ℚ)
    (startTime currentTime : ℚ) : Text :=
  format finalValue (mathFloor (some (doubleCurrentValue mathPow numericValue startTime currentTime)))

/-- The closure `animate` of `animateMetric`, run at frame time `currentTime`, as the host
computes it. -/
def doubleAnimate (mathPow : ℚ → ℕ → ℚ) (finalValue : Text) (numericValue : ℚ)
    (startTime currentTime : ℚ) (d : Dom) : Dom :=
  let d := { d with
    textContent := doubleDisplayValue mathPow finalValue numericValue startTime currentTime }
  if doubleProgress startTime currentTime < 1 then
    { d with frameRequests := d.frameRequests + 1 }
  else
    { d with textContent := finalValue }

end CaseMetricsAnimation

/-! ## Facts about the shared arithmetic -/

theorem progress_eq_one {duration s t : ℚ} (hd : 0 < duration) (h : duration ≤ t - s) :
    progress duration s t = 1 := by
  unfold progress
  exact min_eq_right ((one_le_div hd).mpr h)

theorem progress_lt_one {duration s t : ℚ} (hd : 0 < duration) (h : t - s < duration) :
    progress duration s t < 1 := by
  unfold progress
  exact min_lt_of_left_lt ((div_lt_one hd).mpr h)

theorem progress_le_one (duration s t : ℚ) : progress duration s t ≤ 1 := by
  unfold progress
  exact min_le_right _ _

theorem progress_nonneg {duration s t : ℚ} (hd : 0 < duration) (h : s ≤ t) :
    0 ≤ progress duration s t := by
  unfold progress
  exact le_min (div_nonneg (sub_nonneg.mpr h) hd.le) zero_le_one

theorem progress_mono {duration s t₁ t₂ : ℚ} (hd : 0 < duration) (h : t₁ ≤ t₂) :
    progress duration s t₁ ≤ progress duration s t₂ := by
  unfold progress
  exact min_le_min (div_le_div_of_nonneg_right (sub_le_sub_right h s) hd.le) le_rfl

theorem easeOutQuart_mono {p q : ℚ} (hpq : p ≤ q) (hq : q ≤ 1) :
    easeOutQuart p ≤ easeOutQuart q := by
  unfold easeOutQuart
  have h1 : 0 ≤ 1 - q := sub_nonneg.mpr hq
  have h2 : 1 - q ≤ 1 - p := sub_le_sub_left hpq 1
  have h3 : (1 - q) ^ 4 ≤ (1 - p) ^ 4 := pow_le_pow_left₀ h1 h2 4
  linarith

theorem easeOutQuart_nonneg {p : ℚ} (h0 : 0 ≤ p) (h1 : p ≤ 1) : 0 ≤ easeOutQuart p := by
  have h := easeOutQuart_mono h0 h1
  have hz : easeOutQuart 0 = 0 := by norm_num [easeOutQuart]
  rwa [hz] at h

theorem easeOutQuart_le_one {p : ℚ} (h1 : p ≤ 1) : easeOutQuart p ≤ 1 := by
  have h := easeOutQuart_mono h1 le_rfl
  have hz : easeOutQuart 1 = 1 := by norm_num [easeOutQuart]
  rwa [hz] at h

/-- The eased progress never decreases with the frame time. -/
theorem eased_mono {duration s t₁ t₂ : ℚ} (hd : 0 < duration) (h : t₁ ≤ t₂) :
    easeOutQuart (progress duration s t₁) ≤ easeOutQuart (progress duration s t₂) :=
  easeOutQuart_mono (progress_mono hd h) (progress_le_one _ _ _)

theorem eased_nonneg {duration s t : ℚ} (hd : 0 < duration) (h : s ≤ t) :
    0 ≤ easeOutQuart (progress duration s t) :=
  easeOutQuart_nonneg (progress_nonneg hd h) (progress_le_one _ _ _)

theorem eased_le_one (duration s t : ℚ) : easeOutQuart (progress duration s t) ≤ 1 :=
  easeOutQuart_le_one (progress_le_one _ _ _)

/-! ## Facts about parsing -/

theorem parseFloat_nonneg {s : Text} {v : ℚ} (h : parseFloat s = some v) : 0 ≤ v := by
  unfold parseFloat at h
  cases hp : decimalLiteral s with
  | none => simp [hp] at h
  | some p =>
    simp only [hp, Option.map_some', Option.some.injEq] at h
    rw [← h]
    positivity

theorem takeWhile_isDigit_eq_nil {s : Text} (h : ∀ c ∈ s, c.isDigit = false) :
    s.takeWhile Char.isDigit = [] := by
  cases s with
  | nil => rfl
  | cons a l => simp [List.takeWhile, h a (List.mem_cons_self a l)]

theorem dropWhile_isDigit_eq_self {s : Text} (h : ∀ c ∈ s, c.isDigit = false) :
    s.dropWhile Char.isDigit = s := by
  cases s with
  | nil => rfl
  | cons a l => simp [List.dropWhile, h a (List.mem_cons_self a l)]

/-- A text without any digit has no decimal literal at its start. -/
theorem decimalLiteral_eq_none {s : Text} (h : ∀ c ∈ s, c.isDigit = false) :
    decimalLiteral s = none := by
  unfold decimalLiteral
  rw [dropWhile_isDigit_eq_self h, takeWhile_isDigit_eq_nil h]
  cases s with
  | nil => rfl
  | cons a l =>
    have hl : ∀ c ∈ l, c.isDigit = false := fun c hc => h c (List.mem_cons_of_mem a hc)
    by_cases ha : a = '.'
    · subst ha
      simp [takeWhile_isDigit_eq_nil hl]
    · split
      · rename_i rest heq
        simp at heq
        exact absurd heq.1 ha
      · simp

theorem stripNonNumeric_no_digit {s : Text} (h : ∀ c ∈ s, c.isDigit = false) :
    ∀ c ∈ stripNonNumeric s, c.isDigit = false := by
  intro c hc
  unfold stripNonNumeric at hc
  exact h c (List.mem_filter.mp hc).1

theorem parseFloat_eq_none_of_no_digit {s : Text} (h : ∀ c ∈ s, c.isDigit = false) :
    parseFloat (stripNonNumeric s) = none := by
  unfold parseFloat
  rw [decimalLiteral_eq_none (stripNonNumeric_no_digit h)]
  rfl

/-- Evaluation of `parseFloat` once the decimal literal at the start of the text is known. -/
theorem parseFloat_of_decimalLiteral (s ip fp : Text) (a b : ℕ)
    (h : decimalLiteral s = some (ip, fp)) (ha : digitsValue ip = a) (hb : digitsValue fp = b) :
    parseFloat s = some ((a : ℚ) + (b : ℚ) / 10 ^ fp.length) := by
  simp [parseFloat, h, ha, hb]

theorem parseFloat_250K : parseFloat (stripNonNumeric "$250K".toList) = some 250 := by
  have h := parseFloat_of_decimalLiteral (stripNonNumeric "$250K".toList)
    "250".toList [] 250 0 (by decide) (by decide) (by decide)
  simpa using h

/-! ## The terminal frame -/

/-- A frame whose elapsed time has reached the duration: the original text is restored and
no frame is requested. -/
theorem terminal_frame_text (start : ℚ) (endv : Option ℚ) {duration : ℚ} {text : Text} {v : ℚ}
    (hd : 0 < duration) (hv : parseFloat (stripNonNumeric text) = some v) (s t : ℚ) (d : Dom) :
    (duration ≤ t - s →
      HeroSection.animate start endv duration text s t d = ⟨text, d.frameRequests⟩ ∧
      EnhancedHeroAnimations.animate start endv duration text s t d
        = ⟨text, d.frameRequests⟩) ∧
    (2000 ≤ t - s →
      ServicesSection.animate text s t d = ⟨text, d.frameRequests⟩ ∧
      CaseMetricsAnimation.frame text s t d = ⟨text, d.frameRequests⟩) := by
  have h2000 : (0 : ℚ) < 2000 := by norm_num
  refine ⟨fun h => ?_, fun h => ?_⟩
  · have hp := progress_eq_one hd h
    simp [HeroSection.animate, EnhancedHeroAnimations.animate, hp]
  · have hp : progress 2000 s t = 1 := progress_eq_one h2000 h
    simp [ServicesSection.animate, CaseMetricsAnimation.frame, CaseMetricsAnimation.animate,
      ServicesSection.duration, CaseMetricsAnimation.duration, hv, hp]

/-- C1: in each of the four counters a frame whose elapsed time has reached the duration
leaves the element showing the original text exactly and requests no further frame, and a frame
whose elapsed time is below the duration requests exactly one further frame. -/
theorem terminal_frame_restores_original_text
    (start : ℚ) (endv : Option ℚ) (duration : ℚ) (text : Text) (v s t : ℚ) (d : Dom)
    (hd : 0 < duration) (hv : parseFloat (stripNonNumeric text) = some v) :
    (duration ≤ t - s →
      HeroSection.animate start endv duration text s t d = ⟨text, d.frameRequests⟩ ∧
      EnhancedHeroAnimations.animate start endv duration text s t d
        = ⟨text, d.frameRequests⟩) ∧
    (2000 ≤ t - s →
      ServicesSection.animate text s t d = ⟨text, d.frameRequests⟩ ∧
      CaseMetricsAnimation.frame text s t d = ⟨text, d.frameRequests⟩) ∧
    (t - s < duration →
      (HeroSection.animate start endv duration text s t d).frameRequests
        = d.frameRequests + 1 ∧
      (EnhancedHeroAnimations.animate start endv duration text s t d).frameRequests
        = d.frameRequests + 1) ∧
    (t - s < 2000 →
      (ServicesSection.animate text s t d).frameRequests = d.frameRequests + 1 ∧
      (CaseMetricsAnimation.frame text s t d).frameRequests = d.frameRequests + 1) := by
  have h2000 : (0 : ℚ) < 2000 := by norm_num
  refine ⟨(terminal_frame_text start endv hd hv s t d).1,
    (terminal_frame_text start endv hd hv s t d).2, fun h => ?_, fun h => ?_⟩
  · have hp := progress_lt_one hd h
    simp [HeroSection.animate, EnhancedHeroAnimations.animate, hp]
  · have hp : progress 2000 s t < 1 := progress_lt_one h2000 h
    simp [ServicesSection.animate, CaseMetricsAnimation.frame, CaseMetricsAnimation.animate,
      ServicesSection.duration, CaseMetricsAnimation.duration, hv, hp]

/-- Witness for C1: the text `$250K`, start time 0, a frame at 2000 ms. -/
theorem terminal_frame_restores_original_text_witness :
    (0 : ℚ) < 2000 ∧ parseFloat (stripNonNumeric "$250K".toList) = some 250 ∧
    HeroSection.animate 0 (some 250) 2000 "$250K".toList 0 2000 ⟨[], 0⟩
      = ⟨"$250K".toList, 0⟩ ∧
    CaseMetricsAnimation.frame "$250K".toList 0 2000 ⟨[], 0⟩ = ⟨"$250K".toList, 0⟩ ∧
    (ServicesSection.animate "$250K".toList 0 2000 ⟨[], 0⟩).frameRequests = 0 := by
  have h := terminal_frame_restores_original_text 0 (some 250) 2000 "$250K".toList 250 0 2000
    ⟨[], 0⟩ (by norm_num) parseFloat_250K
  have h1 := h.1 (by norm_num)
  have h2 := h.2.1 (by norm_num)
  exact ⟨by norm_num, parseFloat_250K, h1.1, h2.2, by rw [h2.1]⟩

/-! ## Texts without numeric content -/

/-- C2: `CaseMetricsAnimation.animateMetric` does nothing on a text whose digits-and-dots
remainder does not parse, in particular on every text without a digit: the call returns the
state it was given, and no frame delivered afterwards changes it. -/
theorem caseMetrics_unparseable_is_no_op :
    (∀ text : Text, (∀ c ∈ text, c.isDigit = false) →
      parseFloat (stripNonNumeric text) = none) ∧
    (∀ (now : ℚ) (d : Dom), parseFloat (stripNonNumeric d.textContent) = none →
      CaseMetricsAnimation.animateMetric now d = d) ∧
    (∀ (now : ℚ) (ts : List ℚ) (text : Text), parseFloat (stripNonNumeric text) = none →
      CaseMetricsAnimation.run now ts text = ⟨text, 0⟩) := by
  refine ⟨fun text h => parseFloat_eq_none_of_no_digit h, fun now d h => ?_,
    fun now ts text h => ?_⟩
  · simp [CaseMetricsAnimation.animateMetric, h]
  · unfold CaseMetricsAnimation.run
    simp only [CaseMetricsAnimation.animateMetric, h]
    cases ts <;> rfl

/-- Witness for C2: the text `abc`. -/
theorem caseMetrics_unparseable_is_no_op_witness :
    parseFloat (stripNonNumeric "abc".toList) = none ∧
    CaseMetricsAnimation.animateMetric 0 ⟨"abc".toList, 0⟩ = ⟨"abc".toList, 0⟩ ∧
    CaseMetricsAnimation.run 0 [16, 1000, 2000] "abc".toList = ⟨"abc".toList, 0⟩ := by
  have hp : parseFloat (stripNonNumeric "abc".toList) = none :=
    caseMetrics_unparseable_is_no_op.1 "abc".toList (by decide)
  exact ⟨hp, caseMetrics_unparseable_is_no_op.2.1 0 ⟨"abc".toList, 0⟩ hp,
    caseMetrics_unparseable_is_no_op.2.2 0 [16, 1000, 2000] "abc".toList hp⟩

theorem progress_half : progress 2000 0 1000 = 1 / 2 := by
  norm_num [progress]

theorem parseFloat_abc : parseFloat (stripNonNumeric "abc".toList) = none :=
  parseFloat_eq_none_of_no_digit (by decide)

/-- C3 (evaluation at the failing input): on the text `abc` the counters without a `NaN` guard
write `NaN` into the element at the frame delivered 1000 ms after the start, and request another
frame. -/
theorem unguarded_counters_show_NaN :
    ServicesSection.run 0 [1000] "abc".toList = ⟨"NaN".toList, 1⟩ ∧
    HeroSection.run 0 [1000] "abc".toList = ⟨"NaN".toList, 1⟩ ∧
    EnhancedHeroAnimations.run 0 [1000] "abc".toList = ⟨"NaN".toList, 1⟩ := by
  have hlt : progress 2000 0 1000 < 1 := by rw [progress_half]; norm_num
  have hfS : ServicesSection.format "abc".toList none = "NaN".toList := by decide
  have hfH : HeroSection.format "abc".toList none = "NaN".toList := by decide
  have hfE : EnhancedHeroAnimations.format "abc".toList none = "NaN".toList := by decide
  refine ⟨?_, ?_, ?_⟩
  · simp only [ServicesSection.run, ServicesSection.animateMetric, runFrames,
      ServicesSection.animate, ServicesSection.displayValue, ServicesSection.currentValue,
      ServicesSection.duration, parseFloat_abc, mathFloor, Option.map_none', hfS, if_pos hlt]
  · simp only [HeroSection.run, HeroSection.animateCounter, runFrames,
      HeroSection.animateOnScroll_animate, HeroSection.animate, HeroSection.displayValue,
      HeroSection.current, parseFloat_abc, mathFloor, Option.map_none', hfH, if_pos hlt]
  · simp only [EnhancedHeroAnimations.run, EnhancedHeroAnimations.animateCounter, runFrames,
      EnhancedHeroAnimations.initCounterAnimations_animate, EnhancedHeroAnimations.animate,
      EnhancedHeroAnimations.displayValue, EnhancedHeroAnimations.current, parseFloat_abc,
      mathFloor, Option.map_none', hfE, if_pos hlt]

/-! ## What one frame writes -/

theorem numberToString_of_nonneg {z : ℤ} (h : 0 ≤ z) :
    numberToString (some z) = Nat.toDigits 10 z.toNat := by
  cases z with
  | ofNat n => rfl
  | negSucc n => exact absurd h (by simp)

/-- The integer computed by `Math.floor(current)` in a run whose parsed value is `v`, with the
duration 2000 of every call site. -/
theorem hero_displayValue {text : Text} {v : ℚ} (hv : parseFloat (stripNonNumeric text) = some v)
    (s t : ℚ) :
    HeroSection.displayValue 0 (parseFloat (stripNonNumeric text)) 2000 text s t
      = HeroSection.format text (some ⌊v * easeOutQuart (progress 2000 s t)⌋) := by
  simp [HeroSection.displayValue, HeroSection.current, hv, mathFloor]

theorem enhanced_displayValue {text : Text} {v : ℚ}
    (hv : parseFloat (stripNonNumeric text) = some v) (s t : ℚ) :
    EnhancedHeroAnimations.displayValue 0 (parseFloat (stripNonNumeric text)) 2000 text s t
      = EnhancedHeroAnimations.format text (some ⌊v * easeOutQuart (progress 2000 s t)⌋) := by
  simp [EnhancedHeroAnimations.displayValue, EnhancedHeroAnimations.current, hv, mathFloor]

theorem services_displayValue {text : Text} {v : ℚ}
    (hv : parseFloat (stripNonNumeric text) = some v) (s t : ℚ) :
    ServicesSection.displayValue text s t
      = ServicesSection.format text (some ⌊v * easeOutQuart (progress 2000 s t)⌋) := by
  simp [ServicesSection.displayValue, ServicesSection.currentValue, ServicesSection.duration,
    hv, mathFloor]

theorem caseMetrics_displayValue (text : Text) (v s t : ℚ) :
    CaseMetricsAnimation.displayValue text v s t
      = CaseMetricsAnimation.format text (some ⌊v * easeOutQuart (progress 2000 s t)⌋) := by
  simp [CaseMetricsAnimation.displayValue, CaseMetricsAnimation.currentValue,
    CaseMetricsAnimation.duration, mathFloor]

/-- The text left by an intermediate frame of the `HeroSection` counter. -/
theorem hero_frame_text {text : Text} {v : ℚ} (hv : parseFloat (stripNonNumeric text) = some v)
    {s t : ℚ} (h : progress 2000 s t < 1) (d : Dom) :
    (HeroSection.animateOnScroll_animate text s t d).textContent
      = HeroSection.format text (some ⌊v * easeOutQuart (progress 2000 s t)⌋) := by
  simp [HeroSection.animateOnScroll_animate, HeroSection.animate, h, hero_displayValue hv]

/-- The text left by an intermediate frame of the `EnhancedHeroAnimations` counter. -/
theorem enhanced_frame_text {text : Text} {v : ℚ}
    (hv : parseFloat (stripNonNumeric text) = some v) {s t : ℚ} (h : progress 2000 s t < 1)
    (d : Dom) :
    (EnhancedHeroAnimations.initCounterAnimations_animate text s t d).textContent
      = EnhancedHeroAnimations.format text (some ⌊v * easeOutQuart (progress 2000 s t)⌋) := by
  simp [EnhancedHeroAnimations.initCounterAnimations_animate, EnhancedHeroAnimations.animate, h,
    enhanced_displayValue hv]

/-- The text left by an intermediate frame of the `ServicesSection` counter. -/
theorem services_frame_text {text : Text} {v : ℚ}
    (hv : parseFloat (stripNonNumeric text) = some v) {s t : ℚ} (h : progress 2000 s t < 1)
    (d : Dom) :
    (ServicesSection.animate text s t d).textContent
      = ServicesSection.format text (some ⌊v * easeOutQuart (progress 2000 s t)⌋) := by
  have h' : progress ServicesSection.duration s t < 1 := h
  simp [ServicesSection.animate, h', services_displayValue hv]

/-- The text left by an intermediate frame of the `CaseMetricsAnimation` counter. -/
theorem caseMetrics_frame_text {text : Text} {v : ℚ}
    (hv : parseFloat (stripNonNumeric text) = some v) {s t : ℚ} (h : progress 2000 s t < 1)
    (d : Dom) :
    (CaseMetricsAnimation.frame text s t d).textContent
      = CaseMetricsAnimation.format text (some ⌊v * easeOutQuart (progress 2000 s t)⌋) := by
  have h' : progress CaseMetricsAnimation.duration s t < 1 := h
  simp [CaseMetricsAnimation.frame, hv, CaseMetricsAnimation.animate, h',
    caseMetrics_displayValue]

/-- The floored value never decreases with the frame time when the target is not negative. -/
theorem floor_eased_mono {v : ℚ} (hv : 0 ≤ v) (s : ℚ) {t₁ t₂ : ℚ} (h : t₁ ≤ t₂) :
    ⌊v * easeOutQuart (progress 2000 s t₁)⌋ ≤ ⌊v * easeOutQuart (progress 2000 s t₂)⌋ :=
  Int.floor_mono (mul_le_mul_of_nonneg_left (eased_mono (by norm_num) h) hv)

theorem floor_eased_nonneg {v : ℚ} (hv : 0 ≤ v) {s t : ℚ} (h : s ≤ t) :
    0 ≤ ⌊v * easeOutQuart (progress 2000 s t)⌋ :=
  Int.floor_nonneg.mpr (mul_nonneg hv (eased_nonneg (by norm_num) h))

theorem floor_eased_le {v : ℚ} (hv : 0 ≤ v) (s t : ℚ) :
    ⌊v * easeOutQuart (progress 2000 s t)⌋ ≤ ⌊v⌋ :=
  Int.floor_mono (by nlinarith [eased_le_one 2000 s t])

/-! ## The text `$250K` -/

theorem hero_format_K {text : Text} (h1 : includes text '$' = true)
    (h2 : includes text 'K' = true) (n : Option ℤ) :
    HeroSection.format text n = "$".toList ++ numberToString n ++ "K".toList := by
  simp [HeroSection.format, h1, h2]

theorem enhanced_format_K {text : Text} (h1 : includes text '$' = true)
    (h2 : includes text 'K' = true) (n : Option ℤ) :
    EnhancedHeroAnimations.format text n = "$".toList ++ numberToString n ++ "K".toList := by
  simp [EnhancedHeroAnimations.format, h1, h2]

theorem caseMetrics_format_K {text : Text} (h : includes text 'K' = true) (n : Option ℤ) :
    CaseMetricsAnimation.format text n = "$".toList ++ numberToString n ++ "K".toList := by
  simp [CaseMetricsAnimation.format, h]

theorem format_250K (n : Option ℤ) :
    HeroSection.format "$250K".toList n = "$".toList ++ numberToString n ++ "K".toList ∧
    EnhancedHeroAnimations.format "$250K".toList n
      = "$".toList ++ numberToString n ++ "K".toList ∧
    CaseMetricsAnimation.format "$250K".toList n
      = "$".toList ++ numberToString n ++ "K".toList :=
  ⟨hero_format_K (by decide) (by decide) n, enhanced_format_K (by decide) (by decide) n,
    caseMetrics_format_K (by decide) n⟩

/-- C4: the text `$250K` parses to 250, and for every non-decreasing sequence of frame times
not earlier than the start, the intermediate frames (progress below 1) of the `HeroSection`,
`EnhancedHeroAnimations` and `CaseMetricsAnimation` counters show `$` + n + `K` for a
non-decreasing sequence of naturals n, each at most 250. -/
theorem dollar250K_frames (s : ℚ) (ts : List ℚ) (hs : ts.Sorted (· ≤ ·))
    (hge : ∀ t ∈ ts, s ≤ t) :
    parseFloat (stripNonNumeric "$250K".toList) = some 250 ∧
    ∃ ns : List ℕ, ns.Sorted (· ≤ ·) ∧ (∀ n ∈ ns, n ≤ 250) ∧ ∀ d : Dom,
      (ts.filter fun t => decide (progress 2000 s t < 1)).map
          (fun t => (HeroSection.animateOnScroll_animate "$250K".toList s t d).textContent)
        = ns.map (fun n => "$".toList ++ Nat.toDigits 10 n ++ "K".toList) ∧
      (ts.filter fun t => decide (progress 2000 s t < 1)).map
          (fun t =>
            (EnhancedHeroAnimations.initCounterAnimations_animate "$250K".toList s t d).textContent)
        = ns.map (fun n => "$".toList ++ Nat.toDigits 10 n ++ "K".toList) ∧
      (ts.filter fun t => decide (progress 2000 s t < 1)).map
          (fun t => (CaseMetricsAnimation.frame "$250K".toList s t d).textContent)
        = ns.map (fun n => "$".toList ++ Nat.toDigits 10 n ++ "K".toList) := by
  have hv := parseFloat_250K
  have h250 : (0 : ℚ) ≤ 250 := by norm_num
  refine ⟨hv, (ts.filter fun t => decide (progress 2000 s t < 1)).map
    (fun t => (⌊(250 : ℚ) * easeOutQuart (progress 2000 s t)⌋).toNat), ?_, ?_, ?_⟩
  · exact List.Pairwise.map _
      (fun a b hab => Int.toNat_le_toNat (floor_eased_mono h250 s hab)) (hs.filter _)
  · intro n hn
    obtain ⟨t, -, rfl⟩ := List.mem_map.mp hn
    have h := floor_eased_le h250 s t
    have h' : ⌊(250 : ℚ)⌋ = 250 := by norm_num
    rw [h'] at h
    omega
  · intro d
    simp only [List.map_map]
    refine ⟨?_, ?_, ?_⟩ <;>
    · apply List.map_congr_left
      intro t ht
      obtain ⟨htm, hp⟩ := List.mem_filter.mp ht
      have hp' : progress 2000 s t < 1 := of_decide_eq_true hp
      have h0 := floor_eased_nonneg h250 (hge t htm)
      simp only [Function.comp, hero_frame_text hv hp', enhanced_frame_text hv hp',
        caseMetrics_frame_text hv hp', (format_250K _).1, (format_250K _).2.1,
        (format_250K _).2.2, numberToString_of_nonneg h0]

/-- Witness for C4: start time 0 and frames at 0, 1000 and 2000 ms. -/
theorem dollar250K_frames_witness :
    ([0, 1000, 2000] : List ℚ).Sorted (· ≤ ·) ∧ (∀ t ∈ ([0, 1000, 2000] : List ℚ), (0 : ℚ) ≤ t) ∧
    parseFloat (stripNonNumeric "$250K".toList) = some 250 := by
  have hs : ([0, 1000, 2000] : List ℚ).Sorted (· ≤ ·) := by norm_num [List.Sorted]
  have hge : ∀ t ∈ ([0, 1000, 2000] : List ℚ), (0 : ℚ) ≤ t := by
    intro t ht
    simp at ht
    rcases ht with h | h | h <;> rw [h] <;> norm_num
  exact ⟨hs, hge, (dollar250K_frames 0 [0, 1000, 2000] hs hge).1⟩

/-! ## The text `99%` -/

theorem hero_format_percent {text : Text} (h1 : includes text '$' = false)
    (h2 : includes text '%' = true) (n : Option ℤ) :
    HeroSection.format text n = numberToString n ++ "%".toList := by
  simp [HeroSection.format, h1, h2]

theorem enhanced_format_percent {text : Text} (h1 : includes text '$' = false)
    (h2 : includes text '%' = true) (n : Option ℤ) :
    EnhancedHeroAnimations.format text n = numberToString n ++ "%".toList := by
  simp [EnhancedHeroAnimations.format, h1, h2]

theorem services_format_percent {text : Text} (h : includes text '%' = true) (n : Option ℤ) :
    ServicesSection.format text n = numberToString n ++ "%".toList := by
  simp [ServicesSection.format, h]

theorem caseMetrics_format_percent {text : Text} (hK : includes text 'K' = false)
    (hN : includes text '₦' = false) (h : includes text '%' = true) (n : Option ℤ) :
    CaseMetricsAnimation.format text n = numberToString n ++ "%".toList := by
  simp [CaseMetricsAnimation.format, hK, hN, h]

theorem parseFloat_99percent : parseFloat (stripNonNumeric "99%".toList) = some 99 := by
  have h := parseFloat_of_decimalLiteral (stripNonNumeric "99%".toList)
    "99".toList [] 99 0 (by decide) (by decide) (by decide)
  simpa using h

/-- C5: the text `99%` parses to 99; in each of the four counters every intermediate frame
shows n + `%` for an integer n, with nothing before the number, and a frame at or after
2000 ms leaves exactly `99%`. -/
theorem percent99_frames (s t : ℚ) (d : Dom) :
    parseFloat (stripNonNumeric "99%".toList) = some 99 ∧
    (t - s < 2000 → ∃ n : ℤ,
      (HeroSection.animateOnScroll_animate "99%".toList s t d).textContent
        = numberToString (some n) ++ "%".toList ∧
      (EnhancedHeroAnimations.initCounterAnimations_animate "99%".toList s t d).textContent
        = numberToString (some n) ++ "%".toList ∧
      (ServicesSection.animate "99%".toList s t d).textContent
        = numberToString (some n) ++ "%".toList ∧
      (CaseMetricsAnimation.frame "99%".toList s t d).textContent
        = numberToString (some n) ++ "%".toList) ∧
    (2000 ≤ t - s →
      (HeroSection.animateOnScroll_animate "99%".toList s t d).textContent = "99%".toList ∧
      (EnhancedHeroAnimations.initCounterAnimations_animate "99%".toList s t d).textContent
        = "99%".toList ∧
      (ServicesSection.animate "99%".toList s t d).textContent = "99%".toList ∧
      (CaseMetricsAnimation.frame "99%".toList s t d).textContent = "99%".toList) := by
  have hv := parseFloat_99percent
  have h2000 : (0 : ℚ) < 2000 := by norm_num
  refine ⟨hv, fun h => ⟨⌊(99 : ℚ) * easeOutQuart (progress 2000 s t)⌋, ?_⟩, fun h => ?_⟩
  · have hp := progress_lt_one h2000 h
    exact ⟨(hero_frame_text hv hp d).trans (hero_format_percent (by decide) (by decide) _),
      (enhanced_frame_text hv hp d).trans (enhanced_format_percent (by decide) (by decide) _),
      (services_frame_text hv hp d).trans (services_format_percent (by decide) _),
      (caseMetrics_frame_text hv hp d).trans
        (caseMetrics_format_percent (by decide) (by decide) (by decide) _)⟩
  · have h1 := (terminal_frame_text 0 (parseFloat (stripNonNumeric "99%".toList)) h2000 hv
      s t d).1 h
    have h2 := (terminal_frame_text 0 (parseFloat (stripNonNumeric "99%".toList)) h2000 hv
      s t d).2 h
    exact ⟨congrArg Dom.textContent h1.1, congrArg Dom.textContent h1.2,
      congrArg Dom.textContent h2.1, congrArg Dom.textContent h2.2⟩

/-- Witness for C5: start time 0, frames at 1000 ms and at 2000 ms. -/
theorem percent99_frames_witness :
    (∃ n : ℤ, (ServicesSection.animate "99%".toList 0 1000 ⟨[], 0⟩).textContent
      = numberToString (some n) ++ "%".toList) ∧
    (CaseMetricsAnimation.frame "99%".toList 0 2000 ⟨[], 0⟩).textContent = "99%".toList := by
  obtain ⟨n, -, -, h, -⟩ := (percent99_frames 0 1000 ⟨[], 0⟩).2.1 (by norm_num)
  exact ⟨⟨n, h⟩, ((percent99_frames 0 2000 ⟨[], 0⟩).2.2 (by norm_num)).2.2.2⟩

/-! ## The characters of a rendered number -/

theorem digitChar_isDigit : ∀ k, k < 10 → (Nat.digitChar k).isDigit = true := by decide

theorem toDigitsCore_isDigit (fuel : ℕ) : ∀ (n : ℕ) (acc : List Char),
    (∀ c ∈ acc, c.isDigit = true) → ∀ c ∈ Nat.toDigitsCore 10 fuel n acc, c.isDigit = true := by
  induction fuel with
  | zero => intro n acc h c hc; exact h c hc
  | succ fuel ih =>
    intro n acc h c hc
    have hd : (Nat.digitChar (n % 10)).isDigit = true :=
      digitChar_isDigit _ (Nat.mod_lt _ (by norm_num))
    have hacc : ∀ c ∈ Nat.digitChar (n % 10) :: acc, c.isDigit = true := by
      intro c hc
      rcases List.mem_cons.mp hc with h1 | h1
      · rw [h1]; exact hd
      · exact h c h1
    simp only [Nat.toDigitsCore] at hc
    split at hc
    · exact hacc c hc
    · exact ih _ _ hacc c hc

theorem toDigits_isDigit (n : ℕ) : ∀ c ∈ Nat.toDigits 10 n, c.isDigit = true :=
  toDigitsCore_isDigit _ _ _ (by simp)

/-- Every character of a rendered number is a digit, the minus sign, or a letter of `NaN`. -/
theorem numberToString_chars (m : Option ℤ) :
    ∀ c ∈ numberToString m, c.isDigit = true ∨ c = '-' ∨ c = 'N' ∨ c = 'a' := by
  intro c hc
  match m, hc with
  | none, hc =>
    have hc' : c ∈ ['N', 'a', 'N'] := hc
    simp only [List.mem_cons, List.mem_singleton, List.not_mem_nil, or_false] at hc'
    rcases hc' with h | h | h
    · exact Or.inr (Or.inr (Or.inl h))
    · exact Or.inr (Or.inr (Or.inr h))
    · exact Or.inr (Or.inr (Or.inl h))
  | some (Int.ofNat n), hc => exact Or.inl (toDigits_isDigit n c hc)
  | some (Int.negSucc n), hc =>
    rcases List.mem_cons.mp hc with h | h
    · exact Or.inr (Or.inl h)
    · exact Or.inl (toDigits_isDigit _ c h)

/-! ## The text `₦15M+` -/

theorem caseMetrics_format_naira {text : Text} (hK : includes text 'K' = false)
    (hN : includes text '₦' = true) (n : Option ℤ) :
    CaseMetricsAnimation.format text n
      = "₦".toList ++ numberToString n ++ "M".toList
        ++ (if includes text '+' then "+".toList else []) := by
  simp [CaseMetricsAnimation.format, hK, hN]

theorem parseFloat_15M : parseFloat (stripNonNumeric "₦15M+".toList) = some 15 := by
  have h := parseFloat_of_decimalLiteral (stripNonNumeric "₦15M+".toList)
    "15".toList [] 15 0 (by decide) (by decide) (by decide)
  simpa using h

/-- C6: on the text `₦15M+` every intermediate frame of `CaseMetricsAnimation.animateMetric`
shows `₦` + n + `M+` for an integer n, and never a number followed by `+` alone. -/
theorem naira15M_frames (s t : ℚ) (d : Dom) (h : t - s < 2000) :
    (∃ n : ℤ, (CaseMetricsAnimation.frame "₦15M+".toList s t d).textContent
      = "₦".toList ++ numberToString (some n) ++ "M+".toList) ∧
    ∀ m : Option ℤ, (CaseMetricsAnimation.frame "₦15M+".toList s t d).textContent
      ≠ numberToString m ++ "+".toList := by
  have hp := progress_lt_one (by norm_num : (0 : ℚ) < 2000) h
  have ht : (CaseMetricsAnimation.frame "₦15M+".toList s t d).textContent
      = "₦".toList ++ numberToString (some ⌊(15 : ℚ) * easeOutQuart (progress 2000 s t)⌋)
        ++ "M+".toList := by
    rw [caseMetrics_frame_text parseFloat_15M hp d,
      caseMetrics_format_naira (by decide) (by decide)]
    have hplus : includes "₦15M+".toList '+' = true := by decide
    rw [if_pos hplus]
    simp
  refine ⟨⟨_, ht⟩, fun m hm => ?_⟩
  have hmem : '₦' ∈ numberToString m ++ "+".toList := by
    rw [← hm, ht]
    simp
  rcases List.mem_append.mp hmem with h1 | h1
  · rcases numberToString_chars m _ h1 with h2 | h2 | h2 | h2
    · exact absurd h2 (by decide)
    · exact absurd h2 (by decide)
    · exact absurd h2 (by decide)
    · exact absurd h2 (by decide)
  · exact absurd h1 (by decide)

/-- Witness for C6: start time 0 and a frame at 1000 ms. -/
theorem naira15M_frames_witness :
    (1000 : ℚ) - 0 < 2000 ∧
    ∃ n : ℤ, (CaseMetricsAnimation.frame "₦15M+".toList 0 1000 ⟨[], 0⟩).textContent
      = "₦".toList ++ numberToString (some n) ++ "M+".toList :=
  ⟨by norm_num, (naira15M_frames 0 1000 ⟨[], 0⟩ (by norm_num)).1⟩

/-! ## The priority of the formats -/

theorem floor_half_15 : ⌊(15 : ℚ) * easeOutQuart (progress 2000 0 1000)⌋ = 14 := by
  rw [progress_half]
  norm_num [easeOutQuart, Int.floor_eq_iff]

theorem parseFloat_dollar15M : parseFloat (stripNonNumeric "$15M+".toList) = some 15 := by
  have h := parseFloat_of_decimalLiteral (stripNonNumeric "$15M+".toList)
    "15".toList [] 15 0 (by decide) (by decide) (by decide)
  simpa using h

/-- C7 (counterexample): the text `$15M+` passes the second test of the stated priority
(currency and `M`, with a trailing `+`) and not the first, yet the frame delivered 1000 ms after
the start shows `14+`, the plus form, and not the `M` form. -/
theorem priority_fails_on_dollar15M :
    (specRules.map fun r => r.1 "$15M+".toList) = [false, true, false, true, false] ∧
    (CaseMetricsAnimation.frame "$15M+".toList 0 1000 ⟨"$15M+".toList, 0⟩).textContent
      = "14+".toList ∧
    (firstMatch specRules "$15M+".toList).render (some 14) = "₦14M+".toList ∧
    ¬ ∀ (text : Text) (n : Option ℤ),
      CaseMetricsAnimation.format text n = (firstMatch specRules text).render n := by
  have hlt : progress 2000 0 1000 < 1 := by rw [progress_half]; norm_num
  have hf : CaseMetricsAnimation.format "$15M+".toList (some 14) = "14+".toList := by decide
  have hs : (firstMatch specRules "$15M+".toList).render (some 14) = "₦14M+".toList := by
    decide
  refine ⟨by decide, ?_, hs, fun h => ?_⟩
  · rw [caseMetrics_frame_text parseFloat_dollar15M hlt, floor_half_15, hf]
  · have h' := h "$15M+".toList (some 14)
    rw [hf, hs] at h'
    exact absurd h' (by decide)

theorem includes_eq_decide (s : Text) (c : Char) : includes s c = decide (c ∈ s) := by
  simp [includes]

/-- The formatting chain of `CaseMetricsAnimation.animateMetric` is the first-match choice
over `codeRules`. -/
theorem caseMetrics_format_eq_firstMatch (text : Text) (n : Option ℤ) :
    CaseMetricsAnimation.format text n = (firstMatch codeRules text).render n := by
  unfold CaseMetricsAnimation.format firstMatch codeRules isCurrency templateM Template.render
  simp only [List.find?]
  cases hK : includes text 'K' <;> cases hN : includes text '₦' <;>
    cases hD : includes text '$' <;> cases hP : includes text '%' <;>
    cases hA : includes text '+' <;> cases hF : includes text '/' <;>
    simp [hA]

/-- C7 (amended): `CaseMetricsAnimation.animateMetric` chooses the frame format by the fixed
priority (currency and `K`) > (currency and `₦`: the `M` form, with `+` appended when the text
contains `+`) > percentage > plus > fraction > none: for every parseable text each intermediate
frame shows the format of the first of these tests that the text passes.  In particular a text
with `$`, `K` and `%` shows the `K` form, and a text with `+` and `/` and none of `K`, `₦`, `%`
shows the plus form. -/
theorem caseMetrics_format_priority (text : Text) (v s t : ℚ) (d : Dom)
    (hv : parseFloat (stripNonNumeric text) = some v) (h : t - s < 2000) :
    (CaseMetricsAnimation.frame text s t d).textContent
      = (firstMatch codeRules text).render
          (some ⌊v * easeOutQuart (progress 2000 s t)⌋) ∧
    (includes text '$' = true → includes text 'K' = true → includes text '%' = true →
      firstMatch codeRules text = ⟨"$".toList, "K".toList⟩) ∧
    (includes text 'K' = false → includes text '₦' = false → includes text '%' = true →
      includes text '+' = true → firstMatch codeRules text = ⟨[], "%".toList⟩) ∧
    (includes text 'K' = false → includes text '₦' = false → includes text '%' = false →
      includes text '+' = true → includes text '/' = true →
      firstMatch codeRules text = ⟨[], "+".toList⟩) := by
  have hp := progress_lt_one (by norm_num : (0 : ℚ) < 2000) h
  refine ⟨?_, ?_, ?_, ?_⟩
  · rw [caseMetrics_frame_text hv hp d, caseMetrics_format_eq_firstMatch]
  · intro h1 h2 h3
    simp [firstMatch, codeRules, isCurrency, List.find?, h1, h2]
  · intro h1 h2 h3 h4
    simp [firstMatch, codeRules, isCurrency, List.find?, h1, h2, h3]
  · intro h1 h2 h3 h4 h5
    simp [firstMatch, codeRules, isCurrency, List.find?, h1, h2, h3, h4]

/-- Witness for C7: the text `$15M+`, start time 0 and a frame at 1000 ms. -/
theorem caseMetrics_format_priority_witness :
    parseFloat (stripNonNumeric "$15M+".toList) = some 15 ∧ (1000 : ℚ) - 0 < 2000 ∧
    (CaseMetricsAnimation.frame "$15M+".toList 0 1000 ⟨[], 0⟩).textContent
      = (firstMatch codeRules "$15M+".toList).render
          (some ⌊(15 : ℚ) * easeOutQuart (progress 2000 0 1000)⌋) :=
  ⟨parseFloat_dollar15M, by norm_num,
    (caseMetrics_format_priority "$15M+".toList 15 0 1000 ⟨[], 0⟩ parseFloat_dollar15M
      (by norm_num)).1⟩

/-! ## The literals written around the number -/

theorem floor_half_500 : ⌊(500 : ℚ) * easeOutQuart (progress 2000 0 1000)⌋ = 468 := by
  rw [progress_half]
  norm_num [easeOutQuart, Int.floor_eq_iff]

theorem parseFloat_naira500 : parseFloat (stripNonNumeric "₦500".toList) = some 500 := by
  have h := parseFloat_of_decimalLiteral (stripNonNumeric "₦500".toList)
    "500".toList [] 500 0 (by decide) (by decide) (by decide)
  simpa using h

/-- C8 (counterexample): the text `₦500` has the literal `₦` before its numeral and nothing
after it, and contains no `M`; the frame delivered 1000 ms after the start shows `₦468M`, not
`₦468`. -/
theorem literal_affixes_fail_on_naira500 :
    specLead "₦500".toList = "₦".toList ∧ specTrail "₦500".toList = [] ∧
    includes "₦500".toList 'M' = false ∧
    (CaseMetricsAnimation.frame "₦500".toList 0 1000 ⟨"₦500".toList, 0⟩).textContent
      = "₦468M".toList ∧
    (CaseMetricsAnimation.frame "₦500".toList 0 1000 ⟨"₦500".toList, 0⟩).textContent
      ≠ specLead "₦500".toList
        ++ numberToString (mathFloor (some (CaseMetricsAnimation.currentValue 500 0 1000)))
        ++ specTrail "₦500".toList := by
  have hlt : progress 2000 0 1000 < 1 := by rw [progress_half]; norm_num
  have hf : CaseMetricsAnimation.format "₦500".toList (some 468) = "₦468M".toList := by decide
  have ht : (CaseMetricsAnimation.frame "₦500".toList 0 1000 ⟨"₦500".toList, 0⟩).textContent
      = "₦468M".toList := by
    rw [caseMetrics_frame_text parseFloat_naira500 hlt, floor_half_500, hf]
  have hl : specLead "₦500".toList = "₦".toList := by decide
  have hr : specTrail "₦500".toList = [] := by decide
  have hm : mathFloor (some (CaseMetricsAnimation.currentValue 500 0 1000)) = some 468 := by
    simp only [mathFloor, Option.map_some', CaseMetricsAnimation.currentValue,
      CaseMetricsAnimation.duration, floor_half_500]
  refine ⟨hl, hr, by decide, ht, ?_⟩
  rw [ht, hl, hr, hm]
  decide

theorem takeWhile_append_stop (p : Char → Bool) (xs rest : Text)
    (hxs : ∀ c ∈ xs, p c = true) (hr : rest.takeWhile p = []) :
    (xs ++ rest).takeWhile p = xs := by
  induction xs with
  | nil => simpa using hr
  | cons a l ih =>
    have ha := hxs a (List.mem_cons_self a l)
    have hl := ih (fun c hc => hxs c (List.mem_cons_of_mem a hc))
    simp [List.takeWhile, ha, hl]

theorem dropWhile_append_stop (p : Char → Bool) (xs rest : Text)
    (hxs : ∀ c ∈ xs, p c = true) :
    (xs ++ rest).dropWhile p = rest.dropWhile p := by
  induction xs with
  | nil => rfl
  | cons a l ih =>
    have ha := hxs a (List.mem_cons_self a l)
    have hl := ih (fun c hc => hxs c (List.mem_cons_of_mem a hc))
    simp [List.dropWhile, ha, hl]

/-- A text that is a numeral enclosed in two literals has these literals as the characters
before and after its numeral. -/
theorem specLead_specTrail_enclosed (T : Template) (num : Text)
    (hb : ∀ c ∈ T.before, isNumeralChar c = false)
    (ha : T.after.dropWhile isNumeralChar = T.after)
    (hne : num ≠ []) (hnum : ∀ c ∈ num, isNumeralChar c = true) :
    specLead (T.before ++ num ++ T.after) = T.before ∧
    specTrail (T.before ++ num ++ T.after) = T.after := by
  obtain ⟨a, l, rfl⟩ := List.exists_cons_of_ne_nil hne
  have ha' : isNumeralChar a = true := hnum a (List.mem_cons_self a l)
  have hb' : ∀ c ∈ T.before, (fun c => !isNumeralChar c) c = true := by
    intro c hc
    simp [hb c hc]
  constructor
  · unfold specLead
    rw [List.append_assoc]
    exact takeWhile_append_stop _ _ _ hb' (by simp [List.takeWhile, ha'])
  · unfold specTrail
    rw [List.append_assoc, dropWhile_append_stop _ _ _ hb']
    have h1 : ((a :: l) ++ T.after).dropWhile (fun c => !isNumeralChar c)
        = (a :: l) ++ T.after := by simp [List.dropWhile, ha']
    rw [h1, dropWhile_append_stop _ _ _ hnum, ha]

theorem not_mem_numeral {num : Text} (hnum : ∀ c ∈ num, isNumeralChar c = true) {c : Char}
    (hc : isNumeralChar c = false) : c ∉ num := by
  intro h
  rw [hnum c h] at hc
  exact absurd hc (by decide)

theorem includes_enclosed (xs num ys : Text) (hnum : ∀ c ∈ num, isNumeralChar c = true)
    {c : Char} (hc : isNumeralChar c = false) :
    includes (xs ++ num ++ ys) c = (includes xs c || includes ys c) := by
  have h := not_mem_numeral hnum hc
  simp only [includes_eq_decide, List.mem_append, h, or_false]
  by_cases h1 : c ∈ xs <;> by_cases h2 : c ∈ ys <;> simp [h1, h2]

theorem caseMetrics_format_enclosed (T : Template) (hT : T ∈ caseMetricsTemplates)
    (num : Text) (hnum : ∀ c ∈ num, isNumeralChar c = true) (n : Option ℤ) :
    CaseMetricsAnimation.format (T.before ++ num ++ T.after) n = T.render n := by
  have hK := includes_enclosed T.before num T.after hnum (by decide : isNumeralChar 'K' = false)
  have hN := includes_enclosed T.before num T.after hnum (by decide : isNumeralChar '₦' = false)
  have hD := includes_enclosed T.before num T.after hnum (by decide : isNumeralChar '$' = false)
  have hP := includes_enclosed T.before num T.after hnum (by decide : isNumeralChar '%' = false)
  have hA := includes_enclosed T.before num T.after hnum (by decide : isNumeralChar '+' = false)
  have hF := includes_enclosed T.before num T.after hnum (by decide : isNumeralChar '/' = false)
  unfold CaseMetricsAnimation.format
  simp only [hK, hN, hD, hP, hA, hF]
  simp only [caseMetricsTemplates, List.mem_cons, List.mem_singleton, List.not_mem_nil,
    or_false] at hT
  rcases hT with h | h | h | h | h | h | h <;> subst h <;>
    simp [Template.render, includes]

theorem hero_format_enclosed (T : Template) (hT : T ∈ heroTemplates)
    (num : Text) (hnum : ∀ c ∈ num, isNumeralChar c = true) (n : Option ℤ) :
    HeroSection.format (T.before ++ num ++ T.after) n = T.render n := by
  have hK := includes_enclosed T.before num T.after hnum (by decide : isNumeralChar 'K' = false)
  have hD := includes_enclosed T.before num T.after hnum (by decide : isNumeralChar '$' = false)
  have hP := includes_enclosed T.before num T.after hnum (by decide : isNumeralChar '%' = false)
  have hA := includes_enclosed T.before num T.after hnum (by decide : isNumeralChar '+' = false)
  unfold HeroSection.format
  simp only [hK, hD, hP, hA]
  simp only [heroTemplates, List.mem_cons, List.mem_singleton, List.not_mem_nil,
    or_false] at hT
  rcases hT with h | h | h | h <;> subst h <;>
    simp [Template.render, includes]

theorem firstMatch_codeRules_mem (text : Text) :
    firstMatch codeRules text ∈ caseMetricsTemplates := by
  unfold firstMatch codeRules isCurrency templateM caseMetricsTemplates
  simp only [List.find?]
  cases hK : includes text 'K' <;> cases hN : includes text '₦' <;>
    cases hD : includes text '$' <;> cases hP : includes text '%' <;>
    cases hA : includes text '+' <;> cases hF : includes text '/' <;>
    simp [hA]

theorem hero_format_mem (text : Text) (n : Option ℤ) :
    ∃ T ∈ heroTemplates, HeroSection.format text n = T.render n := by
  unfold HeroSection.format heroTemplates Template.render
  cases hK : includes text 'K' <;> cases hD : includes text '$' <;>
    cases hP : includes text '%' <;> cases hA : includes text '+' <;>
    simp

theorem templates_enclose :
    (∀ T ∈ caseMetricsTemplates, (∀ c ∈ T.before, isNumeralChar c = false) ∧
      T.after.dropWhile isNumeralChar = T.after) ∧
    (∀ T ∈ heroTemplates, (∀ c ∈ T.before, isNumeralChar c = false) ∧
      T.after.dropWhile isNumeralChar = T.after) := by
  decide

/-- C8 (amended): for every parseable text each intermediate frame of
`CaseMetricsAnimation.animateMetric` and of `HeroSection.animateCounter` shows
P + floor(current) + S for one of the fixed literal pairs (P, S) of that counter
(`caseMetricsTemplates`, `heroTemplates`), chosen by the tests of the formatting chain and
not copied from the text.  When the text is a numeral enclosed in one of these pairs, P and S
are the literal characters of the text before and after its numeral. -/
theorem frames_use_fixed_literals (text : Text) (v s t : ℚ) (d : Dom)
    (hv : parseFloat (stripNonNumeric text) = some v) (h : t - s < 2000) :
    (∃ T ∈ caseMetricsTemplates,
      (CaseMetricsAnimation.frame text s t d).textContent
        = T.before ++ numberToString (some ⌊v * easeOutQuart (progress 2000 s t)⌋)
          ++ T.after) ∧
    (∃ T ∈ heroTemplates,
      (HeroSection.animateOnScroll_animate text s t d).textContent
        = T.before ++ numberToString (some ⌊v * easeOutQuart (progress 2000 s t)⌋)
          ++ T.after) ∧
    (∀ T ∈ caseMetricsTemplates, ∀ num : Text, num ≠ [] →
      (∀ c ∈ num, isNumeralChar c = true) → text = T.before ++ num ++ T.after →
      specLead text = T.before ∧ specTrail text = T.after ∧
      (CaseMetricsAnimation.frame text s t d).textContent
        = specLead text ++ numberToString (some ⌊v * easeOutQuart (progress 2000 s t)⌋)
          ++ specTrail text) ∧
    (∀ T ∈ heroTemplates, ∀ num : Text, num ≠ [] →
      (∀ c ∈ num, isNumeralChar c = true) → text = T.before ++ num ++ T.after →
      specLead text = T.before ∧ specTrail text = T.after ∧
      (HeroSection.animateOnScroll_animate text s t d).textContent
        = specLead text ++ numberToString (some ⌊v * easeOutQuart (progress 2000 s t)⌋)
          ++ specTrail text) := by
  have hp := progress_lt_one (by norm_num : (0 : ℚ) < 2000) h
  refine ⟨⟨firstMatch codeRules text, firstMatch_codeRules_mem text, ?_⟩, ?_, ?_, ?_⟩
  · rw [caseMetrics_frame_text hv hp d, caseMetrics_format_eq_firstMatch]
    rfl
  · obtain ⟨T, hT, hf⟩ := hero_format_mem text
      (some ⌊v * easeOutQuart (progress 2000 s t)⌋)
    exact ⟨T, hT, by rw [hero_frame_text hv hp d, hf]; rfl⟩
  · intro T hT num hne hnum htext
    obtain ⟨hb, ha⟩ := templates_enclose.1 T hT
    obtain ⟨hl, hr⟩ := specLead_specTrail_enclosed T num hb ha hne hnum
    rw [← htext] at hl hr
    refine ⟨hl, hr, ?_⟩
    rw [caseMetrics_frame_text hv hp d, hl, hr]
    conv_lhs => rw [htext]
    exact caseMetrics_format_enclosed T hT num hnum _
  · intro T hT num hne hnum htext
    obtain ⟨hb, ha⟩ := templates_enclose.2 T hT
    obtain ⟨hl, hr⟩ := specLead_specTrail_enclosed T num hb ha hne hnum
    rw [← htext] at hl hr
    refine ⟨hl, hr, ?_⟩
    rw [hero_frame_text hv hp d, hl, hr]
    conv_lhs => rw [htext]
    exact hero_format_enclosed T hT num hnum _

/-- Witness for C8: the text `₦15M+`, that is `₦` + `15` + `M+`, start time 0 and a frame at
1000 ms. -/
theorem frames_use_fixed_literals_witness :
    parseFloat (stripNonNumeric "₦15M+".toList) = some 15 ∧ (1000 : ℚ) - 0 < 2000 ∧
    (CaseMetricsAnimation.frame "₦15M+".toList 0 1000 ⟨[], 0⟩).textContent
      = specLead "₦15M+".toList
        ++ numberToString (some ⌊(15 : ℚ) * easeOutQuart (progress 2000 0 1000)⌋)
        ++ specTrail "₦15M+".toList :=
  ⟨parseFloat_15M, by norm_num,
    ((frames_use_fixed_literals "₦15M+".toList 15 0 1000 ⟨[], 0⟩ parseFloat_15M
      (by norm_num)).2.2.1 ⟨"₦".toList, "M+".toList⟩ (by decide) "15".toList (by decide)
      (by decide) (by decide)).2.2⟩

/-! ## The value shown at a frame -/

/-- C9 (amended): in exact arithmetic, at every frame of each of the four counters, as started
by their call sites (start value 0, duration 2000), the number formatted into the element is
floor(target * (1 - (1 - progress)^4)) with progress = min((frame time - start time) / 2000, 1);
a frame with progress below 1 leaves that text and requests one more frame, and any other
frame leaves the original text. -/
theorem frame_value_formula (text : Text) (v s t : ℚ) (d : Dom)
    (hv : parseFloat (stripNonNumeric text) = some v) :
    (HeroSection.displayValue 0 (parseFloat (stripNonNumeric text)) 2000 text s t
        = HeroSection.format text (some ⌊v * (1 - (1 - min ((t - s) / 2000) 1) ^ 4)⌋) ∧
      EnhancedHeroAnimations.displayValue 0 (parseFloat (stripNonNumeric text)) 2000 text s t
        = EnhancedHeroAnimations.format text
            (some ⌊v * (1 - (1 - min ((t - s) / 2000) 1) ^ 4)⌋) ∧
      ServicesSection.displayValue text s t
        = ServicesSection.format text (some ⌊v * (1 - (1 - min ((t - s) / 2000) 1) ^ 4)⌋) ∧
      CaseMetricsAnimation.displayValue text v s t
        = CaseMetricsAnimation.format text
            (some ⌊v * (1 - (1 - min ((t - s) / 2000) 1) ^ 4)⌋)) ∧
    (HeroSection.animateOnScroll_animate text s t d
        = (if min ((t - s) / 2000) 1 < 1 then
            ⟨HeroSection.format text (some ⌊v * (1 - (1 - min ((t - s) / 2000) 1) ^ 4)⌋),
              d.frameRequests + 1⟩
          else ⟨text, d.frameRequests⟩) ∧
      EnhancedHeroAnimations.initCounterAnimations_animate text s t d
        = (if min ((t - s) / 2000) 1 < 1 then
            ⟨EnhancedHeroAnimations.format text
              (some ⌊v * (1 - (1 - min ((t - s) / 2000) 1) ^ 4)⌋), d.frameRequests + 1⟩
          else ⟨text, d.frameRequests⟩) ∧
      ServicesSection.animate text s t d
        = (if min ((t - s) / 2000) 1 < 1 then
            ⟨ServicesSection.format text (some ⌊v * (1 - (1 - min ((t - s) / 2000) 1) ^ 4)⌋),
              d.frameRequests + 1⟩
          else ⟨text, d.frameRequests⟩) ∧
      CaseMetricsAnimation.frame text s t d
        = (if min ((t - s) / 2000) 1 < 1 then
            ⟨CaseMetricsAnimation.format text
              (some ⌊v * (1 - (1 - min ((t - s) / 2000) 1) ^ 4)⌋), d.frameRequests + 1⟩
          else ⟨text, d.frameRequests⟩)) := by
  have hH := hero_displayValue hv s t
  have hE := enhanced_displayValue hv s t
  have hS := services_displayValue hv s t
  have hC := caseMetrics_displayValue text v s t
  have hpr : progress 2000 s t = min ((t - s) / 2000) 1 := rfl
  have hea : easeOutQuart (min ((t - s) / 2000) 1) = 1 - (1 - min ((t - s) / 2000) 1) ^ 4 :=
    rfl
  rw [hpr, hea] at hH hE hS hC
  refine ⟨⟨hH, hE, hS, hC⟩, ?_, ?_, ?_, ?_⟩
  · unfold HeroSection.animateOnScroll_animate HeroSection.animate
    simp only [hH, hpr]
  · unfold EnhancedHeroAnimations.initCounterAnimations_animate EnhancedHeroAnimations.animate
    simp only [hE, hpr]
  · unfold ServicesSection.animate
    simp only [hS, ServicesSection.duration, hpr]
  · unfold CaseMetricsAnimation.frame CaseMetricsAnimation.animate
    simp only [hv, hC, CaseMetricsAnimation.duration, hpr]

/-- Witness for C9: the text `$250K`, start time 0 and a frame at 1000 ms. -/
theorem frame_value_formula_witness :
    parseFloat (stripNonNumeric "$250K".toList) = some 250 ∧
    CaseMetricsAnimation.displayValue "$250K".toList 250 0 1000
      = CaseMetricsAnimation.format "$250K".toList
          (some ⌊(250 : ℚ) * (1 - (1 - min ((1000 - 0) / 2000) 1) ^ 4)⌋) :=
  ⟨parseFloat_250K,
    (frame_value_formula "$250K".toList 250 0 1000 ⟨[], 0⟩ parseFloat_250K).1.2.2.2⟩

/-! ## The value formula in double precision -/

theorem roundHalfEven_of_lt {x : ℚ} (f : ℤ) (h1 : (f : ℚ) ≤ x) (h2 : x < f + 1 / 2) :
    roundHalfEven x = f := by
  have hf : ⌊x⌋ = f := Int.floor_eq_iff.2 ⟨h1, by linarith⟩
  unfold roundHalfEven
  simp only [hf]
  rw [if_pos (by linarith)]

theorem roundHalfEven_of_gt {x : ℚ} (f : ℤ) (h1 : (f : ℚ) + 1 / 2 < x) (h2 : x < f + 1) :
    roundHalfEven x = f + 1 := by
  have hf : ⌊x⌋ = f := Int.floor_eq_iff.2 ⟨by linarith, h2⟩
  unfold roundHalfEven
  simp only [hf]
  rw [if_neg (by linarith), if_pos (by linarith)]

theorem roundHalfEven_tie {x : ℚ} (f : ℤ) (h : x = f + 1 / 2) :
    roundHalfEven x = if f % 2 = 0 then f else f + 1 := by
  have hf : ⌊x⌋ = f := Int.floor_eq_iff.2 ⟨by linarith, by linarith⟩
  unfold roundHalfEven
  simp only [hf]
  rw [if_neg (by linarith), if_neg (by linarith)]

/-- The double nearest to `q`, from the binade of `q` and the rounded significand. -/
theorem roundToDouble_eq {q : ℚ} (e m : ℤ) (he : -1022 ≤ e) (h1 : (2 : ℚ) ^ e ≤ |q|)
    (h2 : |q| < (2 : ℚ) ^ (e + 1)) (hm : roundHalfEven (q / (2 : ℚ) ^ (e - 52)) = m) :
    roundToDouble q = m * (2 : ℚ) ^ (e - 52) := by
  have hpos : (0 : ℚ) < |q| := lt_of_lt_of_le (zpow_pos (by norm_num) e) h1
  have hq : q ≠ 0 := abs_pos.1 hpos
  have hlog : Int.log 2 |q| = e := by
    have h3 : e ≤ Int.log 2 |q| :=
      (Int.zpow_le_iff_le_log (by norm_num) hpos).1 (by exact_mod_cast h1)
    have h4 : Int.log 2 |q| < e + 1 :=
      (Int.lt_zpow_iff_log_lt (by norm_num) hpos).1 (by exact_mod_cast h2)
    omega
  unfold roundToDouble
  rw [if_neg hq]
  simp only [hlog, max_eq_left he, hm]

/-- The elapsed time 400 is a double. -/
theorem double_elapsed_400 : roundToDouble (400 - 0) = 400 := by
  rw [roundToDouble_eq 8 (400 * 2 ^ 44) (by norm_num) (by norm_num [abs_of_pos])
    (by norm_num [abs_of_pos]) (roundHalfEven_of_lt _ (by norm_num) (by norm_num))]
  norm_num

/-- The quotient 400 / 2000 rounds to the double written `0.2`, which lies above 1/5. -/
theorem double_quotient_400 :
    roundToDouble (400 / 2000) = 3602879701896397 / 2 ^ 54 := by
  rw [roundToDouble_eq (-3) 7205759403792794 (by norm_num) (by norm_num [abs_of_pos])
    (by norm_num [abs_of_pos])
    (roundHalfEven_of_gt 7205759403792793 (by norm_num) (by norm_num))]
  norm_num

/-- At start time 0 and frame time 400 the host's `progress` is the double `0.2`. -/
theorem doubleProgress_400 :
    CaseMetricsAnimation.doubleProgress 0 400 = 3602879701896397 / 2 ^ 54 := by
  unfold CaseMetricsAnimation.doubleProgress CaseMetricsAnimation.duration
  simp only [double_elapsed_400, double_quotient_400]
  norm_num

/-- The difference `1 - 0.2` is a tie between two doubles and rounds to the double written
`0.8`. -/
theorem double_one_sub_progress :
    roundToDouble (1 - 3602879701896397 / 2 ^ 54) = 3602879701896397 / 2 ^ 52 := by
  rw [roundToDouble_eq (-1) 7205759403792794 (by norm_num) (by norm_num [abs_of_pos])
    (by norm_num [abs_of_pos])
    ((roundHalfEven_tie 7205759403792793 (by norm_num)).trans (by norm_num))]
  norm_num

/-- The fourth power of the double `0.8` lies strictly between two neighbouring doubles. -/
theorem pow_between_neighbours :
    (7378697629483822 / 2 ^ 54 : ℚ) < (3602879701896397 / 2 ^ 52) ^ 4 ∧
    ((3602879701896397 / 2 ^ 52) ^ 4 : ℚ) < 7378697629483823 / 2 ^ 54 := by
  constructor <;> norm_num

/-- The double nearest to the fourth power of the double `0.8` is the lower neighbour. -/
theorem powNearest_four :
    powNearest (3602879701896397 / 2 ^ 52) 4 = 7378697629483822 / 2 ^ 54 := by
  unfold powNearest
  rw [roundToDouble_eq (-2) 7378697629483822 (by norm_num) (by norm_num [abs_of_pos])
    (by norm_num [abs_of_pos])
    (roundHalfEven_of_lt 7378697629483822 (by norm_num) (by norm_num))]
  norm_num

/-- With the lower neighbour for the power, `1 - power` is a double. -/
theorem double_eased_lower :
    roundToDouble (1 - 7378697629483822 / 2 ^ 54) = 5317850439999081 / 2 ^ 53 := by
  rw [roundToDouble_eq (-1) 5317850439999081 (by norm_num) (by norm_num [abs_of_pos])
    (by norm_num [abs_of_pos])
    (roundHalfEven_of_lt 5317850439999081 (by norm_num) (by norm_num))]
  norm_num

/-- With the upper neighbour for the power, `1 - power` is a tie and rounds down. -/
theorem double_eased_upper :
    roundToDouble (1 - 7378697629483823 / 2 ^ 54) = 5317850439999080 / 2 ^ 53 := by
  rw [roundToDouble_eq (-1) 5317850439999080 (by norm_num) (by norm_num [abs_of_pos])
    (by norm_num [abs_of_pos])
    ((roundHalfEven_tie 5317850439999080 (by norm_num)).trans (by norm_num))]
  norm_num

/-- The product of 625 and the eased value, lower neighbour. -/
theorem double_product_lower :
    roundToDouble (625 * (5317850439999081 / 2 ^ 53)) = 6491516650389503 / 2 ^ 44 := by
  rw [roundToDouble_eq 8 6491516650389503 (by norm_num) (by norm_num [abs_of_pos])
    (by norm_num [abs_of_pos])
    (roundHalfEven_of_lt 6491516650389503 (by norm_num) (by norm_num))]
  norm_num

/-- The product of 625 and the eased value, upper neighbour. -/
theorem double_product_upper :
    roundToDouble (625 * (5317850439999080 / 2 ^ 53)) = 6491516650389502 / 2 ^ 44 := by
  rw [roundToDouble_eq 8 6491516650389502 (by norm_num) (by norm_num [abs_of_pos])
    (by norm_num [abs_of_pos])
    (roundHalfEven_of_gt 6491516650389501 (by norm_num) (by norm_num))]
  norm_num

/-- A rational that is a double rounds to itself. -/
theorem roundToDouble_of_double {q : ℚ} (e m : ℤ) (he : -1022 ≤ e) (h1 : (2 : ℚ) ^ e ≤ |q|)
    (h2 : |q| < (2 : ℚ) ^ (e + 1)) (hq : q = m * (2 : ℚ) ^ (e - 52)) :
    roundToDouble q = q := by
  have hpos : (0 : ℚ) < (2 : ℚ) ^ (e - 52) := zpow_pos (by norm_num) _
  have hm : q / (2 : ℚ) ^ (e - 52) = m := by
    rw [hq]
    field_simp
  rw [roundToDouble_eq e m he h1 h2 (roundHalfEven_of_lt m (le_of_eq hm.symm) (by linarith))]
  exact hq.symm

/-- When none of the operations of the formula rounds and the host's power is the exact one,
the frame of the host is the frame of exact arithmetic. -/
theorem doubleAnimate_of_exact (mathPow : ℚ → ℕ → ℚ) (finalValue : Text)
    (numericValue s t : ℚ) (d : Dom)
    (h1 : roundToDouble (t - s) = t - s)
    (h2 : roundToDouble ((t - s) / 2000) = (t - s) / 2000)
    (h3 : roundToDouble (1 - progress 2000 s t) = 1 - progress 2000 s t)
    (h4 : mathPow (1 - progress 2000 s t) 4 = (1 - progress 2000 s t) ^ 4)
    (h5 : roundToDouble (easeOutQuart (progress 2000 s t)) = easeOutQuart (progress 2000 s t))
    (h6 : roundToDouble (numericValue * easeOutQuart (progress 2000 s t))
      = numericValue * easeOutQuart (progress 2000 s t)) :
    CaseMetricsAnimation.doubleAnimate mathPow finalValue numericValue s t d
      = CaseMetricsAnimation.animate finalValue numericValue s t d := by
  have hp : CaseMetricsAnimation.doubleProgress s t = progress 2000 s t := by
    unfold CaseMetricsAnimation.doubleProgress CaseMetricsAnimation.duration progress
    simp only [h1, h2]
  have hc : CaseMetricsAnimation.doubleCurrentValue mathPow numericValue s t
      = CaseMetricsAnimation.currentValue numericValue s t := by
    unfold CaseMetricsAnimation.doubleCurrentValue CaseMetricsAnimation.currentValue
      CaseMetricsAnimation.duration
    simp only [hp, h3, h4]
    have h5' : roundToDouble (1 - (1 - progress 2000 s t) ^ 4)
        = easeOutQuart (progress 2000 s t) := h5
    rw [h5', h6]
  unfold CaseMetricsAnimation.doubleAnimate CaseMetricsAnimation.animate
    CaseMetricsAnimation.doubleDisplayValue CaseMetricsAnimation.displayValue
  simp only [hp, hc, CaseMetricsAnimation.duration]

/-- At the text `$250K`, start time 0 and a frame at 1000 ms no operation rounds: the host
shows the integer of exact arithmetic. -/
theorem doubleAnimate_250K_half (d : Dom) :
    CaseMetricsAnimation.doubleAnimate powNearest "$250K".toList 250 0 1000 d
      = CaseMetricsAnimation.animate "$250K".toList 250 0 1000 d := by
  have hpr := progress_half
  apply doubleAnimate_of_exact
  · exact roundToDouble_of_double 9 (1000 * 2 ^ 43) (by norm_num) (by norm_num [abs_of_pos])
      (by norm_num [abs_of_pos]) (by norm_num)
  · exact roundToDouble_of_double (-1) (2 ^ 52) (by norm_num) (by norm_num [abs_of_pos])
      (by norm_num [abs_of_pos]) (by norm_num)
  · rw [hpr]
    exact roundToDouble_of_double (-1) (2 ^ 52) (by norm_num) (by norm_num [abs_of_pos])
      (by norm_num [abs_of_pos]) (by norm_num)
  · rw [hpr]
    unfold powNearest
    exact roundToDouble_of_double (-4) (2 ^ 52) (by norm_num) (by norm_num [abs_of_pos])
      (by norm_num [abs_of_pos]) (by norm_num)
  · rw [hpr]
    unfold easeOutQuart
    exact roundToDouble_of_double (-1) (15 * 2 ^ 49) (by norm_num) (by norm_num [abs_of_pos])
      (by norm_num [abs_of_pos]) (by norm_num)
  · rw [hpr]
    unfold easeOutQuart
    exact roundToDouble_of_double 7 (1875 * 2 ^ 42) (by norm_num) (by norm_num [abs_of_pos])
      (by norm_num [abs_of_pos]) (by norm_num)

/-- The text `625` parses to 625. -/
theorem parseFloat_625 : parseFloat (stripNonNumeric "625".toList) = some 625 := by
  have h := parseFloat_of_decimalLiteral (stripNonNumeric "625".toList) "625".toList [] 625 0
    (by decide) (by decide) (by decide)
  simpa using h

/-- Whichever of the two doubles next to the exact fourth power the host's `Math.pow` returns,
the host's `currentValue` for the target 625 at 400 ms lies below 369. -/
theorem doubleCurrentValue_625 (mathPow : ℚ → ℕ → ℚ)
    (h : mathPow (3602879701896397 / 2 ^ 52) 4 = 7378697629483822 / 2 ^ 54 ∨
      mathPow (3602879701896397 / 2 ^ 52) 4 = 7378697629483823 / 2 ^ 54) :
    ⌊CaseMetricsAnimation.doubleCurrentValue mathPow 625 0 400⌋ = 368 := by
  unfold CaseMetricsAnimation.doubleCurrentValue
  simp only [doubleProgress_400, double_one_sub_progress]
  rcases h with h | h
  · rw [h, double_eased_lower, double_product_lower, Int.floor_eq_iff]
    constructor <;> norm_num
  · rw [h, double_eased_upper, double_product_upper, Int.floor_eq_iff]
    constructor <;> norm_num

/-- C9 (counterexample): the text `625`, start time 0 and a frame at 400 ms.  progress is 1/5
and floor(target * eased) = floor(625 * 0.5904) is 369.  The host computes in doubles:
`1 - 0.2` rounds to the double `0.8`, whose fourth power rounds to `0.4096000000000001`;
the eased value is `0.5903999999999999`, the product `368.99999999999994`, and the frame
shows 368. -/
theorem value_formula_fails_in_doubles :
    parseFloat (stripNonNumeric "625".toList) = some 625 ∧
    ⌊(625 : ℚ) * (1 - (1 - min ((400 - 0) / 2000) 1) ^ 4)⌋ = 369 ∧
    CaseMetricsAnimation.doubleCurrentValue powNearest 625 0 400
      = 6491516650389503 / 2 ^ 44 ∧
    (CaseMetricsAnimation.doubleAnimate powNearest "625".toList 625 0 400
        ⟨"625".toList, 0⟩).textContent = "368".toList ∧
    (CaseMetricsAnimation.doubleAnimate powNearest "625".toList 625 0 400
        ⟨"625".toList, 0⟩).textContent
      ≠ CaseMetricsAnimation.format "625".toList
          (some ⌊(625 : ℚ) * (1 - (1 - min ((400 - 0) / 2000) 1) ^ 4)⌋) := by
  have hexact : ⌊(625 : ℚ) * (1 - (1 - min ((400 - 0) / 2000) 1) ^ 4)⌋ = 369 := by
    rw [Int.floor_eq_iff]
    constructor <;> norm_num
  have hcur : CaseMetricsAnimation.doubleCurrentValue powNearest 625 0 400
      = 6491516650389503 / 2 ^ 44 := by
    unfold CaseMetricsAnimation.doubleCurrentValue
    simp only [doubleProgress_400, double_one_sub_progress, powNearest_four,
      double_eased_lower, double_product_lower]
  have hfloor : ⌊(6491516650389503 / 2 ^ 44 : ℚ)⌋ = 368 := by
    rw [Int.floor_eq_iff]
    constructor <;> norm_num
  have htext : (CaseMetricsAnimation.doubleAnimate powNearest "625".toList 625 0 400
      ⟨"625".toList, 0⟩).textContent = "368".toList := by
    unfold CaseMetricsAnimation.doubleAnimate CaseMetricsAnimation.doubleDisplayValue
    have hlt : CaseMetricsAnimation.doubleProgress 0 400 < 1 := by
      rw [doubleProgress_400]
      norm_num
    simp only [if_pos hlt, hcur, mathFloor, Option.map_some', hfloor]
    decide
  refine ⟨parseFloat_625, hexact, hcur, htext, ?_⟩
  rw [htext, hexact]
  decide

/-! ## Monotonicity and bounds of the shown integer -/

/-- C10: for every parseable text the target is not negative, and for frame times
`s ≤ t₁ ≤ t₂` the integers computed by `Math.floor` at `t₁` and at `t₂`, the same in each of
the four counters, satisfy 0 ≤ n₁ ≤ n₂ ≤ floor(target). -/
theorem shown_integer_monotone_bounded (text : Text) (v s t₁ t₂ : ℚ)
    (hv : parseFloat (stripNonNumeric text) = some v) (h₁ : s ≤ t₁) (h₁₂ : t₁ ≤ t₂) :
    0 ≤ v ∧ ∃ n₁ n₂ : ℤ,
      (mathFloor (HeroSection.current 0 (parseFloat (stripNonNumeric text)) 2000 s t₁)
          = some n₁ ∧
        mathFloor (EnhancedHeroAnimations.current 0 (parseFloat (stripNonNumeric text)) 2000
          s t₁) = some n₁ ∧
        mathFloor (ServicesSection.currentValue text s t₁) = some n₁ ∧
        mathFloor (some (CaseMetricsAnimation.currentValue v s t₁)) = some n₁) ∧
      (mathFloor (HeroSection.current 0 (parseFloat (stripNonNumeric text)) 2000 s t₂)
          = some n₂ ∧
        mathFloor (EnhancedHeroAnimations.current 0 (parseFloat (stripNonNumeric text)) 2000
          s t₂) = some n₂ ∧
        mathFloor (ServicesSection.currentValue text s t₂) = some n₂ ∧
        mathFloor (some (CaseMetricsAnimation.currentValue v s t₂)) = some n₂) ∧
      0 ≤ n₁ ∧ n₁ ≤ n₂ ∧ n₂ ≤ ⌊v⌋ := by
  have h0 := parseFloat_nonneg hv
  have key : ∀ t : ℚ,
      mathFloor (HeroSection.current 0 (parseFloat (stripNonNumeric text)) 2000 s t)
          = some ⌊v * easeOutQuart (progress 2000 s t)⌋ ∧
        mathFloor (EnhancedHeroAnimations.current 0 (parseFloat (stripNonNumeric text)) 2000
          s t) = some ⌊v * easeOutQuart (progress 2000 s t)⌋ ∧
        mathFloor (ServicesSection.currentValue text s t)
          = some ⌊v * easeOutQuart (progress 2000 s t)⌋ ∧
        mathFloor (some (CaseMetricsAnimation.currentValue v s t))
          = some ⌊v * easeOutQuart (progress 2000 s t)⌋ := by
    intro t
    simp [mathFloor, HeroSection.current, EnhancedHeroAnimations.current,
      ServicesSection.currentValue, CaseMetricsAnimation.currentValue,
      ServicesSection.duration, CaseMetricsAnimation.duration, hv]
  exact ⟨h0, _, _, key t₁, key t₂, floor_eased_nonneg h0 h₁, floor_eased_mono h0 s h₁₂,
    floor_eased_le h0 s t₂⟩

/-- Witness for C10: the text `$250K`, start time 0, frames at 500 ms and 1000 ms. -/
theorem shown_integer_monotone_bounded_witness :
    parseFloat (stripNonNumeric "$250K".toList) = some 250 ∧ (0 : ℚ) ≤ 500 ∧
    (500 : ℚ) ≤ 1000 ∧ (0 : ℚ) ≤ 250 :=
  ⟨parseFloat_250K, by norm_num, by norm_num,
    (shown_integer_monotone_bounded "$250K".toList 250 0 500 1000 parseFloat_250K
      (by norm_num) (by norm_num)).1⟩

/-! ## Progress within a run -/

/-- C11: for a positive duration the progress is 0 at the start time, is 1 at every time from
`start + duration` on, stays in [0, 1] from the start time on, and does not decrease between
two sample times `t₁ < t₂` of the interval [start, start + duration]. -/
theorem progress_monotone_in_unit_interval (duration s : ℚ) (hd : 0 < duration) :
    progress duration s s = 0 ∧
    (∀ t, s + duration ≤ t → progress duration s t = 1) ∧
    (∀ t, s ≤ t → 0 ≤ progress duration s t ∧ progress duration s t ≤ 1) ∧
    (∀ t₁ t₂, s ≤ t₁ → t₁ < t₂ → t₂ ≤ s + duration →
      progress duration s t₁ ≤ progress duration s t₂) := by
  refine ⟨?_, fun t h => ?_, fun t h => ⟨progress_nonneg hd h, progress_le_one _ _ _⟩,
    fun t₁ t₂ _ h _ => progress_mono hd h.le⟩
  · simp [progress]
  · exact progress_eq_one hd (by linarith)

/-- Witness for C11: the duration 2000 of the call sites and start time 0. -/
theorem progress_monotone_in_unit_interval_witness :
    (0 : ℚ) < 2000 ∧ progress 2000 0 0 = 0 ∧ progress 2000 0 500 ≤ progress 2000 0 1000 :=
  ⟨by norm_num, (progress_monotone_in_unit_interval 2000 0 (by norm_num)).1,
    (progress_monotone_in_unit_interval 2000 0 (by norm_num)).2.2.2 500 1000 (by norm_num)
      (by norm_num) (by norm_num)⟩

/-! ## The target value -/

theorem stripNonNumeric_chars (text : Text) :
    ∀ c ∈ stripNonNumeric text, c ∈ text ∧ (c.isDigit = true ∨ c = '.') := by
  intro c hc
  unfold stripNonNumeric at hc
  obtain ⟨h1, h2⟩ := List.mem_filter.mp hc
  refine ⟨h1, ?_⟩
  simpa using h2

theorem dropWhile_eq_self_of_takeWhile_nil (p : Char → Bool) (l : Text)
    (h : l.takeWhile p = []) : l.dropWhile p = l := by
  cases l with
  | nil => rfl
  | cons a l =>
    cases hp : p a with
    | false => simp [List.dropWhile, hp]
    | true => simp [List.takeWhile, hp] at h

/-- The decimal literal at the start of digits, a dot, digits and a tail that does not start
with a digit. -/
theorem decimalLiteral_of_shape (ip fp tail : Text) (hip : ∀ c ∈ ip, c.isDigit = true)
    (hfp : ∀ c ∈ fp, c.isDigit = true) (hne : ip ≠ [] ∨ fp ≠ [])
    (ht : tail.takeWhile Char.isDigit = []) :
    decimalLiteral (ip ++ '.' :: (fp ++ tail)) = some (ip, fp) := by
  have h1 : (ip ++ '.' :: (fp ++ tail)).takeWhile Char.isDigit = ip :=
    takeWhile_append_stop _ _ _ hip (by simp [List.takeWhile])
  have h2 : (ip ++ '.' :: (fp ++ tail)).dropWhile Char.isDigit = '.' :: (fp ++ tail) := by
    rw [dropWhile_append_stop _ _ _ hip]
    simp [List.dropWhile]
  have h3 : (fp ++ tail).takeWhile Char.isDigit = fp := takeWhile_append_stop _ _ _ hfp ht
  unfold decimalLiteral
  simp only [h1, h2, h3]
  rcases hne with h | h
  · cases ip with
    | nil => exact absurd rfl h
    | cons a l => simp
  · cases fp with
    | nil => exact absurd rfl h
    | cons a l => simp

/-- The decimal literal of a non-empty run of digits. -/
theorem decimalLiteral_of_digits (ip : Text) (hip : ∀ c ∈ ip, c.isDigit = true)
    (hne : ip ≠ []) : decimalLiteral ip = some (ip, []) := by
  have h1 : ip.takeWhile Char.isDigit = ip := by
    simpa using takeWhile_append_stop Char.isDigit ip [] hip rfl
  have h2 : ip.dropWhile Char.isDigit = [] := by
    simpa using dropWhile_append_stop Char.isDigit ip [] hip
  unfold decimalLiteral
  simp only [h1, h2]
  cases ip with
  | nil => exact absurd rfl hne
  | cons a l => simp

/-- A text of digits and dots has no decimal literal at its start exactly when it is empty, is
a single dot, or starts with two dots. -/
theorem decimalLiteral_eq_none_iff (r : Text) (hr : ∀ c ∈ r, c.isDigit = true ∨ c = '.') :
    decimalLiteral r = none ↔ r = [] ∨ r = ['.'] ∨ ∃ r', r = '.' :: '.' :: r' := by
  cases r with
  | nil => simp [decimalLiteral]
  | cons a l =>
    rcases hr a (List.mem_cons_self a l) with ha | ha
    · have hnd : a ≠ '.' := by
        intro h
        rw [h] at ha
        exact absurd ha (by decide)
      have h1 : (a :: l).takeWhile Char.isDigit = a :: l.takeWhile Char.isDigit := by
        simp [List.takeWhile, ha]
      constructor
      · intro h
        unfold decimalLiteral at h
        simp only [h1] at h
        split at h <;> simp at h
      · intro h
        rcases h with h | h | ⟨r', h⟩
        · simp at h
        · simp at h
          exact absurd h.1 hnd
        · simp at h
          exact absurd h.1 hnd
    · subst ha
      have h1 : ('.' :: l).takeWhile Char.isDigit = [] := by simp [List.takeWhile]
      have h2 : ('.' :: l).dropWhile Char.isDigit = '.' :: l := by simp [List.dropWhile]
      have hd : decimalLiteral ('.' :: l) = none ↔ l.takeWhile Char.isDigit = [] := by
        unfold decimalLiteral
        simp only [h1, h2]
        cases hq : l.takeWhile Char.isDigit <;> simp
      rw [hd]
      cases l with
      | nil => simp
      | cons b l' =>
        rcases hr b (by simp) with hb | hb
        · have hbd : b ≠ '.' := by
            intro h
            rw [h] at hb
            exact absurd hb (by decide)
          simp [List.takeWhile, hb, hbd]
        · subst hb
          simp [List.takeWhile]

theorem parseFloat_1_2_3 : parseFloat (stripNonNumeric "1.2.3".toList) = some (6 / 5) := by
  have h := parseFloat_of_decimalLiteral (stripNonNumeric "1.2.3".toList)
    "1".toList "2".toList 1 2 (by decide) (by decide) (by decide)
  rw [h]
  norm_num

theorem parseFloat_4_9_7 : parseFloat (stripNonNumeric "4.9/7".toList) = some (497 / 100) := by
  have h := parseFloat_of_decimalLiteral (stripNonNumeric "4.9/7".toList)
    "4".toList "97".toList 4 97 (by decide) (by decide) (by decide)
  rw [h]
  norm_num

/-- C12 (counterexample): the remainder of the text `1.2.3` is `1.2.3`, which is neither empty
nor a decimal numeral, yet the target is 1.2 and not `NaN`, and
`CaseMetricsAnimation.animateMetric` does not skip the animation. -/
theorem remainder_not_numeral_still_parses :
    stripNonNumeric "1.2.3".toList = "1.2.3".toList ∧
    isDecimalNumeral (stripNonNumeric "1.2.3".toList) = false ∧
    parseFloat (stripNonNumeric "1.2.3".toList) = some (6 / 5) ∧
    CaseMetricsAnimation.animateMetric 0 ⟨"1.2.3".toList, 0⟩ = ⟨"1.2.3".toList, 1⟩ ∧
    ¬ ∀ text : Text, isDecimalNumeral (stripNonNumeric text) = false →
      parseFloat (stripNonNumeric text) = none := by
  have hp := parseFloat_1_2_3
  refine ⟨by decide, by decide, hp, ?_, fun h => ?_⟩
  · simp only [CaseMetricsAnimation.animateMetric, hp]
  · have h' := h "1.2.3".toList (by decide)
    rw [hp] at h'
    exact absurd h' (by simp)

/-- C12 (amended): the target value of a counter is obtained by deleting every character of
the original text that is neither a decimal digit nor `.` and reading the longest decimal
numeral at the start of the remainder: a remainder that is a decimal numeral d gives d
(`$250K` gives 250, `₦15M+` gives 15, `4.9/7` gives 4.97), a remainder that continues after
such a numeral gives the value of the numeral alone, and the value is `NaN` exactly when the
remainder is empty, is a single dot or starts with two dots, in which case
`CaseMetricsAnimation.animateMetric` skips the animation. -/
theorem target_is_leading_numeral (text : Text) :
    (∀ c ∈ stripNonNumeric text, c ∈ text ∧ (c.isDigit = true ∨ c = '.')) ∧
    (∀ ip fp : Text, (∀ c ∈ ip, c.isDigit = true) → (∀ c ∈ fp, c.isDigit = true) →
      (ip ≠ [] → stripNonNumeric text = ip →
        parseFloat (stripNonNumeric text) = some (digitsValue ip : ℚ)) ∧
      (ip ≠ [] ∨ fp ≠ [] → ∀ tail : Text, tail.takeWhile Char.isDigit = [] →
        stripNonNumeric text = ip ++ '.' :: (fp ++ tail) →
        parseFloat (stripNonNumeric text)
          = some ((digitsValue ip : ℚ) + (digitsValue fp : ℚ) / 10 ^ fp.length))) ∧
    (parseFloat (stripNonNumeric text) = none ↔
      stripNonNumeric text = [] ∨ stripNonNumeric text = ['.'] ∨
        ∃ r, stripNonNumeric text = '.' :: '.' :: r) ∧
    (parseFloat (stripNonNumeric text) = none → ∀ (now : ℚ) (k : ℕ),
      CaseMetricsAnimation.animateMetric now ⟨text, k⟩ = ⟨text, k⟩) ∧
    parseFloat (stripNonNumeric "$250K".toList) = some 250 ∧
    parseFloat (stripNonNumeric "₦15M+".toList) = some 15 ∧
    parseFloat (stripNonNumeric "4.9/7".toList) = some (497 / 100) := by
  refine ⟨stripNonNumeric_chars text, fun ip fp hip hfp => ⟨fun hne h => ?_, fun hne tail ht h => ?_⟩,
    ?_, fun h now k => ?_, parseFloat_250K, parseFloat_15M, parseFloat_4_9_7⟩
  · have hl : decimalLiteral (stripNonNumeric text) = some (ip, []) := by
      rw [h]
      exact decimalLiteral_of_digits ip hip hne
    have hv := parseFloat_of_decimalLiteral _ ip [] _ 0 hl rfl rfl
    rw [hv]
    simp
  · have hl : decimalLiteral (stripNonNumeric text) = some (ip, fp) := by
      rw [h]
      exact decimalLiteral_of_shape ip fp tail hip hfp hne ht
    exact parseFloat_of_decimalLiteral _ ip fp _ _ hl rfl rfl
  · rw [← decimalLiteral_eq_none_iff _ (fun c hc => (stripNonNumeric_chars text c hc).2)]
    simp [parseFloat]
  · simp [CaseMetricsAnimation.animateMetric, h]

/-- Witness for C12: the text `4.9/7`, whose remainder is `4` + `.` + `97`. -/
theorem target_is_leading_numeral_witness :
    parseFloat (stripNonNumeric "4.9/7".toList)
      = some ((digitsValue "4".toList : ℚ) + (digitsValue "97".toList : ℚ) / 10 ^ 2) :=
  ((target_is_leading_numeral "4.9/7".toList).2.1 "4".toList "97".toList (by decide)
    (by decide)).2 (Or.inl (by decide)) [] rfl (by decide)

/-! ## Animate once -/

theorem services_entry_inv (o : MetricsObserver) (e : IntersectionEntry) (h : o.Inv) :
    (ServicesSection.observeMetrics_entry o e).Inv := by
  unfold ServicesSection.observeMetrics_entry
  split
  · rename_i hc
    simp only [Bool.and_eq_true, Bool.not_eq_true', setHas] at hc
    have hnot : e.target ∉ o.animated := by
      intro hm
      have : o.animated.contains e.target = true := by simpa using hm
      rw [this] at hc
      exact absurd hc.2 (by simp)
    refine ⟨?_, ?_⟩
    · simp [setAdd, hnot, h.1]
    · simp only [setAdd, hc.2]
      exact List.nodup_append.mpr ⟨h.2, by simp, by simpa using hnot⟩
  · exact h

theorem services_callback_inv (entries : List IntersectionEntry) :
    ∀ o : MetricsObserver, o.Inv → (ServicesSection.observeMetrics_callback o entries).Inv := by
  induction entries with
  | nil => intro o h; exact h
  | cons e es ih =>
    intro o h
    exact ih _ (services_entry_inv o e h)

theorem services_run_inv (notifications : List (List IntersectionEntry)) :
    ∀ o : MetricsObserver, o.Inv →
      (notifications.foldl ServicesSection.observeMetrics_callback o).Inv := by
  induction notifications with
  | nil => intro o h; exact h
  | cons b bs ih =>
    intro o h
    exact ih _ (services_callback_inv b o h)

theorem caseMetrics_observeMetrics_eq :
    CaseMetricsAnimation.observeMetrics = ServicesSection.observeMetrics := rfl

/-- C13: for every sequence of intersection notifications delivered to the observer of
`ServicesSection.observeMetrics` or of `CaseMetricsAnimation.observeMetrics`, `animateMetric`
is started at most once for each element; an entry for an element already in the animated set
changes nothing, and an intersecting entry for an element not yet in the set starts the
animation and puts the element into the set. -/
theorem animate_once (notifications : List (List IntersectionEntry)) (x : ℕ) :
    (ServicesSection.observeMetrics notifications).started.count x ≤ 1 ∧
    (CaseMetricsAnimation.observeMetrics notifications).started.count x ≤ 1 ∧
    (∀ (o : MetricsObserver) (e : IntersectionEntry), setHas o.animated e.target = true →
      ServicesSection.observeMetrics_entry o e = o ∧
      CaseMetricsAnimation.observeMetrics_entry o e = o) ∧
    (∀ (o : MetricsObserver) (e : IntersectionEntry), e.isIntersecting = true →
      setHas o.animated e.target = false →
      (ServicesSection.observeMetrics_entry o e).started = o.started ++ [e.target] ∧
      setHas (ServicesSection.observeMetrics_entry o e).animated e.target = true ∧
      (CaseMetricsAnimation.observeMetrics_entry o e).started = o.started ++ [e.target] ∧
      setHas (CaseMetricsAnimation.observeMetrics_entry o e).animated e.target = true) := by
  have hinv : (ServicesSection.observeMetrics notifications).Inv :=
    services_run_inv notifications ⟨[], []⟩ ⟨rfl, List.nodup_nil⟩
  have hcount : (ServicesSection.observeMetrics notifications).started.count x ≤ 1 := by
    rw [hinv.1]
    exact List.nodup_iff_count_le_one.mp hinv.2 x
  refine ⟨hcount, ?_, ?_, ?_⟩
  · rw [caseMetrics_observeMetrics_eq]
    exact hcount
  · intro o e h
    simp [ServicesSection.observeMetrics_entry, CaseMetricsAnimation.observeMetrics_entry, h]
  · intro o e h1 h2
    have h3 : e.target ∉ o.animated := by
      intro hm
      have h4 : setHas o.animated e.target = true := by simpa [setHas] using hm
      rw [h4] at h2
      exact absurd h2 (by simp)
    simp [ServicesSection.observeMetrics_entry, CaseMetricsAnimation.observeMetrics_entry, h1,
      h2, setAdd, setHas, h3]

/-- Witness for C13: an element that intersects in two notifications is started once. -/
theorem animate_once_witness :
    (ServicesSection.observeMetrics [[⟨7, true⟩], [⟨7, false⟩, ⟨7, true⟩]]).started = [7] ∧
    (ServicesSection.observeMetrics [[⟨7, true⟩], [⟨7, false⟩, ⟨7, true⟩]]).started.count 7
      ≤ 1 :=
  ⟨by decide, (animate_once [[⟨7, true⟩], [⟨7, false⟩, ⟨7, true⟩]] 7).1⟩

/-! ## `Utils.throttle` -/

theorem throttle_call_busy {α : Type} (limit now : ℚ) (a : α) (s : Utils.Throttle α)
    (h : s.inThrottle = true) : s.call limit now a = s := by
  simp [Utils.Throttle.call, h]

theorem throttle_run_calls_busy {α : Type} (limit : ℚ) (calls : List (ℚ × α)) :
    ∀ s : Utils.Throttle α, s.inThrottle = true →
      Utils.Throttle.run limit s (calls.map fun c => Utils.Event.call c.1 c.2) = s := by
  induction calls with
  | nil => intro s _; rfl
  | cons c cs ih =>
    intro s h
    have hstep : Utils.Throttle.step limit s (Utils.Event.call c.1 c.2) = s :=
      throttle_call_busy limit c.1 c.2 s h
    simp only [List.map_cons, Utils.Throttle.run, List.foldl_cons, hstep]
    exact ih s h

theorem throttle_run_append {α : Type} (limit : ℚ) (s : Utils.Throttle α)
    (evs₁ evs₂ : List (Utils.Event α)) :
    Utils.Throttle.run limit s (evs₁ ++ evs₂)
      = Utils.Throttle.run limit (Utils.Throttle.run limit s evs₁) evs₂ := by
  simp [Utils.Throttle.run, List.foldl_append]

theorem throttle_step_inv {α : Type} (limit : ℚ) (s : Utils.Throttle α) (e : Utils.Event α)
    (h : s.Inv) : (Utils.Throttle.step limit s e).Inv := by
  cases e with
  | call now a =>
    rcases h with ⟨h1, h2⟩ | ⟨h1, h2⟩
    · right
      simp [Utils.Throttle.step, Utils.Throttle.call, h1, h2]
    · right
      rw [show Utils.Throttle.step limit s (Utils.Event.call now a) = s from
        throttle_call_busy limit now a s h1]
      exact ⟨h1, h2⟩
  | timer now =>
    rcases h with ⟨h1, h2⟩ | ⟨h1, due, h2⟩
    · left
      simp [Utils.Throttle.step, Utils.Throttle.timerFired, h1, h2]
    · left
      simp [Utils.Throttle.step, Utils.Throttle.timerFired, h2]

theorem throttle_run_inv {α : Type} (limit : ℚ) (evs : List (Utils.Event α)) :
    ∀ s : Utils.Throttle α, s.Inv → (Utils.Throttle.run limit s evs).Inv := by
  induction evs with
  | nil => intro s h; exact h
  | cons e es ih =>
    intro s h
    exact ih _ (throttle_step_inv limit s e h)

theorem throttle_fresh_inv (α : Type) : (Utils.throttle α).Inv := Or.inl ⟨rfl, rfl⟩

/-- One busy period from an idle wrapper without pending timer: the first call is the only
one that reaches `func`. -/
theorem throttle_busy_period {α : Type} (limit : ℚ) (s : Utils.Throttle α)
    (h1 : s.inThrottle = false) (h2 : s.timers = []) (first : ℚ × α) (rest : List (ℚ × α)) :
    Utils.Throttle.run limit s ((first :: rest).map fun c => Utils.Event.call c.1 c.2)
      = ⟨true, [first.1 + max limit 0], s.invoked ++ [first]⟩ := by
  have hfirst : Utils.Throttle.step limit s (Utils.Event.call first.1 first.2)
      = ⟨true, [first.1 + max limit 0], s.invoked ++ [first]⟩ := by
    simp [Utils.Throttle.step, Utils.Throttle.call, h1, h2]
  simp only [List.map_cons, Utils.Throttle.run, List.foldl_cons, hfirst]
  exact throttle_run_calls_busy limit rest _ rfl

/-- C14: for every window and every n ≥ 1, n calls to a fresh throttle wrapper with no timer
firing in between invoke the wrapped function exactly once, and that invocation is the one made
by the first call, during that call. -/
theorem throttle_burst_invokes_once {α : Type} (limit : ℚ) (first : ℚ × α)
    (rest : List (ℚ × α)) :
    (Utils.Throttle.run limit (Utils.throttle α)
      ((first :: rest).map fun c => Utils.Event.call c.1 c.2)).invoked = [first] ∧
    ((Utils.throttle α).call limit first.1 first.2).invoked = [first] := by
  constructor
  · rw [throttle_busy_period limit (Utils.throttle α) rfl rfl first rest]
    rfl
  · simp [Utils.Throttle.call, Utils.throttle]

/-- C15: a call to a throttle wrapper while its cooldown is active leaves the state of the
wrapper unchanged: nothing is invoked, nothing is queued, no timer is added and the pending
timer keeps its time; in every state reached from a fresh wrapper the cooldown flag is set
exactly while a timer is pending. -/
theorem throttle_call_in_cooldown_no_effect {α : Type} (limit : ℚ) (evs : List (Utils.Event α))
    (now : ℚ) (a : α) :
    ((Utils.Throttle.run limit (Utils.throttle α) evs).timers ≠ [] ↔
      (Utils.Throttle.run limit (Utils.throttle α) evs).inThrottle = true) ∧
    ((Utils.Throttle.run limit (Utils.throttle α) evs).timers ≠ [] →
      (Utils.Throttle.run limit (Utils.throttle α) evs).call limit now a
        = Utils.Throttle.run limit (Utils.throttle α) evs) ∧
    (∀ s : Utils.Throttle α, s.inThrottle = true → s.call limit now a = s) := by
  have hinv := throttle_run_inv limit evs _ (throttle_fresh_inv α)
  have hiff : (Utils.Throttle.run limit (Utils.throttle α) evs).timers ≠ [] ↔
      (Utils.Throttle.run limit (Utils.throttle α) evs).inThrottle = true := by
    rcases hinv with ⟨h1, h2⟩ | ⟨h1, due, h2⟩
    · simp [h1, h2]
    · simp [h1, h2]
  exact ⟨hiff, fun h => throttle_call_busy limit now a _ (hiff.mp h),
    fun s h => throttle_call_busy limit now a s h⟩

/-- Witness for C15: a wrapper called once at time 0 with window 100, called again at time
50. -/
theorem throttle_call_in_cooldown_no_effect_witness :
    (Utils.Throttle.run 100 (Utils.throttle ℕ) [Utils.Event.call 0 1]).call 100 50 2
      = Utils.Throttle.run 100 (Utils.throttle ℕ) [Utils.Event.call 0 1] :=
  (throttle_call_in_cooldown_no_effect 100 [Utils.Event.call 0 1] 50 2).2.1
    (by simp [Utils.Throttle.run, Utils.Throttle.step, Utils.Throttle.call, Utils.throttle])

/-- C16: in every state reached from a fresh throttle wrapper in which the cooldown is
active, the firing of the cooldown timer makes the wrapper idle, with no timer pending, and the
next call invokes the wrapped function at once and opens a new cooldown of the same length. -/
theorem throttle_idle_after_cooldown {α : Type} (limit : ℚ) (evs : List (Utils.Event α))
    (now : ℚ) (a : α)
    (h : (Utils.Throttle.run limit (Utils.throttle α) evs).inThrottle = true) :
    (Utils.Throttle.run limit (Utils.throttle α) evs).timerFired.inThrottle = false ∧
    (Utils.Throttle.run limit (Utils.throttle α) evs).timerFired.timers = [] ∧
    (Utils.Throttle.run limit (Utils.throttle α) evs).timerFired.invoked
      = (Utils.Throttle.run limit (Utils.throttle α) evs).invoked ∧
    (Utils.Throttle.run limit (Utils.throttle α) evs).timerFired.call limit now a
      = ⟨true, [now + max limit 0],
          (Utils.Throttle.run limit (Utils.throttle α) evs).invoked ++ [(now, a)]⟩ := by
  have hinv := throttle_run_inv limit evs _ (throttle_fresh_inv α)
  rcases hinv with ⟨h1, _⟩ | ⟨_, due, h2⟩
  · rw [h1] at h
    exact absurd h (by simp)
  · simp [Utils.Throttle.timerFired, Utils.Throttle.call, h2]

/-- Witness for C16: window 100, a call at time 0, the timer firing at 100 and a call at 120
put the wrapper into its second cooldown; the firing of the timer makes it idle again. -/
theorem throttle_idle_after_cooldown_witness :
    (Utils.Throttle.run 100 (Utils.throttle ℕ)
      [Utils.Event.call 0 1, Utils.Event.timer 100, Utils.Event.call 120 2]).timerFired.inThrottle
      = false :=
  (throttle_idle_after_cooldown 100
    [Utils.Event.call 0 1, Utils.Event.timer 100, Utils.Event.call 120 2] 230 3
    (by simp [Utils.Throttle.run, Utils.Throttle.step, Utils.Throttle.call,
      Utils.Throttle.timerFired, Utils.throttle])).1

theorem throttle_step_timedInv {α : Type} (limit clock : ℚ) (s : Utils.Throttle α)
    (e : Utils.Event α) (h : s.TimedInv limit clock)
    (hw : Utils.Throttle.wellTimed limit clock s [e] = true) :
    (Utils.Throttle.step limit s e).TimedInv limit e.time := by
  have hL : (0 : ℚ) ≤ max limit 0 := le_max_right _ _
  obtain ⟨hpw, hst⟩ := h
  cases e with
  | call now a =>
    have hclk : clock ≤ now := by
      simpa [Utils.Throttle.wellTimed, Utils.Event.time] using hw
    rcases hst with ⟨h1, h2, h3⟩ | ⟨h1, tl, h2, h3⟩
    · have hstep : Utils.Throttle.step limit s (Utils.Event.call now a)
          = ⟨true, [now + max limit 0], s.invoked ++ [(now, a)]⟩ := by
        simp [Utils.Throttle.step, Utils.Throttle.call, h1, h2]
      rw [hstep]
      refine ⟨?_, Or.inr ⟨rfl, now, rfl, ?_⟩⟩
      · refine List.pairwise_append.mpr ⟨hpw, List.pairwise_singleton _ _, ?_⟩
        intro p hp q hq
        rw [List.mem_singleton] at hq
        rw [hq]
        exact (h3 p hp).trans hclk
      · intro p hp
        rcases List.mem_append.mp hp with hp | hp
        · have := h3 p hp
          linarith
        · rw [List.mem_singleton] at hp
          rw [hp]
    · rw [show Utils.Throttle.step limit s (Utils.Event.call now a) = s from
        throttle_call_busy limit now a s h1]
      exact ⟨hpw, Or.inr ⟨h1, tl, h2, h3⟩⟩
  | timer now =>
    rcases hst with ⟨h1, h2, h3⟩ | ⟨h1, tl, h2, h3⟩
    · have hclk : clock ≤ now := by
        simpa [Utils.Throttle.wellTimed, Utils.Event.time, h2] using hw
      have hstep : Utils.Throttle.step limit s (Utils.Event.timer now) = s := by
        simp [Utils.Throttle.step, Utils.Throttle.timerFired, h2]
      rw [hstep]
      exact ⟨hpw, Or.inl ⟨h1, h2, fun p hp => (h3 p hp).trans hclk⟩⟩
    · have hdue : tl + max limit 0 ≤ now := by
        have := hw
        simp [Utils.Throttle.wellTimed, Utils.Event.time, h2] at this
        exact this.2
      refine ⟨?_, Or.inl ⟨?_, ?_, ?_⟩⟩
      · simpa [Utils.Throttle.step, Utils.Throttle.timerFired, h2] using hpw
      · simp [Utils.Throttle.step, Utils.Throttle.timerFired, h2]
      · simp [Utils.Throttle.step, Utils.Throttle.timerFired, h2]
      · intro p hp
        have hp' : p ∈ s.invoked := by
          simpa [Utils.Throttle.step, Utils.Throttle.timerFired, h2] using hp
        have := h3 p hp'
        simp only [Utils.Event.time]
        linarith

theorem throttle_wellTimed_cons {α : Type} (limit clock : ℚ) (s : Utils.Throttle α)
    (e : Utils.Event α) (es : List (Utils.Event α))
    (h : Utils.Throttle.wellTimed limit clock s (e :: es) = true) :
    Utils.Throttle.wellTimed limit clock s [e] = true ∧
    Utils.Throttle.wellTimed limit e.time (Utils.Throttle.step limit s e) es = true := by
  simp only [Utils.Throttle.wellTimed, Bool.and_eq_true, Bool.and_true] at h ⊢
  exact ⟨⟨h.1.1, h.1.2⟩, h.2⟩

theorem throttle_run_timedInv {α : Type} (limit : ℚ) (evs : List (Utils.Event α)) :
    ∀ (clock : ℚ) (s : Utils.Throttle α), s.TimedInv limit clock →
      Utils.Throttle.wellTimed limit clock s evs = true →
      ∃ clock', (Utils.Throttle.run limit s evs).TimedInv limit clock' := by
  induction evs with
  | nil => intro clock s h _; exact ⟨clock, h⟩
  | cons e es ih =>
    intro clock s h hw
    obtain ⟨h1, h2⟩ := throttle_wellTimed_cons limit clock s e es hw
    exact ih e.time _ (throttle_step_timedInv limit clock s e h h1) h2

/-- C17: when time does not run backwards and no timer fires before it is due, any two
invocations made by a throttle wrapper, started fresh, are at least the window apart; and in
each busy period, which starts with a call to the idle wrapper and ends when the timer fires,
the call that reaches the wrapped function is the first one. -/
theorem throttle_rate_bound {α : Type} (limit clock : ℚ) (evs : List (Utils.Event α))
    (hw : Utils.Throttle.wellTimed limit clock (Utils.throttle α) evs = true) :
    (Utils.Throttle.run limit (Utils.throttle α) evs).invoked.Pairwise
      (fun p q => p.1 + limit ≤ q.1) ∧
    ((Utils.Throttle.run limit (Utils.throttle α) evs).inThrottle = false →
      ∀ (first : ℚ × α) (rest : List (ℚ × α)) (now : ℚ),
        Utils.Throttle.run limit (Utils.Throttle.run limit (Utils.throttle α) evs)
            (((first :: rest).map fun c => Utils.Event.call c.1 c.2) ++ [Utils.Event.timer now])
          = ⟨false, [],
              (Utils.Throttle.run limit (Utils.throttle α) evs).invoked ++ [first]⟩) := by
  constructor
  · have h0 : (Utils.throttle α).TimedInv limit clock :=
      ⟨List.Pairwise.nil, Or.inl ⟨rfl, rfl, fun p hp => absurd hp (List.not_mem_nil p)⟩⟩
    obtain ⟨clock', hpw, -⟩ := throttle_run_timedInv limit evs clock _ h0 hw
    exact hpw.imp fun {p q} h => (add_le_add_left (le_max_left limit 0) p.1).trans h
  · intro hidle first rest now
    have hinv := throttle_run_inv limit evs _ (throttle_fresh_inv α)
    have htim : (Utils.Throttle.run limit (Utils.throttle α) evs).timers = [] := by
      rcases hinv with ⟨_, h2⟩ | ⟨h1, _⟩
      · exact h2
      · rw [h1] at hidle
        exact absurd hidle (by simp)
    rw [throttle_run_append, throttle_busy_period limit _ hidle htim first rest]
    simp [Utils.Throttle.run, Utils.Throttle.step, Utils.Throttle.timerFired]

/-- Witness for C17: window 100, calls at 0, 30 and 60, the timer firing at 100, calls at 130
and 140. -/
theorem throttle_rate_bound_witness :
    (Utils.Throttle.run 100 (Utils.throttle ℕ)
      [Utils.Event.call 0 1, Utils.Event.call 30 2, Utils.Event.call 60 3,
        Utils.Event.timer 100, Utils.Event.call 130 4, Utils.Event.call 140 5]).invoked.Pairwise
      (fun p q => p.1 + 100 ≤ q.1) :=
  (throttle_rate_bound 100 0
    [Utils.Event.call 0 1, Utils.Event.call 30 2, Utils.Event.call 60 3,
      Utils.Event.timer 100, Utils.Event.call 130 4, Utils.Event.call 140 5]
    (by
      simp [Utils.Throttle.wellTimed, Utils.Throttle.step, Utils.Throttle.call,
        Utils.Throttle.timerFired, Utils.throttle, Utils.Event.time]
      norm_num)).1

/-! ## `Utils.debounce` -/

/-- A call on a wrapper with at most one pending timer: the pending timer is cleared and
replaced by the timer of this call. -/
theorem debounce_call_single {α : Type} (wait : ℚ) (immediate : Bool) (now : ℚ) (a : α)
    (s : Utils.Debounce α) (h : s.Inv) :
    (s.call wait immediate now a).timers = [(s.nextHandle, now + max wait 0, a)] ∧
    (s.call wait immediate now a).timeout = some s.nextHandle ∧
    (s.call wait immediate now a).invoked
      = (if immediate && s.timeout.isNone then s.invoked ++ [(now, a)] else s.invoked) := by
  have hcl : (s.timers.filter fun t => some t.1 != s.timeout) = [] := by
    rcases h with h | ⟨h, due, a', h1, h2⟩
    · simp [h]
    · simp [h1, h2]
  unfold Utils.Debounce.call
  simp only [hcl, List.nil_append]
  split <;> simp_all

theorem debounce_call_inv {α : Type} (wait : ℚ) (immediate : Bool) (now : ℚ) (a : α)
    (s : Utils.Debounce α) (h : s.Inv) : (s.call wait immediate now a).Inv := by
  obtain ⟨h1, h2, -⟩ := debounce_call_single wait immediate now a s h
  exact Or.inr ⟨_, _, _, h1, h2⟩

theorem debounce_run_append {α : Type} (wait : ℚ) (immediate : Bool) (s : Utils.Debounce α)
    (evs₁ evs₂ : List (Utils.Event α)) :
    Utils.Debounce.run wait immediate s (evs₁ ++ evs₂)
      = Utils.Debounce.run wait immediate (Utils.Debounce.run wait immediate s evs₁) evs₂ := by
  simp [Utils.Debounce.run, List.foldl_append]

theorem debounce_run_timer {α : Type} (wait : ℚ) (immediate : Bool) (s : Utils.Debounce α)
    (now : ℚ) :
    Utils.Debounce.run wait immediate s [Utils.Event.timer now] = s.timerFired immediate now :=
  rfl

/-- The firing of the only pending timer. -/
theorem debounce_timerFired_single {α : Type} (immediate : Bool) (now : ℚ)
    (s : Utils.Debounce α) {h : ℕ} {due : ℚ} {a : α} (ht : s.timers = [(h, due, a)]) :
    s.timerFired immediate now
      = ⟨none, [], s.nextHandle,
          if immediate then s.invoked else s.invoked ++ [(now, a)]⟩ := by
  unfold Utils.Debounce.timerFired Utils.Debounce.later
  rw [ht]
  cases immediate <;> rfl

/-- Calls alone never reach the wrapped function of a trailing debounce wrapper. -/
theorem debounce_trailing_calls {α : Type} (wait : ℚ) (calls : List (ℚ × α)) :
    ∀ s : Utils.Debounce α, s.Inv →
      (Utils.Debounce.run wait false s
        (calls.map fun c => Utils.Event.call c.1 c.2)).invoked = s.invoked ∧
      (Utils.Debounce.run wait false s (calls.map fun c => Utils.Event.call c.1 c.2)).Inv := by
  induction calls with
  | nil => intro s h; exact ⟨rfl, h⟩
  | cons c cs ih =>
    intro s h
    have h1 := debounce_call_single wait false c.1 c.2 s h
    have h2 := ih (s.call wait false c.1 c.2) (debounce_call_inv wait false c.1 c.2 s h)
    simp only [List.map_cons, Utils.Debounce.run, List.foldl_cons, Utils.Debounce.step]
    refine ⟨?_, h2.2⟩
    have h3 := h2.1
    simp only [Utils.Debounce.run] at h3
    rw [h3, h1.2.2]
    simp

/-- C18: a burst of k ≥ 1 calls to a trailing debounce wrapper with no timer pending before
the burst and none firing during it invokes nothing while it lasts, leaves one pending timer,
due `wait` after the last call and holding the arguments of the last call, and the firing of
that timer invokes the wrapped function once, with the arguments of the last call. -/
theorem debounce_trailing_burst {α : Type} (wait : ℚ) (s : Utils.Debounce α)
    (hs : s.timers = []) (init : List (ℚ × α)) (last : ℚ × α) (fireTime : ℚ) :
    (∀ calls : List (ℚ × α),
      (Utils.Debounce.run wait false s
        (calls.map fun c => Utils.Event.call c.1 c.2)).invoked = s.invoked) ∧
    (∃ h, (Utils.Debounce.run wait false s
        ((init ++ [last]).map fun c => Utils.Event.call c.1 c.2)).timers
      = [(h, last.1 + max wait 0, last.2)]) ∧
    (Utils.Debounce.run wait false s
      (((init ++ [last]).map fun c => Utils.Event.call c.1 c.2)
        ++ [Utils.Event.timer fireTime])).invoked = s.invoked ++ [(fireTime, last.2)] ∧
    (Utils.Debounce.run wait false s
      (((init ++ [last]).map fun c => Utils.Event.call c.1 c.2)
        ++ [Utils.Event.timer fireTime])).timers = [] := by
  have hinv : s.Inv := Or.inl hs
  have hinit := debounce_trailing_calls wait init s hinv
  have hlast := debounce_call_single wait false last.1 last.2 _ hinit.2
  have hrun : Utils.Debounce.run wait false s
      ((init ++ [last]).map fun c => Utils.Event.call c.1 c.2)
      = (Utils.Debounce.run wait false s
          (init.map fun c => Utils.Event.call c.1 c.2)).call wait false last.1 last.2 := by
    rw [List.map_append, debounce_run_append]
    rfl
  have hinv1 : (Utils.Debounce.run wait false s
      ((init ++ [last]).map fun c => Utils.Event.call c.1 c.2)).invoked = s.invoked :=
    (debounce_trailing_calls wait (init ++ [last]) s hinv).1
  refine ⟨fun calls => (debounce_trailing_calls wait calls s hinv).1,
    ⟨(Utils.Debounce.run wait false s
      (init.map fun c => Utils.Event.call c.1 c.2)).nextHandle, ?_⟩, ?_, ?_⟩
  · rw [hrun]
    exact hlast.1
  · have ht := hlast.1
    rw [← hrun] at ht
    rw [debounce_run_append, debounce_run_timer, debounce_timerFired_single _ _ _ ht, hinv1]
    rfl
  · have ht := hlast.1
    rw [← hrun] at ht
    rw [debounce_run_append, debounce_run_timer, debounce_timerFired_single _ _ _ ht]

/-- Witness for C18: a fresh wrapper with wait 100, five calls within 50 ms, and the timer
firing at 140. -/
theorem debounce_trailing_burst_witness :
    (Utils.debounce ℕ).timers = [] ∧
    (Utils.Debounce.run 100 false (Utils.debounce ℕ)
      ((([(0, 1), (10, 2), (20, 3), (30, 4)] ++ [(40, 5)] : List (ℚ × ℕ)).map
          fun c => Utils.Event.call c.1 c.2) ++ [Utils.Event.timer 140])).invoked
      = (Utils.debounce ℕ).invoked ++ [(140, 5)] :=
  ⟨rfl, (debounce_trailing_burst 100 (Utils.debounce ℕ) rfl
    [(0, 1), (10, 2), (20, 3), (30, 4)] (40, 5) 140).2.2.1⟩

/-- Calls to an immediate debounce wrapper whose timer is pending never reach the wrapped
function, and leave one timer pending. -/
theorem debounce_immediate_calls_pending {α : Type} (wait : ℚ) (calls : List (ℚ × α)) :
    ∀ s : Utils.Debounce α, (∃ h due a, s.timers = [(h, due, a)] ∧ s.timeout = some h) →
      (Utils.Debounce.run wait true s
        (calls.map fun c => Utils.Event.call c.1 c.2)).invoked = s.invoked ∧
      ∃ h due a,
        (Utils.Debounce.run wait true s
          (calls.map fun c => Utils.Event.call c.1 c.2)).timers = [(h, due, a)] ∧
        (Utils.Debounce.run wait true s
          (calls.map fun c => Utils.Event.call c.1 c.2)).timeout = some h := by
  induction calls with
  | nil => intro s h; exact ⟨rfl, h⟩
  | cons c cs ih =>
    intro s h
    have h1 := debounce_call_single wait true c.1 c.2 s (Or.inr h)
    have h2 := ih (s.call wait true c.1 c.2) ⟨_, _, _, h1.1, h1.2.1⟩
    obtain ⟨hd, due, a, -, htime⟩ := h
    have h3 : (s.call wait true c.1 c.2).invoked = s.invoked := by
      rw [h1.2.2, htime]
      simp
    simp only [List.map_cons, Utils.Debounce.run, List.foldl_cons, Utils.Debounce.step]
    simp only [Utils.Debounce.run] at h2
    exact ⟨h2.1.trans h3, h2.2⟩

/-- The state of an immediate debounce wrapper after a burst that started with no timer
pending: the first call reached the wrapped function, and one timer is pending. -/
theorem debounce_immediate_burst_state {α : Type} (wait : ℚ) (s : Utils.Debounce α)
    (h1 : s.timeout = none) (h2 : s.timers = []) (first : ℚ × α) (rest : List (ℚ × α)) :
    (Utils.Debounce.run wait true s
      ((first :: rest).map fun c => Utils.Event.call c.1 c.2)).invoked = s.invoked ++ [first] ∧
    ∃ h due a,
      (Utils.Debounce.run wait true s
        ((first :: rest).map fun c => Utils.Event.call c.1 c.2)).timers = [(h, due, a)] ∧
      (Utils.Debounce.run wait true s
        ((first :: rest).map fun c => Utils.Event.call c.1 c.2)).timeout = some h := by
  have hc := debounce_call_single wait true first.1 first.2 s (Or.inl h2)
  have hr := debounce_immediate_calls_pending wait rest (s.call wait true first.1 first.2)
    ⟨_, _, _, hc.1, hc.2.1⟩
  have hi : (s.call wait true first.1 first.2).invoked = s.invoked ++ [first] := by
    rw [hc.2.2, h1]
    simp
  simp only [List.map_cons, Utils.Debounce.run, List.foldl_cons, Utils.Debounce.step]
  simp only [Utils.Debounce.run] at hr
  exact ⟨hr.1.trans hi, hr.2⟩

/-- C19: a burst of k ≥ 1 calls to an immediate debounce wrapper that starts with no timer
pending, and during which no timer fires, invokes the wrapped function exactly once, during the
first call and with its arguments; the firing of the timer invokes nothing and leaves the
wrapper without pending timer, and the next call invokes the wrapped function at once
again. -/
theorem debounce_immediate_burst {α : Type} (wait : ℚ) (s : Utils.Debounce α)
    (h1 : s.timeout = none) (h2 : s.timers = []) (first : ℚ × α) (rest : List (ℚ × α))
    (fireTime : ℚ) (next : ℚ × α) :
    (s.call wait true first.1 first.2).invoked = s.invoked ++ [first] ∧
    (Utils.Debounce.run wait true s
      ((first :: rest).map fun c => Utils.Event.call c.1 c.2)).invoked = s.invoked ++ [first] ∧
    (Utils.Debounce.run wait true s
      (((first :: rest).map fun c => Utils.Event.call c.1 c.2)
        ++ [Utils.Event.timer fireTime])).invoked = s.invoked ++ [first] ∧
    (Utils.Debounce.run wait true s
      (((first :: rest).map fun c => Utils.Event.call c.1 c.2)
        ++ [Utils.Event.timer fireTime])).timeout = none ∧
    (Utils.Debounce.run wait true s
      (((first :: rest).map fun c => Utils.Event.call c.1 c.2)
        ++ [Utils.Event.timer fireTime])).timers = [] ∧
    (Utils.Debounce.run wait true s
      ((((first :: rest).map fun c => Utils.Event.call c.1 c.2)
        ++ [Utils.Event.timer fireTime]) ++ [Utils.Event.call next.1 next.2])).invoked
      = s.invoked ++ [first, next] := by
  have hc := debounce_call_single wait true first.1 first.2 s (Or.inl h2)
  have hi : (s.call wait true first.1 first.2).invoked = s.invoked ++ [first] := by
    rw [hc.2.2, h1]
    simp
  obtain ⟨hb, h, due, a, ht, -⟩ := debounce_immediate_burst_state wait s h1 h2 first rest
  have hfire : Utils.Debounce.run wait true s
      (((first :: rest).map fun c => Utils.Event.call c.1 c.2) ++ [Utils.Event.timer fireTime])
      = ⟨none, [], (Utils.Debounce.run wait true s
          ((first :: rest).map fun c => Utils.Event.call c.1 c.2)).nextHandle,
          s.invoked ++ [first]⟩ := by
    rw [debounce_run_append, debounce_run_timer, debounce_timerFired_single _ _ _ ht, hb]
    rfl
  refine ⟨hi, hb, ?_, ?_, ?_, ?_⟩
  · rw [hfire]
  · rw [hfire]
  · rw [hfire]
  · rw [debounce_run_append, hfire]
    have hn := debounce_call_single wait true next.1 next.2
      (⟨none, [], (Utils.Debounce.run wait true s
          ((first :: rest).map fun c => Utils.Event.call c.1 c.2)).nextHandle,
          s.invoked ++ [first]⟩ : Utils.Debounce α) (Or.inl rfl)
    have hrun : ∀ t : Utils.Debounce α,
        Utils.Debounce.run wait true t [Utils.Event.call next.1 next.2]
          = t.call wait true next.1 next.2 := fun _ => rfl
    rw [hrun, hn.2.2]
    simp

/-- Witness for C19: a fresh wrapper with wait 100, five calls within 50 ms, the timer firing
at 140 and a call at 200. -/
theorem debounce_immediate_burst_witness :
    (Utils.debounce ℕ).timeout = none ∧ (Utils.debounce ℕ).timers = [] ∧
    (Utils.Debounce.run 100 true (Utils.debounce ℕ)
      (((([(0, 1), (10, 2), (20, 3), (30, 4), (40, 5)] : List (ℚ × ℕ)).map
          fun c => Utils.Event.call c.1 c.2) ++ [Utils.Event.timer 140])
        ++ [Utils.Event.call 200 6])).invoked
      = (Utils.debounce ℕ).invoked ++ [(0, 1), (200, 6)] :=
  ⟨rfl, rfl, (debounce_immediate_burst 100 (Utils.debounce ℕ) rfl rfl (0, 1)
    [(10, 2), (20, 3), (30, 4), (40, 5)] 140 (200, 6)).2.2.2.2.2⟩

/-! ## The arguments that reach the wrapped function -/

theorem callsOf_call {α : Type} (now : ℚ) (a : α) (es : List (Utils.Event α)) :
    Utils.callsOf (Utils.Event.call now a :: es) = (now, a) :: Utils.callsOf es := by
  simp [Utils.callsOf]

theorem callsOf_timer {α : Type} (now : ℚ) (es : List (Utils.Event α)) :
    Utils.callsOf (Utils.Event.timer now :: es) = Utils.callsOf es := by
  simp [Utils.callsOf]

theorem throttle_call_invoked {α : Type} (limit now : ℚ) (a : α) (s : Utils.Throttle α) :
    (s.call limit now a).invoked
      = (if s.inThrottle then s.invoked else s.invoked ++ [(now, a)]) := by
  unfold Utils.Throttle.call
  cases s.inThrottle <;> simp

theorem throttle_timerFired_invoked {α : Type} (s : Utils.Throttle α) :
    s.timerFired.invoked = s.invoked := by
  unfold Utils.Throttle.timerFired
  cases s.timers <;> rfl

theorem debounce_call_invoked {α : Type} (wait : ℚ) (immediate : Bool) (now : ℚ) (a : α)
    (s : Utils.Debounce α) :
    (s.call wait immediate now a).invoked
      = (if immediate && s.timeout.isNone then s.invoked ++ [(now, a)] else s.invoked) := by
  unfold Utils.Debounce.call
  simp only []
  split <;> rfl

theorem debounce_call_timers {α : Type} (wait : ℚ) (immediate : Bool) (now : ℚ) (a : α)
    (s : Utils.Debounce α) :
    (s.call wait immediate now a).timers
      = (s.timers.filter fun t => some t.1 != s.timeout)
        ++ [(s.nextHandle, now + max wait 0, a)] := by
  unfold Utils.Debounce.call
  simp only []
  split <;> rfl

theorem debounce_timerFired_immediate_invoked {α : Type} (now : ℚ) (s : Utils.Debounce α) :
    (s.timerFired true now).invoked = s.invoked := by
  unfold Utils.Debounce.timerFired
  split <;> rfl

theorem debounce_timerFired_trailing {α : Type} (now : ℚ) (s : Utils.Debounce α) (h : ℕ)
    (due : ℚ) (a : α) (rest : List (ℕ × ℚ × α)) (ht : s.timers = (h, due, a) :: rest) :
    (s.timerFired false now).invoked = s.invoked ++ [(now, a)] ∧
    (s.timerFired false now).timers = rest := by
  unfold Utils.Debounce.timerFired
  rw [ht]
  exact ⟨rfl, rfl⟩

/-- The invocations of a throttle wrapper are calls of the wrapper, in order. -/
theorem throttle_invoked_sublist {α : Type} (limit : ℚ) (evs : List (Utils.Event α)) :
    ∀ (s : Utils.Throttle α) (l : List (ℚ × α)), s.invoked.Sublist l →
      (Utils.Throttle.run limit s evs).invoked.Sublist (l ++ Utils.callsOf evs) := by
  induction evs with
  | nil => intro s l h; simpa [Utils.Throttle.run, Utils.callsOf] using h
  | cons e es ih =>
    intro s l h
    cases e with
    | call now a =>
      have hstep : (Utils.Throttle.step limit s (Utils.Event.call now a)).invoked.Sublist
          (l ++ [(now, a)]) := by
        show (s.call limit now a).invoked.Sublist (l ++ [(now, a)])
        rw [throttle_call_invoked]
        split
        · exact h.trans (List.sublist_append_left l _)
        · exact h.append (List.Sublist.refl _)
      have := ih _ _ hstep
      rw [callsOf_call]
      simpa [Utils.Throttle.run] using this
    | timer now =>
      have hstep : (Utils.Throttle.step limit s (Utils.Event.timer now)).invoked.Sublist l := by
        show s.timerFired.invoked.Sublist l
        rw [throttle_timerFired_invoked]
        exact h
      have := ih _ _ hstep
      rw [callsOf_timer]
      simpa [Utils.Throttle.run] using this

/-- The invocations of an immediate debounce wrapper are calls of the wrapper, in order. -/
theorem debounce_immediate_invoked_sublist {α : Type} (wait : ℚ)
    (evs : List (Utils.Event α)) :
    ∀ (s : Utils.Debounce α) (l : List (ℚ × α)), s.invoked.Sublist l →
      (Utils.Debounce.run wait true s evs).invoked.Sublist (l ++ Utils.callsOf evs) := by
  induction evs with
  | nil => intro s l h; simpa [Utils.Debounce.run, Utils.callsOf] using h
  | cons e es ih =>
    intro s l h
    cases e with
    | call now a =>
      have hstep : (Utils.Debounce.step wait true s (Utils.Event.call now a)).invoked.Sublist
          (l ++ [(now, a)]) := by
        show (s.call wait true now a).invoked.Sublist (l ++ [(now, a)])
        rw [debounce_call_invoked]
        split
        · exact h.append (List.Sublist.refl _)
        · exact h.trans (List.sublist_append_left l _)
      have := ih _ _ hstep
      rw [callsOf_call]
      simpa [Utils.Debounce.run] using this
    | timer now =>
      have hstep : (Utils.Debounce.step wait true s (Utils.Event.timer now)).invoked.Sublist
          l := by
        show (s.timerFired true now).invoked.Sublist l
        rw [debounce_timerFired_immediate_invoked]
        exact h
      have := ih _ _ hstep
      rw [callsOf_timer]
      simpa [Utils.Debounce.run] using this

/-- The arguments invoked by, and pending in, a trailing debounce wrapper are arguments of
calls of the wrapper. -/
theorem debounce_trailing_args {α : Type} (wait : ℚ) (evs : List (Utils.Event α)) :
    ∀ (s : Utils.Debounce α) (l : List α),
      (∀ p ∈ s.invoked, p.2 ∈ l) → (∀ t ∈ s.timers, t.2.2 ∈ l) →
      (∀ p ∈ (Utils.Debounce.run wait false s evs).invoked,
        p.2 ∈ l ++ (Utils.callsOf evs).map Prod.snd) := by
  induction evs with
  | nil => intro s l h1 _ p hp; simpa [Utils.callsOf] using h1 p hp
  | cons e es ih =>
    intro s l h1 h2
    cases e with
    | call now a =>
      have hi : ∀ p ∈ (Utils.Debounce.step wait false s (Utils.Event.call now a)).invoked,
          p.2 ∈ l ++ [a] := by
        intro p hp
        have hp' : p ∈ (s.call wait false now a).invoked := hp
        rw [debounce_call_invoked] at hp'
        simp only [Bool.false_and, Bool.false_eq_true, if_false] at hp'
        exact List.mem_append_left _ (h1 p hp')
      have ht : ∀ t ∈ (Utils.Debounce.step wait false s (Utils.Event.call now a)).timers,
          t.2.2 ∈ l ++ [a] := by
        intro t htm
        have htm' : t ∈ (s.call wait false now a).timers := htm
        rw [debounce_call_timers] at htm'
        rcases List.mem_append.mp htm' with h | h
        · exact List.mem_append_left _ (h2 t (List.mem_filter.mp h).1)
        · rw [List.mem_singleton] at h
          rw [h]
          simp
      have := ih _ _ hi ht
      rw [callsOf_call]
      simpa [Utils.Debounce.run] using this
    | timer now =>
      have hstep : (∀ p ∈ (Utils.Debounce.step wait false s (Utils.Event.timer now)).invoked,
          p.2 ∈ l) ∧
          (∀ t ∈ (Utils.Debounce.step wait false s (Utils.Event.timer now)).timers,
            t.2.2 ∈ l) := by
        show (∀ p ∈ (s.timerFired false now).invoked, p.2 ∈ l) ∧
          (∀ t ∈ (s.timerFired false now).timers, t.2.2 ∈ l)
        cases hts : s.timers with
        | nil =>
          have hs : s.timerFired false now = s := by
            unfold Utils.Debounce.timerFired
            rw [hts]
          rw [hs]
          exact ⟨h1, h2⟩
        | cons t rest =>
          obtain ⟨h, due, a⟩ := t
          obtain ⟨e1, e2⟩ := debounce_timerFired_trailing now s h due a rest hts
          rw [e1, e2]
          constructor
          · intro p hp
            rcases List.mem_append.mp hp with hp | hp
            · exact h1 p hp
            · rw [List.mem_singleton] at hp
              rw [hp]
              exact h2 (h, due, a) (by rw [hts]; simp)
          · intro t htm
            exact h2 t (by rw [hts]; exact List.mem_cons_of_mem _ htm)
      have := ih _ _ hstep.1 hstep.2
      rw [callsOf_timer]
      simpa [Utils.Debounce.run] using this

/-- C20: whenever a throttle or debounce wrapper invokes the wrapped function, what the
function receives is what the triggering call received.  Throttle: a call that finds the wrapper
idle invokes with its own arguments, no other event invokes.  Immediate debounce: a call that
finds `timeout` empty invokes with its own arguments, no other event invokes.  Trailing
debounce: a call stores its own arguments in the timer it sets and invokes nothing, and a
firing timer invokes with the arguments stored in it.  In every run from a fresh wrapper the
invocations are therefore calls of the run. -/
theorem wrappers_forward_arguments {α : Type} (limit wait : ℚ) (evs : List (Utils.Event α)) :
    ((Utils.Throttle.run limit (Utils.throttle α) evs).invoked.Sublist (Utils.callsOf evs) ∧
      (∀ (s : Utils.Throttle α) (now : ℚ) (a : α),
        (s.call limit now a).invoked
          = (if s.inThrottle then s.invoked else s.invoked ++ [(now, a)])) ∧
      (∀ s : Utils.Throttle α, s.timerFired.invoked = s.invoked)) ∧
    ((Utils.Debounce.run wait true (Utils.debounce α) evs).invoked.Sublist
        (Utils.callsOf evs) ∧
      (∀ (s : Utils.Debounce α) (now : ℚ) (a : α),
        (s.call wait true now a).invoked
          = (if s.timeout.isNone then s.invoked ++ [(now, a)] else s.invoked)) ∧
      (∀ (s : Utils.Debounce α) (now : ℚ), (s.timerFired true now).invoked = s.invoked)) ∧
    ((∀ p ∈ (Utils.Debounce.run wait false (Utils.debounce α) evs).invoked,
        ∃ t, (t, p.2) ∈ Utils.callsOf evs) ∧
      (∀ (s : Utils.Debounce α) (now : ℚ) (a : α),
        (s.call wait false now a).invoked = s.invoked ∧
        (s.call wait false now a).timers
          = (s.timers.filter fun t => some t.1 != s.timeout)
            ++ [(s.nextHandle, now + max wait 0, a)]) ∧
      (∀ (s : Utils.Debounce α) (now : ℚ) (h : ℕ) (due : ℚ) (a : α)
        (rest : List (ℕ × ℚ × α)), s.timers = (h, due, a) :: rest →
        (s.timerFired false now).invoked = s.invoked ++ [(now, a)])) := by
  refine ⟨⟨?_, fun s now a => throttle_call_invoked limit now a s, throttle_timerFired_invoked⟩,
    ⟨?_, fun s now a => ?_, fun s now => debounce_timerFired_immediate_invoked now s⟩,
    ⟨?_, fun s now a => ⟨?_, debounce_call_timers wait false now a s⟩,
      fun s now h due a rest ht => (debounce_timerFired_trailing now s h due a rest ht).1⟩⟩
  · simpa using throttle_invoked_sublist limit evs (Utils.throttle α) []
      (List.Sublist.refl _)
  · simpa using debounce_immediate_invoked_sublist wait evs (Utils.debounce α) []
      (List.Sublist.refl _)
  · rw [debounce_call_invoked]
    simp
  · intro p hp
    have h := debounce_trailing_args wait evs (Utils.debounce α) []
      (fun p hp => absurd hp (List.not_mem_nil p)) (fun t ht => absurd ht (List.not_mem_nil t))
      p hp
    simp only [List.nil_append, List.mem_map] at h
    obtain ⟨q, hq, hqa⟩ := h
    exact ⟨q.1, by rw [← hqa]; exact hq⟩
  · rw [debounce_call_invoked]
    simp

/-- Witness for C20: a trailing debounce wrapper with wait 100 whose only pending timer holds
the arguments 5 invokes the wrapped function with 5 when that timer fires at 140. -/
theorem wrappers_forward_arguments_witness :
    ((⟨some 3, [(3, 140, 5)], 4, []⟩ : Utils.Debounce ℕ).timerFired false 140).invoked
      = [(140, 5)] :=
  (wrappers_forward_arguments 100 100 ([] : List (Utils.Event ℕ))).2.2.2.2
    ⟨some 3, [(3, 140, 5)], 4, []⟩ 140 3 140 5 [] rfl

/-! ## `CaseStudies.toggleCase` -/

/-- The shape of the result of `toggleCase`: the collections after the call, element by
element. -/
theorem toggleCase_eq (caseId button details : ℕ) (s : CaseStudies)
    (hq : s.querySelector caseId = some details) :
    ∃ s', s.toggleCase caseId button = some s' ∧
      (∀ i, s'.caseDetails[i]? = (s.caseDetails[i]?).map fun d =>
        if i = details then
          { d with expanded := !(match s.caseDetails[details]? with
                                  | some d => d.expanded
                                  | none => false) }
        else { d with expanded := false }) ∧
      (∀ i, s'.expandButtons[i]? = (s.expandButtons[i]?).map fun b =>
        if i = button then
          { b with expanded := !(match s.caseDetails[details]? with
                                  | some d => d.expanded
                                  | none => false) }
        else { b with expanded := false }) := by
  unfold CaseStudies.toggleCase
  rw [hq]
  simp only []
  cases hexp : (match s.caseDetails[details]? with
                | some d => d.expanded
                | none => false) with
  | true =>
    refine ⟨_, by simp only [if_true]; rfl, fun i => ?_, fun i => ?_⟩
    · simp only [List.getElem?_mapIdx, Option.map_map]
      cases s.caseDetails[i]? with
      | none => rfl
      | some d => by_cases h : i = details <;> simp [h]
    · simp only [List.getElem?_mapIdx, Option.map_map]
      cases s.expandButtons[i]? with
      | none => rfl
      | some d => by_cases h : i = button <;> simp [h]
  | false =>
    refine ⟨_, by simp only [Bool.false_eq_true, if_false]; rfl, fun i => ?_, fun i => ?_⟩
    · simp only [List.getElem?_mapIdx, Option.map_map]
      cases s.caseDetails[i]? with
      | none => rfl
      | some d => by_cases h : i = details <;> simp [h]
    · simp only [List.getElem?_mapIdx, Option.map_map]
      cases s.expandButtons[i]? with
      | none => rfl
      | some d => by_cases h : i = button <;> simp [h]

theorem querySelector_in_range (caseId details : ℕ) (s : CaseStudies)
    (hq : s.querySelector caseId = some details) :
    ∃ d₀, s.caseDetails[details]? = some d₀ := by
  unfold CaseStudies.querySelector at hq
  obtain ⟨h, -, -⟩ := List.findIdx?_eq_some_iff_getElem.mp hq
  exact ⟨s.caseDetails[details], List.getElem?_eq_getElem h⟩

/-- The selector finds the same panel in two collections whose `data-case` attributes agree
position by position. -/
theorem querySelector_congr (caseId : ℕ) (s s' : CaseStudies)
    (h : ∀ i : ℕ, (s'.caseDetails[i]?).map CaseElement.dataCase
      = (s.caseDetails[i]?).map CaseElement.dataCase) :
    s'.querySelector caseId = s.querySelector caseId := by
  have hm : s'.caseDetails.map CaseElement.dataCase = s.caseDetails.map CaseElement.dataCase := by
    apply List.ext_getElem?
    intro i
    simp only [List.getElem?_map]
    exact h i
  have key : ∀ l : List CaseElement,
      l.findIdx? (fun d => d.dataCase == caseId)
        = (l.map CaseElement.dataCase).findIdx? (fun x => x == caseId) := by
    intro l
    rw [List.findIdx?_map]
    rfl
  unfold CaseStudies.querySelector
  rw [key, key, hm]

/-- C21: when the target case has a panel, `toggleCase` leaves no panel other than the
target's and no button other than the clicked one with the class `expanded`; the target's panel
and the clicked button are expanded exactly when the panel was not expanded before the call;
and a second call for the same case puts the panel back as it was before the first. -/
theorem toggleCase_single_expanded (caseId button details : ℕ) (s : CaseStudies)
    (hq : s.querySelector caseId = some details) :
    ∃ d₀ s', s.caseDetails[details]? = some d₀ ∧ s.toggleCase caseId button = some s' ∧
      (∀ i d, i ≠ details → s'.caseDetails[i]? = some d → d.expanded = false) ∧
      (∀ i b, i ≠ button → s'.expandButtons[i]? = some b → b.expanded = false) ∧
      (∃ d, s'.caseDetails[details]? = some d ∧ d.expanded = !d₀.expanded) ∧
      (∀ b₀, s.expandButtons[button]? = some b₀ →
        ∃ b, s'.expandButtons[button]? = some b ∧ b.expanded = !d₀.expanded) ∧
      ∃ s'', s'.toggleCase caseId button = some s'' ∧
        (∃ d, s''.caseDetails[details]? = some d ∧ d.expanded = d₀.expanded) ∧
        (∀ i d, i ≠ details → s''.caseDetails[i]? = some d → d.expanded = false) ∧
        (∀ b₀, s.expandButtons[button]? = some b₀ →
          ∃ b, s''.expandButtons[button]? = some b ∧ b.expanded = d₀.expanded) := by
  obtain ⟨d₀, hd⟩ := querySelector_in_range caseId details s hq
  obtain ⟨s', hs', hpan, hbtn⟩ := toggleCase_eq caseId button details s hq
  simp only [hd] at hpan hbtn
  have hq' : s'.querySelector caseId = some details := by
    rw [querySelector_congr caseId s s', hq]
    intro i
    rw [hpan i]
    cases s.caseDetails[i]? with
    | none => rfl
    | some d => by_cases h : i = details <;> simp [h]
  have hd' : s'.caseDetails[details]? = some { d₀ with expanded := !d₀.expanded } := by
    rw [hpan details, hd]
    simp
  obtain ⟨s'', hs'', hpan', hbtn'⟩ := toggleCase_eq caseId button details s' hq'
  simp only [hd'] at hpan' hbtn'
  refine ⟨d₀, s', hd, hs', ?_, ?_, ⟨_, hd', rfl⟩, ?_, s'', hs'', ?_, ?_, ?_⟩
  · intro i d hi h
    rw [hpan i] at h
    cases hsi : s.caseDetails[i]? with
    | none => simp [hsi] at h
    | some x =>
      simp only [hsi, Option.map_some', hi, if_false, Option.some.injEq] at h
      rw [← h]
  · intro i b hi h
    rw [hbtn i] at h
    cases hsi : s.expandButtons[i]? with
    | none => simp [hsi] at h
    | some x =>
      simp only [hsi, Option.map_some', hi, if_false, Option.some.injEq] at h
      rw [← h]
  · intro b₀ hb
    refine ⟨{ b₀ with expanded := !d₀.expanded }, ?_, rfl⟩
    rw [hbtn button, hb]
    simp
  · refine ⟨{ d₀ with expanded := d₀.expanded }, ?_, rfl⟩
    rw [hpan' details, hd']
    simp
  · intro i d hi h
    rw [hpan' i] at h
    cases hsi : s'.caseDetails[i]? with
    | none => simp [hsi] at h
    | some x =>
      simp only [hsi, Option.map_some', hi, if_false, Option.some.injEq] at h
      rw [← h]
  · intro b₀ hb
    refine ⟨{ b₀ with expanded := d₀.expanded }, ?_, rfl⟩
    rw [hbtn' button, hbtn button, hb]
    simp

/-- Witness for C21: two cases, the second expanded; the first is toggled by its button. -/
theorem toggleCase_single_expanded_witness :
    (⟨[⟨1, false⟩, ⟨2, true⟩], [⟨1, false⟩, ⟨2, true⟩]⟩ : CaseStudies).querySelector 1 = some 0 ∧
    ∃ d₀ s', (⟨[⟨1, false⟩, ⟨2, true⟩], [⟨1, false⟩, ⟨2, true⟩]⟩ : CaseStudies).caseDetails[0]?
        = some d₀ ∧
      (⟨[⟨1, false⟩, ⟨2, true⟩], [⟨1, false⟩, ⟨2, true⟩]⟩ : CaseStudies).toggleCase 1 0
        = some s' ∧
      ∀ i d, i ≠ 0 → s'.caseDetails[i]? = some d → d.expanded = false := by
  have hq : (⟨[⟨1, false⟩, ⟨2, true⟩], [⟨1, false⟩, ⟨2, true⟩]⟩ : CaseStudies).querySelector 1
      = some 0 := by decide
  obtain ⟨d₀, s', h1, h2, h3, -⟩ := toggleCase_single_expanded 1 0 0 _ hq
  exact ⟨hq, d₀, s', h1, h2, h3⟩

/-! ## The two definitions of `Utils.throttle` -/

theorem staticStep_eq_step {γ β : Type} (limit : ℚ) (s : Utils.Throttle (γ × β))
    (e : Utils.Event (γ × β)) :
    Utils.Throttle.staticStep limit s e = Utils.Throttle.step limit s e := by
  cases e with
  | call now a => rfl
  | timer now => rfl

/-- C22: the static method `throttle` of class `Utils` and the function later assigned to
`Utils.throttle` behave alike: a call with the same receiver and arguments and a timer firing
have the same effect in every state, and for every window and every sequence of calls and timer
firings the two wrappers end in the same state, with the same log of invocations (times,
receivers and arguments). -/
theorem throttle_definitions_agree {γ β : Type} (limit : ℚ)
    (evs : List (Utils.Event (γ × β))) :
    (∀ (s : Utils.Throttle (γ × β)) (now : ℚ) (context : γ) (args : β),
      s.staticCall limit now context args = s.call limit now (context, args)) ∧
    (∀ s : Utils.Throttle (γ × β), s.staticTimerFired = s.timerFired) ∧
    Utils.Throttle.staticRun limit (Utils.staticThrottle (γ × β)) evs
      = Utils.Throttle.run limit (Utils.throttle (γ × β)) evs ∧
    (Utils.Throttle.staticRun limit (Utils.staticThrottle (γ × β)) evs).invoked
      = (Utils.Throttle.run limit (Utils.throttle (γ × β)) evs).invoked := by
  have hrun : ∀ (l : List (Utils.Event (γ × β))) (s : Utils.Throttle (γ × β)),
      Utils.Throttle.staticRun limit s l = Utils.Throttle.run limit s l := by
    intro l
    induction l with
    | nil => intro s; rfl
    | cons e es ih =>
      intro s
      simp only [Utils.Throttle.staticRun, Utils.Throttle.run, List.foldl_cons,
        staticStep_eq_step]
      exact ih _
  have h := hrun evs (Utils.throttle (γ × β))
  exact ⟨fun _ _ _ _ => rfl, fun _ => rfl, h, congrArg Utils.Throttle.invoked h⟩

/-! ## The two definitions of `animateCounter` -/

theorem hero_format_eq_enhanced (text : Text) (n : Option ℤ) :
    HeroSection.format text n = EnhancedHeroAnimations.format text n := rfl

/-- C23: `HeroSection.animateCounter` and `EnhancedHeroAnimations.animateCounter` agree: for
every start value, end value (`NaN` included), duration, original text, start time and frame
time their frame callbacks write the same text and request the same number of frames, the
calls themselves have the same effect, and so have whole runs over any sequence of frames. -/
theorem animateCounter_definitions_agree (start : ℚ) (endv : Option ℚ) (duration : ℚ)
    (text : Text) (s t now : ℚ) (ts : List ℚ) (d : Dom) :
    HeroSection.displayValue start endv duration text s t
      = EnhancedHeroAnimations.displayValue start endv duration text s t ∧
    HeroSection.animate start endv duration text s t d
      = EnhancedHeroAnimations.animate start endv duration text s t d ∧
    HeroSection.animateCounter now d = EnhancedHeroAnimations.animateCounter now d ∧
    runFrames (HeroSection.animate start endv duration text now) ts
        (HeroSection.animateCounter now d)
      = runFrames (EnhancedHeroAnimations.animate start endv duration text now) ts
        (EnhancedHeroAnimations.animateCounter now d) := by
  have hd : ∀ t', HeroSection.displayValue start endv duration text s t'
      = EnhancedHeroAnimations.displayValue start endv duration text s t' := fun _ => rfl
  have ha : ∀ (s' t' : ℚ) (d' : Dom), HeroSection.animate start endv duration text s' t' d'
      = EnhancedHeroAnimations.animate start endv duration text s' t' d' := fun _ _ _ => rfl
  have hf : HeroSection.animate start endv duration text now
      = EnhancedHeroAnimations.animate start endv duration text now := by
    funext t' d'
    exact ha now t' d'
  refine ⟨hd t, ha s t d, rfl, ?_⟩
  rw [hf]
  rfl

/-! ## The interval counter of `main.js` -/

theorem main_step_eq (target : ℤ) : Main.step target = (target : ℚ) / 125 := by
  unfold Main.step
  norm_num

/-- Before tick 125 the interval is set and `current` is `k * target / 125`. -/
theorem main_ticks_running (target : ℤ) (h : 0 < target) (text : Text) :
    ∀ k : ℕ, k < 125 →
      (Main.ticks target k (Main.animateCounters text)).current = (k : ℚ) * target / 125 ∧
      (Main.ticks target k (Main.animateCounters text)).timer = true := by
  intro k
  induction k with
  | zero => intro _; simp [Main.ticks, Main.animateCounters]
  | succ k ih =>
    intro hk
    obtain ⟨hc, ht⟩ := ih (by omega)
    have hpos : (0 : ℚ) < target := by exact_mod_cast h
    have hk' : ((k : ℚ) + 1) < 125 := by exact_mod_cast hk
    have hlt : ¬ (target : ℚ) ≤ (k : ℚ) * target / 125 + (target : ℚ) / 125 := by
      rw [not_le]
      have : (k : ℚ) * target / 125 + (target : ℚ) / 125 = ((k : ℚ) + 1) * target / 125 := by
        ring
      rw [this]
      rw [div_lt_iff₀ (by norm_num : (0 : ℚ) < 125)]
      nlinarith
    simp only [Main.ticks, Main.tick, ht, if_true, hc, main_step_eq, hlt, if_false]
    refine ⟨?_, trivial⟩
    push_cast
    ring

theorem main_tick_text (target : ℤ) (h : 0 < target) (text : Text) (k : ℕ) (h1 : 1 ≤ k)
    (hk : k < 125) :
    (Main.ticks target k (Main.animateCounters text)).textContent
      = numberToString (some ⌊(k : ℚ) * target / 125⌋) := by
  obtain ⟨j, rfl⟩ : ∃ j, k = j + 1 := ⟨k - 1, by omega⟩
  obtain ⟨hc, ht⟩ := main_ticks_running target h text j (by omega)
  have hpos : (0 : ℚ) < target := by exact_mod_cast h
  have hk' : ((j : ℚ) + 1) < 125 := by exact_mod_cast hk
  have hsum : (j : ℚ) * target / 125 + (target : ℚ) / 125 = ((j + 1 : ℕ) : ℚ) * target / 125 := by
    push_cast
    ring
  have hlt : ¬ (target : ℚ) ≤ (j : ℚ) * target / 125 + (target : ℚ) / 125 := by
    rw [not_le]
    have : (j : ℚ) * target / 125 + (target : ℚ) / 125 = ((j : ℚ) + 1) * target / 125 := by
      ring
    rw [this, div_lt_iff₀ (by norm_num : (0 : ℚ) < 125)]
    nlinarith
  rw [hsum] at hlt
  simp only [Main.ticks, Main.tick, ht, if_true, hc, main_step_eq, hsum, hlt, if_false]

theorem main_tick_125 (target : ℤ) (h : 0 < target) (text : Text) :
    Main.ticks target 125 (Main.animateCounters text)
      = ⟨(target : ℚ), numberToString (some target), false⟩ := by
  obtain ⟨hc, ht⟩ := main_ticks_running target h text 124 (by norm_num)
  have hsum : ((124 : ℕ) : ℚ) * target / 125 + (target : ℚ) / 125 = (target : ℚ) := by
    push_cast
    ring
  show Main.tick target (Main.ticks target 124 (Main.animateCounters text)) = _
  simp only [Main.tick, ht, if_true, hc, main_step_eq, hsum, le_refl]

theorem main_ticks_after (target : ℤ) (h : 0 < target) (text : Text) :
    ∀ k : ℕ, Main.ticks target (125 + k) (Main.animateCounters text)
      = Main.ticks target 125 (Main.animateCounters text) := by
  intro k
  induction k with
  | zero => rfl
  | succ k ih =>
    show Main.tick target (Main.ticks target (125 + k) (Main.animateCounters text)) = _
    rw [ih, main_tick_125 target h text]
    simp [Main.tick]

/-- C24: for every positive integer target, in exact arithmetic, the text after tick k with
1 ≤ k < 125 is floor(k * target / 125) and the interval is still set; these values do not
decrease with k and stay below the target; tick 125 sets the text to the target and clears the
interval; and no later tick changes anything. -/
theorem interval_counter_terminates (target : ℤ) (h : 0 < target) (text : Text) :
    (∀ k : ℕ, 1 ≤ k → k < 125 →
      (Main.ticks target k (Main.animateCounters text)).textContent
        = numberToString (some ⌊(k : ℚ) * target / 125⌋) ∧
      (Main.ticks target k (Main.animateCounters text)).timer = true) ∧
    (∀ k : ℕ, k < 125 →
      ⌊(k : ℚ) * target / 125⌋ ≤ ⌊((k + 1 : ℕ) : ℚ) * target / 125⌋ ∧
      ⌊(k : ℚ) * target / 125⌋ < target) ∧
    Main.ticks target 125 (Main.animateCounters text)
      = ⟨(target : ℚ), numberToString (some target), false⟩ ∧
    (∀ k : ℕ, 125 ≤ k →
      Main.ticks target k (Main.animateCounters text)
        = Main.ticks target 125 (Main.animateCounters text)) := by
  have hpos : (0 : ℚ) < target := by exact_mod_cast h
  refine ⟨fun k h1 hk => ⟨main_tick_text target h text k h1 hk,
    (main_ticks_running target h text k hk).2⟩, fun k hk => ⟨?_, ?_⟩,
    main_tick_125 target h text, fun k hk => ?_⟩
  · apply Int.floor_mono
    push_cast
    have : (k : ℚ) * target / 125 ≤ ((k : ℚ) + 1) * target / 125 := by
      apply div_le_div_of_nonneg_right _ (by norm_num : (0 : ℚ) ≤ 125)
      nlinarith
    exact this
  · rw [Int.floor_lt]
    have hk' : (k : ℚ) < 125 := by exact_mod_cast hk
    rw [div_lt_iff₀ (by norm_num : (0 : ℚ) < 125)]
    nlinarith
  · obtain ⟨j, rfl⟩ : ∃ j, k = 125 + j := ⟨k - 125, by omega⟩
    exact main_ticks_after target h text j

/-- Witness for C24: the target 250 on an element showing `0`. -/
theorem interval_counter_terminates_witness :
    (0 : ℤ) < 250 ∧
    Main.ticks 250 125 (Main.animateCounters "0".toList)
      = ⟨((250 : ℤ) : ℚ), numberToString (some 250), false⟩ :=
  ⟨by norm_num, (interval_counter_terminates 250 (by norm_num) "0".toList).2.2.1⟩

/-! ## `TestimonialsSlider` -/

/-- The index left by `goToSlide` when the current slide has its dot. -/
theorem goToSlide_currentSlide (index : ℤ) (s : TestimonialsSlider)
    (h0 : 0 ≤ s.currentSlide) (h1 : s.currentSlide < s.slides) (hd : s.slides ≤ s.dots) :
    (s.goToSlide index).state = { s with currentSlide := index } ∧
    (0 ≤ index → index < s.slides → s.prevBtn = true → s.nextBtn = true →
      (s.goToSlide index).completed = true) := by
  have hdz : (s.slides : ℤ) ≤ s.dots := by exact_mod_cast hd
  have hs : TestimonialsSlider.hasIndex s.slides s.currentSlide = true := by
    simp [TestimonialsSlider.hasIndex, h0, h1]
  have hdt : TestimonialsSlider.hasIndex s.dots s.currentSlide = true := by
    simp [TestimonialsSlider.hasIndex, h0]
    omega
  unfold TestimonialsSlider.goToSlide
  simp only [hs, hdt, Bool.not_true, Bool.false_eq_true, if_false]
  constructor
  · split
    · rfl
    · split
      · rfl
      · unfold TestimonialsSlider.updateButtons
        split <;> rfl
  · intro hi0 hi1 hp hn
    have hs' : TestimonialsSlider.hasIndex s.slides index = true := by
      simp [TestimonialsSlider.hasIndex, hi0, hi1]
    have hd' : TestimonialsSlider.hasIndex s.dots index = true := by
      simp [TestimonialsSlider.hasIndex, hi0]
      omega
    simp [hs', hd', TestimonialsSlider.updateButtons, hp, hn]

theorem next_index (n c : ℤ) (hn : 1 ≤ n) (h0 : 0 ≤ c) (h1 : c < n) :
    Int.tmod (c + 1) n = (c + 1) % n ∧ 0 ≤ (c + 1) % n ∧ (c + 1) % n < n ∧
    ((c + 1) % n - 1 + n) % n = c := by
  have htm : Int.tmod (c + 1) n = (c + 1) % n := Int.tmod_eq_emod (by omega) (by omega)
  refine ⟨htm, Int.emod_nonneg _ (by omega), Int.emod_lt_of_pos _ (by omega), ?_⟩
  by_cases hc : c + 1 < n
  · have e1 : (c + 1) % n = c + 1 := Int.emod_eq_of_lt (by omega) hc
    have e2 : c + 1 - 1 + n = c + n := by ring
    rw [e1, e2, Int.add_emod_self]
    exact Int.emod_eq_of_lt h0 h1
  · have hcn : c + 1 = n := by omega
    have e1 : (c + 1) % n = 0 := by
      rw [hcn]
      exact Int.emod_self
    have e2 : (0 : ℤ) - 1 + n = c := by omega
    rw [e1, e2]
    exact Int.emod_eq_of_lt h0 h1

theorem prev_index (n c : ℤ) (hn : 1 ≤ n) (h0 : 0 ≤ c) (h1 : c < n) :
    Int.tmod (c - 1 + n) n = (c - 1 + n) % n ∧ 0 ≤ (c - 1 + n) % n ∧ (c - 1 + n) % n < n ∧
    ((c - 1 + n) % n + 1) % n = c := by
  have htm : Int.tmod (c - 1 + n) n = (c - 1 + n) % n :=
    Int.tmod_eq_emod (by omega) (by omega)
  refine ⟨htm, Int.emod_nonneg _ (by omega), Int.emod_lt_of_pos _ (by omega), ?_⟩
  by_cases hc : 1 ≤ c
  · have e1 : (c - 1 + n) % n = c - 1 := by
      rw [Int.add_emod_self]
      exact Int.emod_eq_of_lt (by omega) (by omega)
    have e2 : c - 1 + 1 = c := by ring
    rw [e1, e2]
    exact Int.emod_eq_of_lt h0 h1
  · have hc0 : c = 0 := by omega
    subst hc0
    have e1 : ((0 : ℤ) - 1 + n) % n = n - 1 := by
      have h2 : (0 : ℤ) - 1 + n = n - 1 := by ring
      rw [h2]
      exact Int.emod_eq_of_lt (by omega) (by omega)
    have e2 : n - 1 + 1 = n := by ring
    rw [e1, e2]
    exact Int.emod_self

/-- C25: on a page that gives every slide its dot, for every slide count n ≥ 1 and every
`currentSlide` in [0, n), `nextSlide` sets `currentSlide` to (currentSlide + 1) mod n and
`previousSlide` to (currentSlide - 1 + n) mod n, both results lie in [0, n), and
`previousSlide` after `nextSlide`, as well as `nextSlide` after `previousSlide`, gives the
original index back; with both buttons present the two methods run to their end. -/
theorem slider_navigation_wraps (s : TestimonialsSlider) (hn : 1 ≤ s.slides)
    (h0 : 0 ≤ s.currentSlide) (h1 : s.currentSlide < s.slides) (hd : s.slides ≤ s.dots) :
    (s.nextSlide.state.currentSlide = (s.currentSlide + 1) % s.slides ∧
      0 ≤ s.nextSlide.state.currentSlide ∧ s.nextSlide.state.currentSlide < s.slides) ∧
    (s.previousSlide.state.currentSlide = (s.currentSlide - 1 + s.slides) % s.slides ∧
      0 ≤ s.previousSlide.state.currentSlide ∧
      s.previousSlide.state.currentSlide < s.slides) ∧
    s.nextSlide.state.previousSlide.state = s ∧
    s.previousSlide.state.nextSlide.state = s ∧
    (s.prevBtn = true → s.nextBtn = true →
      s.nextSlide.completed = true ∧ s.previousSlide.completed = true) := by
  have hnz : (1 : ℤ) ≤ s.slides := by exact_mod_cast hn
  obtain ⟨n1, n2, n3, n4⟩ := next_index s.slides s.currentSlide hnz h0 h1
  obtain ⟨p1, p2, p3, p4⟩ := prev_index s.slides s.currentSlide hnz h0 h1
  have hnext : s.nextSlide.state = { s with currentSlide := (s.currentSlide + 1) % s.slides } := by
    unfold TestimonialsSlider.nextSlide
    simp only []
    rw [(goToSlide_currentSlide _ s h0 h1 hd).1, n1]
  have hprev : s.previousSlide.state
      = { s with currentSlide := (s.currentSlide - 1 + s.slides) % s.slides } := by
    unfold TestimonialsSlider.previousSlide
    simp only []
    rw [(goToSlide_currentSlide _ s h0 h1 hd).1, p1]
  refine ⟨?_, ?_, ?_, ?_, ?_⟩
  · rw [hnext]
    exact ⟨rfl, n2, n3⟩
  · rw [hprev]
    exact ⟨rfl, p2, p3⟩
  · rw [hnext]
    obtain ⟨q1, -, -, -⟩ := prev_index s.slides ((s.currentSlide + 1) % s.slides) hnz n2 n3
    have g := (goToSlide_currentSlide s.currentSlide
      { s with currentSlide := (s.currentSlide + 1) % s.slides } n2 n3 hd).1
    show (TestimonialsSlider.goToSlide
      (Int.tmod ((s.currentSlide + 1) % s.slides - 1 + s.slides) s.slides)
      { s with currentSlide := (s.currentSlide + 1) % s.slides }).state = s
    rw [q1, n4, g]
  · rw [hprev]
    obtain ⟨q1, -, -, -⟩ := next_index s.slides ((s.currentSlide - 1 + s.slides) % s.slides)
      hnz p2 p3
    have g := (goToSlide_currentSlide s.currentSlide
      { s with currentSlide := (s.currentSlide - 1 + s.slides) % s.slides } p2 p3 hd).1
    show (TestimonialsSlider.goToSlide
      (Int.tmod ((s.currentSlide - 1 + s.slides) % s.slides + 1) s.slides)
      { s with currentSlide := (s.currentSlide - 1 + s.slides) % s.slides }).state = s
    rw [q1, p4, g]
  · intro hp hx
    constructor
    · unfold TestimonialsSlider.nextSlide
      simp only []
      exact (goToSlide_currentSlide _ s h0 h1 hd).2 (by rw [n1]; exact n2)
        (by rw [n1]; exact n3) hp hx
    · unfold TestimonialsSlider.previousSlide
      simp only []
      exact (goToSlide_currentSlide _ s h0 h1 hd).2 (by rw [p1]; exact p2)
        (by rw [p1]; exact p3) hp hx

/-- Witness for C25: three slides with three dots and both buttons, on the last slide. -/
theorem slider_navigation_wraps_witness :
    (1 ≤ (⟨3, 3, true, true, 2⟩ : TestimonialsSlider).slides ∧
      (0 : ℤ) ≤ (⟨3, 3, true, true, 2⟩ : TestimonialsSlider).currentSlide) ∧
    (⟨3, 3, true, true, 2⟩ : TestimonialsSlider).nextSlide.state.previousSlide.state
      = ⟨3, 3, true, true, 2⟩ :=
  ⟨⟨by decide, by decide⟩,
    (slider_navigation_wraps ⟨3, 3, true, true, 2⟩ (by decide) (by decide) (by decide)
      (by decide)).2.2.1⟩

/-! ## `TypingAnimation.type` -/

theorem type_typing (s : TypingAnimation) (cur : Text)
    (hcur : s.texts[s.textIndex]? = some cur) (hd : s.isDeleting = false)
    (hne : s.charIndex + 1 ≠ (cur.length : ℤ)) :
    s.type = some { s with
      textContent := cur.take (s.charIndex + 1).toNat
      charIndex := s.charIndex + 1 } := by
  unfold TypingAnimation.type
  rw [hcur]
  simp [hd, hne, TypingAnimation.substring0]

theorem type_typing_last (s : TypingAnimation) (cur : Text)
    (hcur : s.texts[s.textIndex]? = some cur) (hd : s.isDeleting = false)
    (heq : s.charIndex + 1 = (cur.length : ℤ)) :
    s.type = some { s with
      textContent := cur.take (s.charIndex + 1).toNat
      charIndex := s.charIndex + 1
      isDeleting := true } := by
  unfold TypingAnimation.type
  rw [hcur]
  simp [hd, heq, TypingAnimation.substring0]

theorem type_deleting (s : TypingAnimation) (cur : Text)
    (hcur : s.texts[s.textIndex]? = some cur) (hd : s.isDeleting = true)
    (hne : s.charIndex - 1 ≠ 0) :
    s.type = some { s with
      textContent := cur.take (s.charIndex - 1).toNat
      charIndex := s.charIndex - 1 } := by
  unfold TypingAnimation.type
  rw [hcur]
  simp [hd, hne, TypingAnimation.substring0]

theorem type_deleting_last (s : TypingAnimation) (cur : Text)
    (hcur : s.texts[s.textIndex]? = some cur) (hd : s.isDeleting = true)
    (heq : s.charIndex - 1 = 0) :
    s.type = some { s with
      textContent := cur.take (s.charIndex - 1).toNat
      charIndex := s.charIndex - 1
      isDeleting := false
      textIndex := (s.textIndex + 1) % s.texts.length } := by
  unfold TypingAnimation.type
  rw [hcur]
  simp [hd, heq, TypingAnimation.substring0]

/-- One call of `type()` keeps the invariant, does not throw, and leaves the element showing
the first `charIndex` characters of the current text. -/
theorem type_step_inv (texts : List Text) (hall : ∀ t ∈ texts, t ≠ []) (s : TypingAnimation)
    (h : s.Inv texts) :
    ∃ s', s.type = some s' ∧ s'.Inv texts ∧
      ∃ cur, texts[s'.textIndex]? = some cur ∧ s'.textContent = cur.take s'.charIndex.toNat := by
  obtain ⟨htx, cur, hcur, hty, hdel⟩ := h
  have hcur' : s.texts[s.textIndex]? = some cur := by rw [htx]; exact hcur
  cases hd : s.isDeleting with
  | false =>
    obtain ⟨h0, h1⟩ := hty hd
    by_cases hlast : s.charIndex + 1 = (cur.length : ℤ)
    · refine ⟨_, type_typing_last s cur hcur' hd hlast, ⟨htx, cur, hcur, ?_, ?_⟩,
        cur, hcur, rfl⟩
      · intro hc; exact absurd hc (by simp)
      · intro _; exact ⟨by show 1 ≤ s.charIndex + 1; omega,
          by show s.charIndex + 1 ≤ (cur.length : ℤ); omega⟩
    · refine ⟨_, type_typing s cur hcur' hd hlast, ⟨htx, cur, hcur, ?_, ?_⟩, cur, hcur, rfl⟩
      · intro _; exact ⟨by show 0 ≤ s.charIndex + 1; omega,
          by show s.charIndex + 1 < (cur.length : ℤ); omega⟩
      · intro hc
        have : s.isDeleting = true := hc
        rw [hd] at this
        exact absurd this (by simp)
  | true =>
    obtain ⟨h0, h1⟩ := hdel hd
    by_cases hlast : s.charIndex - 1 = 0
    · have hlen : 0 < texts.length := by
        have := (List.getElem?_eq_some_iff.mp hcur).1
        omega
      have hidx : (s.textIndex + 1) % s.texts.length < texts.length := by
        rw [htx]
        exact Nat.mod_lt _ hlen
      have hnext : texts[(s.textIndex + 1) % s.texts.length]?
          = some texts[(s.textIndex + 1) % s.texts.length] := List.getElem?_eq_getElem hidx
      have hmem : texts[(s.textIndex + 1) % s.texts.length] ∈ texts := List.getElem_mem _
      have hpos : 0 < (texts[(s.textIndex + 1) % s.texts.length]).length :=
        List.length_pos.mpr (hall _ hmem)
      refine ⟨_, type_deleting_last s cur hcur' hd hlast, ⟨htx, _, hnext, ?_, ?_⟩,
        _, hnext, ?_⟩
      · intro _
        refine ⟨by show 0 ≤ s.charIndex - 1; omega, ?_⟩
        show s.charIndex - 1 < _
        rw [hlast]
        exact_mod_cast hpos
      · intro hc; exact absurd hc (by simp)
      · show cur.take (s.charIndex - 1).toNat = _
        rw [hlast]
        simp
    · refine ⟨_, type_deleting s cur hcur' hd hlast, ⟨htx, cur, hcur, ?_, ?_⟩, cur, hcur, rfl⟩
      · intro hc
        have : s.isDeleting = false := hc
        rw [hd] at this
        exact absurd this (by simp)
      · intro _; exact ⟨by show 1 ≤ s.charIndex - 1; omega,
          by show s.charIndex - 1 ≤ (cur.length : ℤ); omega⟩

theorem typing_new_inv (texts : List Text) (hne : texts ≠ []) (hall : ∀ t ∈ texts, t ≠ [])
    (text : Text) : (TypingAnimation.new texts text).Inv texts := by
  obtain ⟨t, l, rfl⟩ := List.exists_cons_of_ne_nil hne
  have hget : (t :: l)[(TypingAnimation.new (t :: l) text).textIndex]? = some t := by
    simp [TypingAnimation.new]
  refine ⟨rfl, t, hget, fun _ => ⟨le_refl _, ?_⟩,
    fun hc => absurd hc (by simp [TypingAnimation.new])⟩
  have : 0 < t.length := List.length_pos.mpr (hall t (List.mem_cons_self t l))
  show (0 : ℤ) < _
  exact_mod_cast this

/-- Every number of calls of `type()` from a state with the invariant runs without throwing
and ends in a state with the invariant; from the first call on the element shows the first
`charIndex` characters of the current text. -/
theorem typeN_inv (texts : List Text) (hall : ∀ t ∈ texts, t ≠ []) (s : TypingAnimation)
    (h : s.Inv texts) :
    ∀ k : ℕ, ∃ s', TypingAnimation.typeN k s = some s' ∧ s'.Inv texts ∧
      (1 ≤ k → ∃ cur, texts[s'.textIndex]? = some cur ∧
        s'.textContent = cur.take s'.charIndex.toNat) := by
  intro k
  induction k with
  | zero => exact ⟨s, rfl, h, fun h0 => absurd h0 (by omega)⟩
  | succ k ih =>
    obtain ⟨s₁, hs₁, hinv, -⟩ := ih
    obtain ⟨s₂, hs₂, hinv₂, hdisp⟩ := type_step_inv texts hall s₁ hinv
    refine ⟨s₂, ?_, hinv₂, fun _ => hdisp⟩
    simp [TypingAnimation.typeN, hs₁, hs₂]

theorem typeN_add (a b : ℕ) (s : TypingAnimation) :
    TypingAnimation.typeN (a + b) s
      = (TypingAnimation.typeN a s).bind (TypingAnimation.typeN b) := by
  induction b with
  | zero => simp [TypingAnimation.typeN]
  | succ b ih =>
    show (TypingAnimation.typeN (a + b) s).bind TypingAnimation.type = _
    rw [ih]
    cases TypingAnimation.typeN a s with
    | none => rfl
    | some x => rfl

/-- While typing and before the last character, `j` calls of `type()` move the cursor `j`
characters forward and change neither the text index nor the mode. -/
theorem typing_phase (cur : Text) :
    ∀ (j : ℕ) (s : TypingAnimation), s.texts[s.textIndex]? = some cur →
      s.isDeleting = false → s.charIndex + j < (cur.length : ℤ) →
      ∃ s', TypingAnimation.typeN j s = some s' ∧ s'.texts = s.texts ∧
        s'.textIndex = s.textIndex ∧ s'.isDeleting = false ∧ s'.charIndex = s.charIndex + j := by
  intro j
  induction j with
  | zero => intro s _ hd _; exact ⟨s, rfl, rfl, rfl, hd, by simp⟩
  | succ j ih =>
    intro s hcur hd hlt
    obtain ⟨s₁, h1, htx, hti, hdel, hch⟩ := ih s hcur hd (by push_cast at hlt; omega)
    have hcur₁ : s₁.texts[s₁.textIndex]? = some cur := by rw [htx, hti]; exact hcur
    have hne : s₁.charIndex + 1 ≠ (cur.length : ℤ) := by
      rw [hch]
      push_cast at hlt
      omega
    refine ⟨{ s₁ with
      textContent := cur.take (s₁.charIndex + 1).toNat
      charIndex := s₁.charIndex + 1 }, ?_, ?_, ?_, ?_, ?_⟩
    · show (TypingAnimation.typeN j s).bind TypingAnimation.type = _
      rw [h1]
      exact type_typing s₁ cur hcur₁ hdel hne
    · exact htx
    · exact hti
    · exact hdel
    · show s₁.charIndex + 1 = s.charIndex + ((j + 1 : ℕ) : ℤ)
      rw [hch]
      push_cast
      ring

/-- While deleting and before the last character, `j` calls of `type()` move the cursor `j`
characters back and change neither the text index nor the mode. -/
theorem deleting_phase (cur : Text) :
    ∀ (j : ℕ) (s : TypingAnimation), s.texts[s.textIndex]? = some cur →
      s.isDeleting = true → (j : ℤ) < s.charIndex →
      ∃ s', TypingAnimation.typeN j s = some s' ∧ s'.texts = s.texts ∧
        s'.textIndex = s.textIndex ∧ s'.isDeleting = true ∧ s'.charIndex = s.charIndex - j := by
  intro j
  induction j with
  | zero => intro s _ hd _; exact ⟨s, rfl, rfl, rfl, hd, by simp⟩
  | succ j ih =>
    intro s hcur hd hlt
    obtain ⟨s₁, h1, htx, hti, hdel, hch⟩ := ih s hcur hd (by push_cast at hlt; omega)
    have hcur₁ : s₁.texts[s₁.textIndex]? = some cur := by rw [htx, hti]; exact hcur
    have hne : s₁.charIndex - 1 ≠ 0 := by
      rw [hch]
      push_cast at hlt
      omega
    refine ⟨{ s₁ with
      textContent := cur.take (s₁.charIndex - 1).toNat
      charIndex := s₁.charIndex - 1 }, ?_, ?_, ?_, ?_, ?_⟩
    · show (TypingAnimation.typeN j s).bind TypingAnimation.type = _
      rw [h1]
      exact type_deleting s₁ cur hcur₁ hdel hne
    · exact htx
    · exact hti
    · exact hdel
    · show s₁.charIndex - 1 = s.charIndex - ((j + 1 : ℕ) : ℤ)
      rw [hch]
      push_cast
      ring

/-- One full cycle from the start of a text: after as many calls as the text has characters
the whole text is shown and deletion starts; after as many calls again the element is empty
and the text index has advanced by one, modulo the number of texts. -/
theorem typing_cycle (cur : Text) (hne : cur ≠ []) (s : TypingAnimation)
    (hcur : s.texts[s.textIndex]? = some cur) (hd : s.isDeleting = false)
    (hc : s.charIndex = 0) :
    ∃ m s', TypingAnimation.typeN cur.length s = some m ∧ m.textContent = cur ∧
      m.textIndex = s.textIndex ∧ m.isDeleting = true ∧
      TypingAnimation.typeN (2 * cur.length) s = some s' ∧
      s'.textIndex = (s.textIndex + 1) % s.texts.length ∧ s'.charIndex = 0 ∧
      s'.isDeleting = false ∧ s'.textContent = [] := by
  obtain ⟨n, hn⟩ : ∃ n, cur.length = n + 1 :=
    ⟨cur.length - 1, by have := List.length_pos.mpr hne; omega⟩
  obtain ⟨s₁, h1, htx₁, hti₁, hdel₁, hch₁⟩ := typing_phase cur n s hcur hd
    (by rw [hc, hn]; push_cast; omega)
  have hcur₁ : s₁.texts[s₁.textIndex]? = some cur := by rw [htx₁, hti₁]; exact hcur
  have heq₁ : s₁.charIndex + 1 = (cur.length : ℤ) := by
    rw [hch₁, hc, hn]
    push_cast
    ring
  have hm : TypingAnimation.typeN cur.length s = some { s₁ with
      textContent := cur.take (s₁.charIndex + 1).toNat
      charIndex := s₁.charIndex + 1
      isDeleting := true } := by
    rw [hn]
    show (TypingAnimation.typeN n s).bind TypingAnimation.type = _
    rw [h1]
    exact type_typing_last s₁ cur hcur₁ hdel₁ heq₁
  have htake : cur.take (s₁.charIndex + 1).toNat = cur := by
    rw [heq₁]
    simp
  obtain ⟨s₃, h3, htx₃, hti₃, hdel₃, hch₃⟩ := deleting_phase cur n
    { s₁ with
      textContent := cur.take (s₁.charIndex + 1).toNat
      charIndex := s₁.charIndex + 1
      isDeleting := true } hcur₁ rfl
    (by show (n : ℤ) < s₁.charIndex + 1; rw [heq₁, hn]; push_cast; omega)
  have htx₃' : s₃.texts = s.texts := htx₃.trans htx₁
  have hti₃' : s₃.textIndex = s.textIndex := hti₃.trans hti₁
  have hcur₃ : s₃.texts[s₃.textIndex]? = some cur := by rw [htx₃', hti₃']; exact hcur
  have hch₃' : s₃.charIndex = 1 := by
    rw [hch₃]
    show s₁.charIndex + 1 - (n : ℤ) = 1
    rw [heq₁, hn]
    push_cast
    ring
  have heq₃ : s₃.charIndex - 1 = 0 := by rw [hch₃']; ring
  have hend : TypingAnimation.typeN (2 * cur.length) s = some { s₃ with
      textContent := cur.take (s₃.charIndex - 1).toNat
      charIndex := s₃.charIndex - 1
      isDeleting := false
      textIndex := (s₃.textIndex + 1) % s₃.texts.length } := by
    rw [two_mul, typeN_add, hm, Option.some_bind, hn]
    show (TypingAnimation.typeN n _).bind TypingAnimation.type = _
    rw [h3]
    exact type_deleting_last s₃ cur hcur₃ hdel₃ heq₃
  refine ⟨_, _, hm, htake, hti₁, rfl, hend, ?_, heq₃, rfl, ?_⟩
  · show (s₃.textIndex + 1) % s₃.texts.length = _
    rw [htx₃', hti₃']
  · show cur.take (s₃.charIndex - 1).toNat = []
    rw [heq₃]
    simp

/-- C26: for every non-empty list of non-empty texts, every number of `type()` calls from the
initial state runs without throwing and reaches a state with `textIndex` below the number of
texts and `charIndex` between 0 and the length of the current text; from the first call on the
element shows the first `charIndex` characters of the current text; and from each reachable
state at the start of a text, typing it fully and deleting it fully takes twice its length in
calls and advances `textIndex` to (textIndex + 1) mod the number of texts. -/
theorem typing_cursor_in_range (texts : List Text) (hne : texts ≠ [])
    (hall : ∀ t ∈ texts, t ≠ []) (text : Text) (k : ℕ) :
    ∃ s cur, TypingAnimation.typeN k (TypingAnimation.new texts text) = some s ∧
      s.textIndex < texts.length ∧ texts[s.textIndex]? = some cur ∧
      0 ≤ s.charIndex ∧ s.charIndex ≤ (cur.length : ℤ) ∧
      (1 ≤ k → s.textContent = cur.take s.charIndex.toNat) ∧
      (s.charIndex = 0 → s.isDeleting = false →
        ∃ m s', TypingAnimation.typeN cur.length s = some m ∧ m.textContent = cur ∧
          m.textIndex = s.textIndex ∧
          TypingAnimation.typeN (2 * cur.length) s = some s' ∧
          s'.textIndex = (s.textIndex + 1) % texts.length ∧ s'.charIndex = 0 ∧
          s'.isDeleting = false) := by
  obtain ⟨s, hs, ⟨htx, cur, hcur, hty, hdel⟩, hdisp⟩ :=
    typeN_inv texts hall _ (typing_new_inv texts hne hall text) k
  have hlt : s.textIndex < texts.length := (List.getElem?_eq_some_iff.mp hcur).1
  have hmem : cur ∈ texts := by
    obtain ⟨hi, he⟩ := List.getElem?_eq_some_iff.mp hcur
    rw [← he]
    exact List.getElem_mem hi
  have hbounds : 0 ≤ s.charIndex ∧ s.charIndex ≤ (cur.length : ℤ) := by
    cases hd : s.isDeleting with
    | false => obtain ⟨a, b⟩ := hty hd; exact ⟨a, by omega⟩
    | true => obtain ⟨a, b⟩ := hdel hd; exact ⟨by omega, b⟩
  refine ⟨s, cur, hs, hlt, hcur, hbounds.1, hbounds.2, ?_, ?_⟩
  · intro h1
    obtain ⟨cur', hcur', hd'⟩ := hdisp h1
    rw [hcur] at hcur'
    cases hcur'
    exact hd'
  · intro hc hd
    have hcur' : s.texts[s.textIndex]? = some cur := by rw [htx]; exact hcur
    obtain ⟨m, s', h1, h2, h3, -, h5, h6, h7, h8, -⟩ :=
      typing_cycle cur (hall cur hmem) s hcur' hd hc
    rw [htx] at h6
    exact ⟨m, s', h1, h2, h3, h5, h6, h7, h8⟩

/-- Witness for C26: the texts `ab` and `c`, on an empty element, after three calls. -/
theorem typing_cursor_in_range_witness :
    ["ab".toList, "c".toList] ≠ [] ∧ (∀ t ∈ ["ab".toList, "c".toList], t ≠ []) ∧
    ∃ s cur, TypingAnimation.typeN 3 (TypingAnimation.new ["ab".toList, "c".toList] []) = some s ∧
      s.textIndex < ["ab".toList, "c".toList].length ∧
      ["ab".toList, "c".toList][s.textIndex]? = some cur := by
  have h1 : ["ab".toList, "c".toList] ≠ [] := by decide
  have h2 : ∀ t ∈ ["ab".toList, "c".toList], t ≠ [] := by decide
  obtain ⟨s, cur, a, b, c, -⟩ :=
    typing_cursor_in_range ["ab".toList, "c".toList] h1 h2 [] 3
  exact ⟨h1, h2, s, cur, a, b, c⟩

/-! ## `Utils.validateEmail` -/

theorem validateEmail_examples :
    Utils.validateEmail "a@b.c".toList = true ∧ Utils.validateEmail "a@b".toList = false ∧
    Utils.validateEmail "a b@c.d".toList = false ∧ Utils.validateEmail "a@b@c.d".toList = false ∧
    Utils.validateEmail "a@.c".toList = false ∧ Utils.validateEmail "a@b.".toList = false ∧
    Utils.validateEmail "a@b.c.d".toList = true := by
  decide

theorem formatPhoneNumber_example :
    Utils.formatPhoneNumber "tel 2348012345678!".toList = "tel +234 801 234 5678!".toList := by
  decide

theorem emailClass_atSign (c : Char) : emailClass c = EmailClass.atSign ↔ c = '@' := by
  unfold emailClass
  split_ifs <;> simp_all

theorem emailClass_dot (c : Char) : emailClass c = EmailClass.dot ↔ c = '.' := by
  unfold emailClass
  split_ifs with h1 h2 h3
  · subst h1
    simp
  · simp [h2]
  · simp [h2]
  · simp [h2]

theorem emailClass_plain (c : Char) :
    (emailClass c = EmailClass.dot ∨ emailClass c = EmailClass.other) ↔
      (c ≠ '@' ∧ isWhiteSpace c = false) := by
  unfold emailClass
  split_ifs with h1 h2 h3
  · simp [h1]
  · subst h2
    simp
    decide
  · simp [h1, h3]
  · simp [h1, h3]

theorem mem_notSpaceAt (y : List EmailClass) :
    y ∈ notSpaceAt.matches' ↔ ∃ k, (k = EmailClass.dot ∨ k = EmailClass.other) ∧ y = [k] := by
  unfold notSpaceAt
  rw [RegularExpression.matches'_add, Language.mem_add, RegularExpression.matches'_char,
    RegularExpression.matches'_char]
  constructor
  · rintro (h | h)
    · exact ⟨EmailClass.dot, Or.inl rfl, h⟩
    · exact ⟨EmailClass.other, Or.inr rfl, h⟩
  · rintro ⟨k, hk | hk, rfl⟩
    · left; rw [hk]; rfl
    · right; rw [hk]; rfl

theorem flatten_singletons (l : List EmailClass) : (l.map fun c => [c]).flatten = l := by
  induction l with
  | nil => rfl
  | cons a l ih => simp [List.flatten, ih]

/-- The language of `[^\s@]+`: the non-empty words over the kinds `dot` and `other`. -/
theorem mem_oneOrMore (x : List EmailClass) :
    x ∈ (oneOrMore notSpaceAt).matches' ↔
      x ≠ [] ∧ ∀ k ∈ x, k = EmailClass.dot ∨ k = EmailClass.other := by
  unfold oneOrMore
  rw [RegularExpression.matches'_mul, RegularExpression.matches'_star, Language.mem_mul]
  constructor
  · rintro ⟨a, ha, b, hb, rfl⟩
    obtain ⟨k, hk, rfl⟩ := (mem_notSpaceAt a).mp ha
    obtain ⟨L, rfl, hL⟩ := Language.mem_kstar.mp hb
    refine ⟨by simp, ?_⟩
    intro k' hk'
    rcases List.mem_append.mp hk' with h | h
    · rw [List.mem_singleton] at h
      rw [h]
      exact hk
    · obtain ⟨y, hy, hky⟩ := List.mem_flatten.mp h
      obtain ⟨k'', hk'', rfl⟩ := (mem_notSpaceAt y).mp (hL y hy)
      rw [List.mem_singleton] at hky
      rw [hky]
      exact hk''
  · rintro ⟨hne, hall⟩
    obtain ⟨k, rest, rfl⟩ := List.exists_cons_of_ne_nil hne
    refine ⟨[k], (mem_notSpaceAt _).mpr ⟨k, hall k (List.mem_cons_self k rest), rfl⟩, rest,
      ?_, rfl⟩
    refine Language.mem_kstar.mpr ⟨rest.map fun c => [c], (flatten_singletons rest).symm, ?_⟩
    intro y hy
    obtain ⟨c, hc, rfl⟩ := List.mem_map.mp hy
    exact (mem_notSpaceAt _).mpr ⟨c, hall c (List.mem_cons_of_mem k hc), rfl⟩

/-- The language of the regular expression of `validateEmail`, over kinds of character. -/
theorem mem_emailRegExp (x : List EmailClass) :
    x ∈ emailRegExp.matches' ↔
      ∃ A B C : List EmailClass,
        x = A ++ EmailClass.atSign :: (B ++ EmailClass.dot :: C) ∧
        A ∈ (oneOrMore notSpaceAt).matches' ∧ B ∈ (oneOrMore notSpaceAt).matches' ∧
        C ∈ (oneOrMore notSpaceAt).matches' := by
  unfold emailRegExp
  simp only [RegularExpression.matches'_mul, RegularExpression.matches'_char, Language.mem_mul]
  constructor
  · rintro ⟨_, ⟨_, ⟨_, ⟨A, hA, _, ha, rfl⟩, B, hB, rfl⟩, _, hd, rfl⟩, C, hC, rfl⟩
    have ha' : _ = [EmailClass.atSign] := ha
    have hd' : _ = [EmailClass.dot] := hd
    subst ha' hd'
    exact ⟨A, B, C, by simp, hA, hB, hC⟩
  · rintro ⟨A, B, C, rfl, hA, hB, hC⟩
    exact ⟨_, ⟨_, ⟨_, ⟨A, hA, [EmailClass.atSign], rfl, rfl⟩, B, hB, rfl⟩,
      [EmailClass.dot], rfl, rfl⟩, C, hC, by simp⟩

theorem plain_map_iff (a : Text) :
    (∀ k ∈ a.map emailClass, k = EmailClass.dot ∨ k = EmailClass.other) ↔
      ∀ c ∈ a, c ≠ '@' ∧ isWhiteSpace c = false := by
  constructor
  · intro h c hc
    exact (emailClass_plain c).mp (h _ (List.mem_map_of_mem emailClass hc))
  · intro h k hk
    obtain ⟨c, hc, rfl⟩ := List.mem_map.mp hk
    exact (emailClass_plain c).mpr (h c hc)

theorem mem_oneOrMore_map (a : Text) :
    a.map emailClass ∈ (oneOrMore notSpaceAt).matches' ↔
      a ≠ [] ∧ ∀ c ∈ a, c ≠ '@' ∧ isWhiteSpace c = false := by
  rw [mem_oneOrMore, plain_map_iff]
  simp

/-- C27: `Utils.validateEmail` returns true exactly for the strings without white space that
split as a non-empty part without `@`, one `@`, and a part without `@` in which some `.` has at
least one character before it and at least one after it; such a string contains exactly one
`@`; for every other string the result is false. -/
theorem validateEmail_characterisation (email : Text) :
    (Utils.validateEmail email = true ↔
      (∀ c ∈ email, isWhiteSpace c = false) ∧
      ∃ a b₁ b₂ : Text, email = a ++ '@' :: (b₁ ++ '.' :: b₂) ∧
        '@' ∉ a ∧ '@' ∉ b₁ ∧ '@' ∉ b₂ ∧ a ≠ [] ∧ b₁ ≠ [] ∧ b₂ ≠ []) ∧
    (Utils.validateEmail email = true → email.count '@' = 1) := by
  have key : Utils.validateEmail email = true ↔
      (∀ c ∈ email, isWhiteSpace c = false) ∧
      ∃ a b₁ b₂ : Text, email = a ++ '@' :: (b₁ ++ '.' :: b₂) ∧
        '@' ∉ a ∧ '@' ∉ b₁ ∧ '@' ∉ b₂ ∧ a ≠ [] ∧ b₁ ≠ [] ∧ b₂ ≠ [] := by
    unfold Utils.validateEmail
    rw [RegularExpression.rmatch_iff_matches', mem_emailRegExp]
    constructor
    · rintro ⟨A, B, C, hx, hA, hB, hC⟩
      obtain ⟨a, r, rfl, rfl, hr⟩ := List.map_eq_append_iff.mp hx
      obtain ⟨c, r', rfl, hc, hr'⟩ := List.map_eq_cons_iff.mp hr
      obtain ⟨b₁, r'', rfl, rfl, hr''⟩ := List.map_eq_append_iff.mp hr'
      obtain ⟨d, b₂, rfl, hd, rfl⟩ := List.map_eq_cons_iff.mp hr''
      have hc' : c = '@' := (emailClass_atSign c).mp hc
      have hd' : d = '.' := (emailClass_dot d).mp hd
      subst hc' hd'
      obtain ⟨ha0, ha⟩ := (mem_oneOrMore_map a).mp hA
      obtain ⟨hb0, hb⟩ := (mem_oneOrMore_map b₁).mp hB
      obtain ⟨hc0, hcc⟩ := (mem_oneOrMore_map b₂).mp hC
      refine ⟨?_, a, b₁, b₂, rfl, fun h => (ha _ h).1 rfl, fun h => (hb _ h).1 rfl,
        fun h => (hcc _ h).1 rfl, ha0, hb0, hc0⟩
      intro x hx'
      simp only [List.mem_append, List.mem_cons] at hx'
      rcases hx' with h | h | h | h | h
      · exact (ha x h).2
      · rw [h]; decide
      · exact (hb x h).2
      · rw [h]; decide
      · exact (hcc x h).2
    · rintro ⟨hws, a, b₁, b₂, rfl, ha, hb, hc, ha0, hb0, hc0⟩
      have hmem : ∀ (l : Text), (∀ c ∈ l, isWhiteSpace c = false) → '@' ∉ l →
          ∀ c ∈ l, c ≠ '@' ∧ isWhiteSpace c = false := by
        intro l h1 h2 c hc'
        exact ⟨fun h => h2 (h ▸ hc'), h1 c hc'⟩
      refine ⟨a.map emailClass, b₁.map emailClass, b₂.map emailClass, ?_,
        (mem_oneOrMore_map a).mpr ⟨ha0, hmem a (fun c h => hws c (by simp [h])) ha⟩,
        (mem_oneOrMore_map b₁).mpr ⟨hb0, hmem b₁ (fun c h => hws c (by simp [h])) hb⟩,
        (mem_oneOrMore_map b₂).mpr ⟨hc0, hmem b₂ (fun c h => hws c (by simp [h])) hc⟩⟩
      simp [emailClass]
  refine ⟨key, fun h => ?_⟩
  obtain ⟨-, a, b₁, b₂, rfl, ha, hb, hc, -⟩ := key.mp h
  have h1 : a.count '@' = 0 := List.count_eq_zero.mpr ha
  have h2 : b₁.count '@' = 0 := List.count_eq_zero.mpr hb
  have h3 : b₂.count '@' = 0 := List.count_eq_zero.mpr hc
  simp [List.count_append, List.count_cons, h1, h2, h3]

/-- Witness for C27: the string `a@b.c` is accepted. -/
theorem validateEmail_characterisation_witness :
    Utils.validateEmail "a@b.c".toList = true :=
  (validateEmail_characterisation "a@b.c".toList).1.mpr
    ⟨by decide, "a".toList, "b".toList, "c".toList, by decide, by decide, by decide, by decide,
      by decide, by decide, by decide⟩

/-! ## `Utils.formatPhoneNumber` -/

theorem formatPhoneNumber_of_match (s : Text) (h : phoneMatchesAt s = true) :
    Utils.formatPhoneNumber s = phoneReplacement (s.take 13) ++ s.drop 13 := by
  cases s with
  | nil => exact absurd h (by decide)
  | cons c cs => simp only [Utils.formatPhoneNumber, h, if_true]

theorem formatPhoneNumber_of_no_match (c : Char) (cs : Text)
    (h : phoneMatchesAt (c :: cs) = false) :
    Utils.formatPhoneNumber (c :: cs) = c :: Utils.formatPhoneNumber cs := by
  simp only [Utils.formatPhoneNumber, h, Bool.false_eq_true, if_false]

theorem phoneMatchesAt_of_digits (ds post : Text) (hlen : ds.length = 13)
    (hd : ∀ c ∈ ds, c.isDigit = true) : phoneMatchesAt (ds ++ post) = true := by
  have htake : (ds ++ post).take 13 = ds := by
    rw [← hlen]
    exact List.take_left ds post
  unfold phoneMatchesAt
  rw [htake]
  simp only [Bool.and_eq_true, decide_eq_true_eq, List.all_eq_true, List.length_append]
  exact ⟨by omega, hd⟩

/-- The leftmost match is the one rewritten. -/
theorem formatPhoneNumber_leftmost (ds post : Text) (hlen : ds.length = 13)
    (hd : ∀ c ∈ ds, c.isDigit = true) :
    ∀ lead : Text, (∀ k, k < lead.length → phoneMatchesAt ((lead ++ ds ++ post).drop k) = false) →
      Utils.formatPhoneNumber (lead ++ ds ++ post) = lead ++ phoneReplacement ds ++ post := by
  intro lead
  induction lead with
  | nil =>
    intro _
    have hm := phoneMatchesAt_of_digits ds post hlen hd
    have htake : (ds ++ post).take 13 = ds := by
      rw [← hlen]
      exact List.take_left ds post
    have hdrop : (ds ++ post).drop 13 = post := by
      rw [← hlen]
      exact List.drop_left ds post
    simp only [List.nil_append]
    rw [formatPhoneNumber_of_match _ hm, htake, hdrop]
  | cons p lead ih =>
    intro h
    have h0 : phoneMatchesAt (p :: (lead ++ ds ++ post)) = false := by
      have := h 0 (by simp)
      simpa using this
    have hrest : ∀ k, k < lead.length →
        phoneMatchesAt ((lead ++ ds ++ post).drop k) = false := by
      intro k hk
      have := h (k + 1) (by simp; omega)
      simpa using this
    have e : p :: lead ++ ds ++ post = p :: (lead ++ ds ++ post) := by simp
    rw [e, formatPhoneNumber_of_no_match _ _ h0, ih hrest]
    simp

/-- A text without thirteen consecutive digits is returned as it is. -/
theorem formatPhoneNumber_unchanged :
    ∀ s : Text, (∀ lead ds post : Text, s = lead ++ ds ++ post → ds.length = 13 →
        ¬ ∀ c ∈ ds, c.isDigit = true) →
      Utils.formatPhoneNumber s = s := by
  intro s
  induction s with
  | nil => intro _; rfl
  | cons c cs ih =>
    intro h
    have h0 : phoneMatchesAt (c :: cs) = false := by
      cases hm : phoneMatchesAt (c :: cs) with
      | false => rfl
      | true =>
        exfalso
        unfold phoneMatchesAt at hm
        simp only [Bool.and_eq_true, decide_eq_true_eq, List.all_eq_true] at hm
        refine h [] ((c :: cs).take 13) ((c :: cs).drop 13) (by simp) ?_ hm.2
        rw [List.length_take]
        omega
    rw [formatPhoneNumber_of_no_match _ _ h0, ih]
    intro lead ds post hs hlen
    exact h (c :: lead) ds post (by rw [hs]; simp) hlen

/-- C28: `Utils.formatPhoneNumber` turns a string of exactly thirteen digits d1..d13 into
`+` d1d2d3, a blank, d4d5d6, a blank, d7d8d9, a blank and d10d11d12d13; in a longer string it
rewrites the leftmost thirteen consecutive digits in this way and nothing else; and it returns
every string without thirteen consecutive digits unchanged. -/
theorem formatPhoneNumber_leftmost_run :
    (∀ d1 d2 d3 d4 d5 d6 d7 d8 d9 d10 d11 d12 d13 : Char,
      (∀ c ∈ [d1, d2, d3, d4, d5, d6, d7, d8, d9, d10, d11, d12, d13], c.isDigit = true) →
      Utils.formatPhoneNumber [d1, d2, d3, d4, d5, d6, d7, d8, d9, d10, d11, d12, d13]
        = ['+', d1, d2, d3, ' ', d4, d5, d6, ' ', d7, d8, d9, ' ', d10, d11, d12, d13]) ∧
    (∀ lead ds post : Text, ds.length = 13 → (∀ c ∈ ds, c.isDigit = true) →
      (∀ k, k < lead.length → phoneMatchesAt ((lead ++ ds ++ post).drop k) = false) →
      Utils.formatPhoneNumber (lead ++ ds ++ post) = lead ++ phoneReplacement ds ++ post) ∧
    (∀ s : Text, (∀ lead ds post : Text, s = lead ++ ds ++ post → ds.length = 13 →
        ¬ ∀ c ∈ ds, c.isDigit = true) →
      Utils.formatPhoneNumber s = s) := by
  refine ⟨?_, fun lead ds post hlen hd h => formatPhoneNumber_leftmost ds post hlen hd lead h,
    formatPhoneNumber_unchanged⟩
  intro d1 d2 d3 d4 d5 d6 d7 d8 d9 d10 d11 d12 d13 hd
  have h := formatPhoneNumber_leftmost [d1, d2, d3, d4, d5, d6, d7, d8, d9, d10, d11, d12, d13]
    [] rfl hd [] (fun k hk => absurd hk (by simp))
  simp only [List.nil_append, List.append_nil] at h
  rw [h]
  rfl

/-- Witness for C28: the thirteen digits `2348012345678`, and the text `call me`. -/
theorem formatPhoneNumber_leftmost_run_witness :
    Utils.formatPhoneNumber "2348012345678".toList = "+234 801 234 5678".toList ∧
    Utils.formatPhoneNumber "call me".toList = "call me".toList := by
  constructor
  · exact formatPhoneNumber_leftmost_run.1 '2' '3' '4' '8' '0' '1' '2' '3' '4' '5' '6' '7' '8'
      (by decide)
  · apply formatPhoneNumber_leftmost_run.2.2
    intro lead ds post hs hlen
    have hl := congrArg List.length hs
    simp only [List.length_append, hlen] at hl
    have : "call me".toList.length = 7 := by decide
    omega

end Idisi
